import Mathlib

/-!
# vmill: trace lifter naming and executor task protocol

A shallow embedding of `src/vmill/BC/Lifter.cpp` (trace hash, lifted function
names, `LiftIntoModule`) and `src/vmill/Executor/Executor.cpp` (task queue,
`Run`, `AddInitialTask`, the destructor, the memory callbacks), followed by the
properties established about them.

Conventions: 64-bit values are natural numbers; a pointer is a natural number
with `nullptr = 0`; `Option` results are `none` when a `CHECK` aborts the
process (or, for loops driven by fuel, when the fuel runs out).
-/

namespace vmill

/-! ## Hexadecimal and decimal stream output -/

/-- One lower-case hexadecimal digit, as printed by a stream in `std::hex` mode. -/
def hexDigit (d : Nat) : Char :=
  match d with
  | 0 => '0' | 1 => '1' | 2 => '2' | 3 => '3'
  | 4 => '4' | 5 => '5' | 6 => '6' | 7 => '7'
  | 8 => '8' | 9 => '9' | 10 => 'a' | 11 => 'b'
  | 12 => 'c' | 13 => 'd' | 14 => 'e' | _ => 'f'

/-- Digit loop of the stream insertion `ns << std::hex << value`: the least
significant digit is produced first and pushed in front of the digits already
produced; the loop stops when the quotient is zero. -/
def hexLoop : Nat → Nat → List Char → List Char
  | 0, _, acc => acc
  | fuel + 1, n, acc =>
    let acc1 := hexDigit (n % 16) :: acc
    if n / 16 = 0 then acc1 else hexLoop fuel (n / 16) acc1

/-- Text of `ns << std::hex << n` for an unsigned integer: lower-case digits,
no base marker, no padding; zero prints as `0`. -/
def toHex (n : Nat) : List Char := hexLoop (n + 1) n []

/-- Function `LiftedFunctionName` (Lifter.cpp:116-120):
`ns << "$" << std::hex << pc << "_" << std::hex << hash`. -/
def LiftedFunctionName (pc hash : Nat) : String :=
  String.mk ('$' :: toHex pc ++ '_' :: toHex hash)

/-! ### Reading a hexadecimal numeral (specification side) -/

/-- Value of one lower-case hexadecimal digit character. -/
def hexCharValue (c : Char) : Nat :=
  if c.toNat < 58 then c.toNat - 48 else c.toNat - 87

/-- Value denoted by a string of hexadecimal digits, most significant first. -/
def hexValue (s : List Char) : Nat :=
  s.foldl (fun acc c => acc * 16 + hexCharValue c) 0

/-- The characters allowed in a lower-case hexadecimal numeral. -/
def lowerHexChars : List Char := "0123456789abcdef".data

/-- Specification of "n in hexadecimal": a non-empty string of lower-case
hexadecimal digits, without a leading zero unless it is the single digit `0`
(so no padding and no `0x` marker), whose value is `n`. -/
def IsLowerHexOf (s : List Char) (n : Nat) : Prop :=
  s ≠ [] ∧ (∀ c ∈ s, c ∈ lowerHexChars) ∧ (s.head? = some '0' → s = ['0']) ∧
    hexValue s = n

/-! ## Decoded instructions and the trace hash -/

/-- Instruction categories of `remill::Instruction` that the lifter switches
on (Lifter.cpp:208-247). -/
inductive Category
  | Invalid | Error | Normal | NoOp
  | DirectJump | DirectFunctionCall
  | IndirectJump | IndirectFunctionCall | FunctionReturn
  | ConditionalBranch | AsyncHyperCall | ConditionalAsyncHyperCall
  deriving DecidableEq, Repr

/-- The fields of a decoded `remill::Instruction` that the lifter reads. The
byte string `bytes` is a list of byte values. -/
structure Instruction where
  bytes : List Nat
  category : Category
  next_pc : Nat
  branch_taken_pc : Nat
  branch_not_taken_pc : Nat
  deriving DecidableEq, Repr

/-- Modelled from the spec: the type `InstructionMap` is declared in
`vmill/Arch/Decoder.h`, which is not among the sources; following the spec
("a mapping pc → DecodedInstruction", hashed "in PC order") it is an ordered map
keyed by pc. It is represented by its entries in iteration order, which for an
ordered map is strictly ascending in the key. -/
structure InstructionMap where
  entries : List (Nat × Instruction)
  ascending : entries.Pairwise (fun a b => a.1 < b.1)

/-- The call `insts.count(pc)` on the ordered map: 1 when the key is present, else 0. -/
def InstructionMap.count (insts : InstructionMap) (pc : Nat) : Nat :=
  if insts.entries.any (fun e => e.1 == pc) then 1 else 0

/-- Function `TraceHash` (Lifter.cpp:104-111): every instruction's bytes are streamed
into one string in map iteration order and the string is hashed. The string
hash `std::hash<std::string>` is a parameter; the result is a `uint64_t`. -/
def TraceHash (strHash : List Nat → Nat) (insts : InstructionMap) : Nat :=
  strHash ((insts.entries.map (fun e => e.2.bytes)).flatten) % 2 ^ 64

/-- Specification side of "the instructions' byte strings taken in ascending
PC order": sort the entries of the map by pc, then concatenate their bytes. -/
def bytesInPcOrder (entries : List (Nat × Instruction)) : List Nat :=
  ((entries.insertionSort (fun a b => a.1 ≤ b.1)).map (fun e => e.2.bytes)).flatten

/-! ## The IR built by the lifter -/

/-- The remill intrinsics that terminate a lifted block. -/
inductive Intrinsic
  | error | missing_block | jump | function_call | function_return
  | async_hyper_call
  deriving DecidableEq, Repr

/-- Block terminators emitted by the lifter. A branch target is a basic block
of the function under construction, named by the pc it was created for. The
condition of a conditional branch is always `remill::LoadBranchTaken(block)`,
the branch-taken flag. -/
inductive Terminator
  | br (target : Nat)
  | condBr (taken not_taken : Nat)
  | tailCall (callee : Intrinsic)
  deriving DecidableEq, Repr

/-- A basic block under construction: the instructions whose semantics were
lifted into it, and the terminators appended to it so far. -/
structure BasicBlock where
  body : List Instruction
  terminators : List Terminator
  deriving DecidableEq, Repr

/-- A lifted function: its name, the terminators appended to its front block
(the block cloned from `__remill_basic_block`), and its blocks keyed by pc. -/
structure LFunction where
  name : String
  entry : List Terminator
  blocks : List (Nat × BasicBlock)
  deriving DecidableEq, Repr

/-- An IR type, known only by identity. -/
structure IRType where
  id : Nat
  deriving DecidableEq, Repr

/-- An IR constant: the null (all zero) value of a type, or some other
constant of that type. -/
inductive Constant
  | null (ty : IRType)
  | data (ty : IRType) (payload : List Nat)
  deriving DecidableEq, Repr

/-- The type of a constant, `Constant::getType`. -/
def Constant.getType : Constant → IRType
  | .null ty => ty
  | .data ty _ => ty

/-- The zero value of a type, `llvm::Constant::getNullValue`. -/
def Constant.getNullValue (ty : IRType) : Constant := .null ty

/-- A global variable of a module; a declaration has no initializer. -/
structure GlobalVariable where
  name : String
  valueType : IRType
  isConstant : Bool
  initializer : Option Constant
  deriving DecidableEq, Repr

/-- An `llvm::Module`: the LLVM context it belongs to, its functions and its
global variables, each found by name. -/
structure Module where
  context : Nat
  functions : List LFunction
  globals : List GlobalVariable
  deriving DecidableEq, Repr

/-- Lookup of a function by name, `Module::getFunction`. -/
def Module.getFunction (m : Module) (name : String) : Option LFunction :=
  m.functions.find? (fun f => f.name == name)

/-- Lookup of a global variable by name, `Module::getGlobalVariable`. -/
def Module.getGlobalVariable (m : Module) (name : String) : Option GlobalVariable :=
  m.globals.find? (fun g => g.name == name)

/-! ## LiftIntoModule -/

/-- The block map `blocks` of `LiftIntoModule`, with `GetOrCreateBlock`
(Lifter.cpp:177-184): an absent pc gets a fresh empty block of the function. -/
def GetOrCreateBlock (blocks : List (Nat × BasicBlock)) (block_pc : Nat) :
    List (Nat × BasicBlock) :=
  if blocks.any (fun e => e.1 == block_pc) then blocks
  else blocks ++ [(block_pc, { body := [], terminators := [] })]

/-- Appends a terminator to the block created for `block_pc`. -/
def appendTerminator (blocks : List (Nat × BasicBlock)) (block_pc : Nat)
    (t : Terminator) : List (Nat × BasicBlock) :=
  blocks.map (fun e =>
    if e.1 == block_pc then (e.1, { e.2 with terminators := e.2.terminators ++ [t] })
    else e)

/-- Appends the lifted semantics of an instruction to the block of `block_pc`. -/
def appendBody (blocks : List (Nat × BasicBlock)) (block_pc : Nat)
    (inst : Instruction) : List (Nat × BasicBlock) :=
  blocks.map (fun e =>
    if e.1 == block_pc then (e.1, { e.2 with body := e.2.body ++ [inst] })
    else e)

/-- The call `remill::AddTerminatingTailCall(block, intrinsic)`. -/
def AddTerminatingTailCall (blocks : List (Nat × BasicBlock)) (block_pc : Nat)
    (callee : Intrinsic) : List (Nat × BasicBlock) :=
  appendTerminator blocks block_pc (.tailCall callee)

/-- One iteration of the loop "Lift each instruction into its own basic block"
(Lifter.cpp:198-248). `liftOk` is the result of `lifter.LiftIntoBlock`. -/
def liftInstruction (liftOk : Instruction → Bool)
    (blocks : List (Nat × BasicBlock)) (entry : Nat × Instruction) :
    List (Nat × BasicBlock) :=
  let blocks := GetOrCreateBlock blocks entry.1
  let inst := entry.2
  if !liftOk inst then
    AddTerminatingTailCall blocks entry.1 .error
  else
    let blocks := appendBody blocks entry.1 inst
    match inst.category with
    | .Invalid | .Error => AddTerminatingTailCall blocks entry.1 .error
    | .Normal | .NoOp =>
      appendTerminator (GetOrCreateBlock blocks inst.next_pc) entry.1 (.br inst.next_pc)
    | .DirectJump | .DirectFunctionCall =>
      appendTerminator (GetOrCreateBlock blocks inst.branch_taken_pc) entry.1
        (.br inst.branch_taken_pc)
    | .IndirectJump => AddTerminatingTailCall blocks entry.1 .jump
    | .IndirectFunctionCall => AddTerminatingTailCall blocks entry.1 .function_call
    | .FunctionReturn => AddTerminatingTailCall blocks entry.1 .function_return
    | .ConditionalBranch | .ConditionalAsyncHyperCall =>
      appendTerminator
        (GetOrCreateBlock (GetOrCreateBlock blocks inst.branch_taken_pc)
          inst.branch_not_taken_pc)
        entry.1 (.condBr inst.branch_taken_pc inst.branch_not_taken_pc)
    | .AsyncHyperCall => AddTerminatingTailCall blocks entry.1 .async_hyper_call

/-- The loop "Terminate any stragglers" (Lifter.cpp:251-256). -/
def terminateStragglers (blocks : List (Nat × BasicBlock)) : List (Nat × BasicBlock) :=
  blocks.map (fun e =>
    if e.2.terminators.isEmpty then
      (e.1, { e.2 with terminators := [.tailCall .missing_block] })
    else e)

/-- The function built by `LiftIntoModule` before optimization
(Lifter.cpp:173-256). -/
def buildLiftedFunction (liftOk : Instruction → Bool) (func_name : String)
    (pc : Nat) (insts : InstructionMap) : LFunction :=
  let blocks := GetOrCreateBlock [] pc
  let entry := [Terminator.br pc]
  let blocks := if insts.count pc = 0 then AddTerminatingTailCall blocks pc .error
    else blocks
  let blocks := insts.entries.foldl (liftInstruction liftOk) blocks
  { name := func_name, entry := entry, blocks := terminateStragglers blocks }

/-- What `LifterImpl` takes from outside this file: its LLVM context, the
string hash `std::hash<std::string>`, the decoder `Decode` (with the target
architecture fixed) applied to a root pc and a byte reader, the outcome of
`lifter.LiftIntoBlock`, and the optimizer `RunO3`. A byte reader maps an
address to the byte it reads there, if any. -/
structure Lifter where
  context : Nat
  strHash : List Nat → Nat
  Decode : Nat → (Nat → Option Nat) → InstructionMap
  LiftIntoBlock : Instruction → Bool
  RunO3 : LFunction → LFunction

/-- The result type `LiftedFunction`: `{pc, hash, func}`. -/
structure LiftedFunction where
  pc : Nat
  hash : Nat
  func : LFunction
  deriving DecidableEq, Repr

/-- Method `LifterImpl::LiftIntoModule` (Lifter.cpp:156-270). The result is
`none` when the `CHECK` on the module's context fails; otherwise the returned
`LiftedFunction` and the module afterwards. The new function is created in the
destination module under `func_name` and receives the optimized body. -/
def LiftIntoModule (L : Lifter) (pc : Nat) (cb : Nat → Option Nat) (module : Module) :
    Option (LiftedFunction × Module) :=
  if module.context ≠ L.context then none
  else
    let insts := L.Decode pc cb
    let hash := TraceHash L.strHash insts
    let func_name := LiftedFunctionName pc hash
    match module.getFunction func_name with
    | some dest_func => some ({ pc := pc, hash := hash, func := dest_func }, module)
    | none =>
      let func := buildLiftedFunction L.LiftIntoBlock func_name pc insts
      let func := L.RunO3 func
      let dest_func : LFunction := { func with name := func_name }
      some ({ pc := pc, hash := hash, func := dest_func },
        { module with functions := module.functions ++ [dest_func] })

/-! ## The executor -/

/-- The address-space operations used by the memory callbacks. They are
declared in `vmill/Program/AddressSpace.h`, which is not among the sources, so
they are parameters: `TryRead w mem addr out` is the overload of `TryRead` that
reads a `w`-byte integer at `addr` into the buffer `out`, returning the success
flag, the buffer and the address space afterwards; `TryWrite w mem addr v` is
the overload writing the `w`-byte integer `v`. -/
structure AddressSpaceApi (AS Buf : Type) where
  TryRead : Nat → AS → Nat → Buf → Bool × Buf × AS
  TryWrite : Nat → AS → Nat → Nat → Bool × AS

/-- The state of an `Executor` that its methods in Executor.cpp touch: the
module `lifted_code`, the vector `memories`, the deque `tasks` of task
pointers, and the member `interpreter`, recorded as whether it holds an
interpreter: it is `nullptr` from the constructor (Executor.cpp:73) until
`AddInitialTask` assigns it (Executor.cpp:165). -/
structure Executor (AS : Type) where
  lifted_code : Module
  memories : List AS
  tasks : List Nat
  interpreter : Bool
  deriving DecidableEq, Repr

/-- A `TaskContinuation` as filled in by `AddInitialTask`. -/
structure TaskContinuation where
  continuation : LFunction
  state : List Nat
  pc : Nat

/-- What the executor calls outside Executor.cpp: the trace lifter's
`GetLiftedFunction` (it may add functions to the module and touch the address
space it reads), and the methods `ConvertContinuationToTask` and `Interpret`
of the interpreter that `Interpreter::CreateConcrete(lifted_code, this)`
returns (`Interpret` runs with access to the executor). -/
structure Collaborators (AS : Type) where
  GetLiftedFunction : Module → AS → Nat → LFunction × Module × AS
  ConvertContinuationToTask : TaskContinuation → Nat
  Interpret : Nat → Executor AS → Executor AS

/-- What lives outside the executor object: the thread-local `gExecutor`
(true when it points at this executor) and the files written to the workspace. -/
structure Host where
  gExecutor : Bool
  ir_file : Option Module
  local_runtime_bitcode : Option Module
  deriving DecidableEq, Repr

/-- The null pointer. -/
def nullptr : Nat := 0

/-- Method `Executor::NextTask` (Executor.cpp:184-192): returns the returned
pointer and the executor afterwards. -/
def Executor.NextTask {AS : Type} (e : Executor AS) : Nat × Executor AS :=
  match e.tasks with
  | [] => (nullptr, e)
  | task :: rest => (task, { e with tasks := rest })

/-- Method `Executor::AddTask` (Executor.cpp:194-196). -/
def Executor.AddTask {AS : Type} (e : Executor AS) (task : Nat) : Executor AS :=
  { e with tasks := e.tasks ++ [task] }

/-- How a call of `Executor::Run` ends: it returns; or it calls
`interpreter->Interpret` through the null `interpreter`, which has no defined
result in the source (the state reached at that call is kept); or the fuel
given to the loop of the model ran out. -/
inductive RunResult (σ : Type)
  | returned (s : σ)
  | nullInterpreter (s : σ)
  | outOfFuel
  deriving DecidableEq, Repr

/-- The loop of `Executor::Run` (Executor.cpp:107-110):
`while (auto task = NextTask()) interpreter->Interpret(task);`. The call goes
through the member `interpreter`, read anew in every iteration. -/
def Executor.RunLoop {AS : Type} (C : Collaborators AS) :
    Nat → Executor AS → RunResult (Executor AS)
  | 0, _ => .outOfFuel
  | fuel + 1, e =>
    let r := e.NextTask
    if r.1 = nullptr then .returned r.2
    else if !r.2.interpreter then .nullInterpreter r.2
    else Executor.RunLoop C fuel (C.Interpret r.1 r.2)

/-- Method `Executor::Run` (Executor.cpp:104-116): `SetUp`, the loop, the IR
dump to the file `IR`, `TearDown`. Returns the executor and the host state. -/
def Executor.Run {AS : Type} (C : Collaborators AS) (fuel : Nat) (e : Executor AS)
    (h : Host) : RunResult (Executor AS × Host) :=
  let h := { h with gExecutor := true }
  match Executor.RunLoop C fuel e with
  | .outOfFuel => .outOfFuel
  | .nullInterpreter e => .nullInterpreter (e, h)
  | .returned e =>
    let h := { h with ir_file := some e.lifted_code }
    .returned (e, { h with gExecutor := false })

/-- The name `"__vmill_task_" + std::to_string(i)` of the i-th task variable. -/
def taskVarName (i : Nat) : String := "__vmill_task_" ++ Nat.repr i

/-- The task-variable step of `AddInitialTask` (Executor.cpp:126-148) for the
task number `task_num`: the module afterwards, or `none` when a `CHECK` fails. -/
def ensureTaskVar (lifted_code : Module) (task_num : Nat) : Option Module :=
  let task_var_name := taskVarName task_num
  match lifted_code.getGlobalVariable task_var_name with
  | some _ => some lifted_code
  | none =>
    if task_num = 0 then none
    else
      let prev_task_var_name := taskVarName (task_num - 1)
      match lifted_code.getGlobalVariable prev_task_var_name with
      | none => none
      | some prev_task_var =>
        some { lifted_code with
          globals := lifted_code.globals ++
            [{ name := task_var_name, valueType := prev_task_var.valueType,
               isConstant := false,
               initializer := some (Constant.getNullValue prev_task_var.valueType) }] }

/-- Method `Executor::AddInitialTask` (Executor.cpp:118-170); `none` when a
`CHECK` fails. `Interpreter::CreateConcrete` is taken to return an interpreter,
which the member `interpreter` holds from then on. -/
def Executor.AddInitialTask {AS : Type} (C : Collaborators AS) (e : Executor AS)
    (state : List Nat) (pc : Nat) (memory : AS) : Option (Executor AS) :=
  if !e.memories.isEmpty then none
  else
    let task_num := e.memories.length
    match ensureTaskVar e.lifted_code task_num with
    | none => none
    | some lifted_code =>
      let r := C.GetLiftedFunction lifted_code memory pc
      let cont : TaskContinuation := { continuation := r.1, state := state, pc := pc }
      some { lifted_code := r.2.1,
             memories := e.memories ++ [r.2.2],
             tasks := e.tasks ++ [C.ConvertContinuationToTask cont],
             interpreter := true }

/-- The call `task_var->setInitializer(c)` on the variable that
`getGlobalVariable(name)` finds in a list of globals. -/
def setInitializerIn : List GlobalVariable → String → Constant → List GlobalVariable
  | [], _, _ => []
  | g :: gs, name, c =>
    if g.name == name then { g with initializer := some c } :: gs
    else g :: setInitializerIn gs name c

/-- The module after `setInitializer(c)` on its global variable `name`. -/
def Module.setInitializer (m : Module) (name : String) (c : Constant) : Module :=
  { m with globals := setInitializerIn m.globals name c }

/-- The loop of the destructor (Executor.cpp:86-94), started at index `i`
(an `unsigned`, so the increment wraps at `2 ^ 32`). The result is `none` when
the fuel runs out, or when `getInitializer` is called on a variable without
initializer. -/
def resetTaskVars : Nat → Nat → Module → Option Module
  | 0, _, _ => none
  | fuel + 1, i, m =>
    let task_var_name := taskVarName i
    match m.getGlobalVariable task_var_name with
    | none => some m
    | some task_var =>
      match task_var.initializer with
      | none => none
      | some init =>
        resetTaskVars fuel ((i + 1) % 2 ^ 32)
          (m.setInitializer task_var_name (Constant.getNullValue init.getType))

/-- The destructor `Executor::~Executor` (Executor.cpp:83-102): reset the
task variables, then store the module at `Workspace::LocalRuntimeBitcodePath()`. -/
def Executor.destructor {AS : Type} (fuel : Nat) (e : Executor AS) (h : Host) :
    Option Host :=
  match resetTaskVars fuel 0 e.lifted_code with
  | none => none
  | some m => some { h with local_runtime_bitcode := some m }

/-- The result of a memory callback that went through `mem->TryRead`. -/
def Executor.readVia {AS Buf : Type} (api : AddressSpaceApi AS Buf) (e : Executor AS)
    (width index : Nat) (mem : AS) (addr : Nat) (val : Buf) :
    Bool × Buf × Executor AS :=
  let r := api.TryRead width mem addr val
  (r.1, r.2.1, { e with memories := e.memories.set index r.2.2 })

/-- The result of a memory callback that went through `mem->TryWrite`. -/
def Executor.writeVia {AS Buf : Type} (api : AddressSpaceApi AS Buf) (e : Executor AS)
    (width index : Nat) (mem : AS) (addr : Nat) (value : Nat) :
    Bool × Executor AS :=
  let r := api.TryWrite width mem addr value
  (r.1, { e with memories := e.memories.set index r.2 })

/-- Method `Executor::DoRead` (Executor.cpp:204-232). In the source the
parameter `address` is the index into `memories` and `pc` is the guest address.
The result is `none` when the `CHECK` on the index fails. -/
def Executor.DoRead {AS Buf : Type} (api : AddressSpaceApi AS Buf) (e : Executor AS)
    (size address pc : Nat) (val : Buf) : Option (Bool × Buf × Executor AS) :=
  match e.memories[address]? with
  | none => none
  | some mem =>
    match size with
    | 8 => some (e.readVia api 8 address mem pc val)
    | 4 => some (e.readVia api 4 address mem pc val)
    | 2 => some (e.readVia api 2 address mem pc val)
    | 1 => some (e.readVia api 1 address mem pc val)
    | _ => some (false, val, e)

/-- Method `Executor::DoWrite` (Executor.cpp:235-251); the `static_cast`s
truncate the 64-bit value to the width written. -/
def Executor.DoWrite {AS Buf : Type} (api : AddressSpaceApi AS Buf) (e : Executor AS)
    (size address pc value : Nat) : Option (Bool × Executor AS) :=
  match e.memories[address]? with
  | none => none
  | some mem =>
    match size with
    | 8 => some (e.writeVia api 8 address mem pc value)
    | 4 => some (e.writeVia api 4 address mem pc (value % 2 ^ 32))
    | 2 => some (e.writeVia api 2 address mem pc (value % 2 ^ 16))
    | 1 => some (e.writeVia api 1 address mem pc (value % 2 ^ 8))
    | _ => some (false, e)

/-! ## Driving the task queue -/

/-- A call made on the executor's task queue. -/
inductive QueueCall
  | AddTask (task : Nat)
  | NextTask
  deriving DecidableEq, Repr

/-- Runs a sequence of queue calls; the second argument collects, in order,
what `NextTask` returned on the calls that found the queue non-empty. -/
def runQueueCalls {AS : Type} : List QueueCall → List Nat → Executor AS →
    List Nat × Executor AS
  | [], returned, e => (returned, e)
  | .AddTask task :: calls, returned, e => runQueueCalls calls returned (e.AddTask task)
  | .NextTask :: calls, returned, e =>
    if e.tasks.isEmpty then runQueueCalls calls returned e.NextTask.2
    else runQueueCalls calls (returned ++ [e.NextTask.1]) e.NextTask.2

/-- The tasks passed to `AddTask` in a sequence of queue calls, in order. -/
def addedTasks : List QueueCall → List Nat
  | [] => []
  | .AddTask task :: calls => task :: addedTasks calls
  | .NextTask :: calls => addedTasks calls

/-- Specification side of "a dequeue-and-interpret loop": every task of the
list, in order, is taken off the queue and handed to `Interpret` once; `rest`
is the queue left behind it. -/
def interpretInOrder {AS : Type} (C : Collaborators AS) : List Nat → Executor AS → Executor AS
  | [], e => e
  | task :: rest, e => interpretInOrder C rest (C.Interpret task { e with tasks := rest })

/-! ## Describing the effect of the destructor -/

/-- A global variable with its initializer replaced by the zero value of the
initializer's type (a declaration stays a declaration). -/
def GlobalVariable.zeroed (g : GlobalVariable) : GlobalVariable :=
  { g with initializer := g.initializer.map (fun c => Constant.getNullValue c.getType) }

/-- The names of the task variables with index below `k`. -/
def taskVarNames (k : Nat) : List String := (List.range k).map taskVarName

/-- The globals with the initializers of the task variables below `k` blanked
out: two lists of globals agree up to those initializers exactly when their
images under this function are equal. -/
def exceptTaskInitializers (k : Nat) (gs : List GlobalVariable) : List GlobalVariable :=
  gs.map (fun g => if g.name ∈ taskVarNames k then { g with initializer := none } else g)

/-! ## The snapshot and its loader (tools/grr/Execute.cpp) -/

/-- How a run of the loader ends: normally, by a failed `CHECK` (with the
state reached when the process aborts), or without an answer because the fuel
given to a loop ran out. -/
inductive Outcome (σ : Type)
  | done (s : σ)
  | aborted (s : σ)
  | outOfFuel
  deriving DecidableEq, Repr

/-- Sequencing of loader steps: the next step runs only after a normal end. -/
def Outcome.andThen {σ τ : Type} (r : Outcome σ) (onAbort : σ → τ) (next : σ → Outcome τ) :
    Outcome τ :=
  match r with
  | .done s => next s
  | .aborted s => .aborted (onAbort s)
  | .outOfFuel => .outOfFuel

/-- The state carried by a normal end. -/
def Outcome.result? {σ : Type} : Outcome σ → Option σ
  | .done s => some s
  | _ => none

/-- The state reached when the run aborted. -/
def Outcome.abortState? {σ : Type} : Outcome σ → Option σ
  | .aborted s => some s
  | _ => none

namespace snapshot

/-- Modelled from the spec: the snapshot messages are declared in
`grr/Snapshot.h`, which is not among the sources. A page range per spec §6:
`base`, `limit` (64-bit signed integers), the three permissions and the name of
the backing file; the `kind` is not read by the loader. -/
structure PageRange where
  base : Int
  limit : Int
  can_read : Bool
  can_write : Bool
  can_exec : Bool
  name : String
  deriving DecidableEq, Repr

/-- Modelled from the spec: an address-space entry of the snapshot (§6): `id`,
optional `parent_id`, and its page ranges. -/
structure AddressSpace where
  id : Int
  parent_id : Option Int
  page_ranges : List PageRange
  deriving DecidableEq, Repr

/-- Modelled from the spec: a task (thread) entry of the snapshot (§6). -/
structure Thread where
  pc : Int
  state : List Nat
  address_space_id : Int
  deriving DecidableEq, Repr

/-- Modelled from the spec: the snapshot record (§6). -/
structure Program where
  arch : String
  os : String
  address_spaces : List AddressSpace
  threads : List Thread
  deriving DecidableEq, Repr

end snapshot

/-- A file: its length and the byte at each offset. -/
structure File where
  size : Nat
  byteAt : Nat → Nat

/-- The files the loader sees: the file at a path, if it exists, and what a
`read` of that file at a given offset returns (`none` for the error `-1`,
otherwise how many bytes the call is willing to deliver). -/
structure FileSystem where
  file : String → Option File
  readAmount : String → Nat → Option Nat

/-- The value of `static_cast<uint64_t>(x)` for a 64-bit signed `x`. -/
def toU64 (x : Int) : Nat := (x % 2 ^ 64).toNat

/-- The methods of `vmill::AddressSpace` that the loader calls through
`emu_addr_space`, acting on a state `S`. `AddMap` and `SetPermissions` give
`none` when the call itself aborts the process. -/
structure AddressSpaceOps (S : Type) where
  AddMap : S → Nat → Nat → Bool → Bool → Bool → Option S
  TryWrite : S → Nat → Nat → Bool × S
  SetPermissions : S → Nat → Nat → Bool → Bool → Bool → Option S

/-- A `vmill::Task` as passed to `ScheduleTask`: `{state, pc, memory}`. -/
structure Task where
  state : Nat
  pc : Nat
  memory : Nat
  deriving DecidableEq, Repr

/-- The methods of `vmill::Context` (declared in `vmill/Context/Context.h`,
not among the sources) that `Run` calls, acting on a context state `Ctx`.
Memory handles (`void *`) are numbers. -/
structure ContextApi (Ctx : Type) where
  CreateAddressSpace : Ctx → Nat × Ctx
  CloneAddressSpace : Ctx → Nat → Nat × Ctx
  AddressSpaceOf : Nat → AddressSpaceOps Ctx
  AllocateStateInRuntime : Ctx → List Nat → Nat × Ctx
  ScheduleTask : Ctx → Task → Ctx
  TryDequeueTask : Ctx → Option Task × Ctx
  ResumeTask : Ctx → Task → Ctx

namespace grr

/-- The bytes a `read` of up to 4096 bytes delivers at `offset`: `none` for the
result `-1`. -/
def sysRead (fs : FileSystem) (path : String) (file : File) (offset : Nat) :
    Option (List Nat) :=
  match fs.readAmount path offset with
  | none => none
  | some k =>
    some ((List.range (min (min k 4096) (file.size - offset))).map
      (fun i => file.byteAt (offset + i)))

/-- The inner loop of `LoadPageRangeFromFile` (Execute.cpp:116-120): byte `i`
of the buffer goes to `base_addr + i`; a failed `TryWrite` aborts. -/
def writeChunk {S : Type} (ops : AddressSpaceOps S) : S → Nat → Nat → List Nat → Outcome S
  | s, _, _, [] => .done s
  | s, base_addr, i, b :: rest =>
    let r := ops.TryWrite s ((base_addr + i) % 2 ^ 64) b
    if r.1 then writeChunk ops r.2 base_addr (i + 1) rest else .aborted r.2

/-- The loop `while (range_size)` of `LoadPageRangeFromFile`
(Execute.cpp:107-124), reading the file from `offset` on. -/
def copyLoop {S : Type} (ops : AddressSpaceOps S) (fs : FileSystem) (path : String)
    (file : File) : Nat → S → Nat → Nat → Nat → Outcome S
  | 0, s, _, range_size, _ => if range_size = 0 then .done s else .outOfFuel
  | fuel + 1, s, base_addr, range_size, offset =>
    if range_size = 0 then .done s
    else
      match sysRead fs path file offset with
      | none => .aborted s
      | some buff =>
        (writeChunk ops s base_addr 0 buff).andThen id (fun s1 =>
          copyLoop ops fs path file fuel s1 ((base_addr + buff.length) % 2 ^ 64)
            ((range_size + 2 ^ 64 - buff.length) % 2 ^ 64) (offset + buff.length))

/-- Function `LoadPageRangeFromFile` (Execute.cpp:83-127); `workspace` is
`FLAGS_workspace`. -/
def LoadPageRangeFromFile {S : Type} (ops : AddressSpaceOps S) (workspace : String)
    (fs : FileSystem) (fuel : Nat) (s : S) (range : snapshot.PageRange) : Outcome S :=
  let path := workspace ++ "/memory/" ++ range.name
  match fs.file path with
  | none => .aborted s
  | some file =>
    let range_size := toU64 (range.limit - range.base)
    if range_size ≠ file.size then .aborted s
    else copyLoop ops fs path file fuel s (toU64 range.base) range_size 0

/-- The body of the loop "Bring in the ranges" (Execute.cpp:163-175) for one
page range: the `CHECK`, `AddMap` with its default permissions (read and write,
no execute), the copy from the file, then `SetPermissions`. -/
def LoadPageRange {S : Type} (ops : AddressSpaceOps S) (workspace : String)
    (fs : FileSystem) (fuel : Nat) (s : S) (page : snapshot.PageRange) : Outcome S :=
  if ¬ page.limit > page.base then .aborted s
  else
    let base := toU64 page.base
    let limit := toU64 page.limit
    let size := (limit + 2 ^ 64 - base) % 2 ^ 64
    match ops.AddMap s base size true true false with
    | none => .aborted s
    | some s1 =>
      (LoadPageRangeFromFile ops workspace fs fuel s1 page).andThen id (fun s2 =>
        match ops.SetPermissions s2 base size page.can_read page.can_write page.can_exec with
        | none => .aborted s2
        | some s3 => .done s3)

/-- The loop "Bring in the ranges" over the page ranges of an entry. -/
def LoadPageRanges {S : Type} (ops : AddressSpaceOps S) (workspace : String)
    (fs : FileSystem) (fuel : Nat) : S → List snapshot.PageRange → Outcome S
  | s, [] => .done s
  | s, page :: pages =>
    (LoadPageRange ops workspace fs fuel s page).andThen id (fun s1 =>
      LoadPageRanges ops workspace fs fuel s1 pages)

/-- Function `LoadAddressSpaceFromSnapshot` (Execute.cpp:131-177). The state
is the context together with the map `addr_space_ids`, which the function
receives by reference. -/
def LoadAddressSpaceFromSnapshot {Ctx : Type} (api : ContextApi Ctx) (workspace : String)
    (fs : FileSystem) (fuel : Nat) (ctx : Ctx) (addr_space_ids : List (Int × Nat))
    (orig_addr_space : snapshot.AddressSpace) : Outcome (Ctx × List (Int × Nat)) :=
  let id := orig_addr_space.id
  if (addr_space_ids.lookup id).isSome then .aborted (ctx, addr_space_ids)
  else
    let created : Option (Nat × Ctx) :=
      match orig_addr_space.parent_id with
      | some parent_id =>
        match addr_space_ids.lookup parent_id with
        | none => none
        | some parent_mem => some (api.CloneAddressSpace ctx parent_mem)
      | none => some (api.CreateAddressSpace ctx)
    match created with
    | none => .aborted (ctx, addr_space_ids)
    | some (memory, ctx1) =>
      (LoadPageRanges (api.AddressSpaceOf memory) workspace fs fuel ctx1
        orig_addr_space.page_ranges).andThen (fun c => (c, addr_space_ids))
        (fun c => .done (c, addr_space_ids))

/-- The first loop of `Run` (Execute.cpp:188-191) over the address-space
entries of the snapshot. -/
def LoadAddressSpaces {Ctx : Type} (api : ContextApi Ctx) (workspace : String)
    (fs : FileSystem) (fuel : Nat) :
    Ctx → List (Int × Nat) → List snapshot.AddressSpace → Outcome (Ctx × List (Int × Nat))
  | ctx, ids, [] => .done (ctx, ids)
  | ctx, ids, address_space :: rest =>
    (LoadAddressSpaceFromSnapshot api workspace fs fuel ctx ids address_space).andThen id
      (fun s => LoadAddressSpaces api workspace fs fuel s.1 s.2 rest)

/-- The second loop of `Run` (Execute.cpp:194-209) over the task entries. -/
def LoadTasks {Ctx : Type} (api : ContextApi Ctx) (address_space_ids : List (Int × Nat)) :
    Ctx → List snapshot.Thread → Outcome Ctx
  | ctx, [] => .done ctx
  | ctx, thread :: rest =>
    match address_space_ids.lookup thread.address_space_id with
    | none => .aborted ctx
    | some memory =>
      let r := api.AllocateStateInRuntime ctx thread.state
      let pc := toU64 thread.pc
      LoadTasks api address_space_ids
        (api.ScheduleTask r.2 { state := r.1, pc := pc, memory := memory }) rest

/-- The loading part of `Run` (Execute.cpp:183-209), from the freshly created
context `ctx` and an empty `address_space_ids`. -/
def LoadSnapshot {Ctx : Type} (api : ContextApi Ctx) (workspace : String)
    (fs : FileSystem) (fuel : Nat) (ctx : Ctx) (snap : snapshot.Program) : Outcome Ctx :=
  (LoadAddressSpaces api workspace fs fuel ctx [] snap.address_spaces).andThen
    (fun s => s.1) (fun s => LoadTasks api s.2 s.1 snap.threads)

/-- The loop `while (context->TryDequeueTask(&task))` of `Run`. -/
def ResumeTasks {Ctx : Type} (api : ContextApi Ctx) : Nat → Ctx → Outcome Ctx
  | 0, _ => .outOfFuel
  | fuel + 1, ctx =>
    match api.TryDequeueTask ctx with
    | (none, ctx1) => .done ctx1
    | (some task, ctx1) => ResumeTasks api fuel (api.ResumeTask ctx1 task)

/-- Function `Run` (Execute.cpp:181-217). -/
def Run {Ctx : Type} (api : ContextApi Ctx) (workspace : String) (fs : FileSystem)
    (fuel : Nat) (ctx : Ctx) (snap : snapshot.Program) : Outcome Ctx :=
  (LoadSnapshot api workspace fs fuel ctx snap).andThen id (fun c => ResumeTasks api fuel c)

end grr

/-! ## The static loader (Load.cpp) -/

namespace load

/-- What `main` reads of an ELF segment through ELFIO: its virtual address,
memory size, file size, flags, and its data bytes by offset. -/
structure Segment where
  virtual_address : Nat
  memory_size : Nat
  file_size : Nat
  flags : Nat
  data : Nat → Nat

/-- What `main` reads of the ELF file: its class (1 is `ELFCLASS32`), its entry
point and its segments. -/
structure Elf where
  elf_class : Nat
  entry : Nat
  segments : List Segment

/-- What `main` checks of the target architecture returned by
`remill::GetTargetArch()`. -/
structure TargetArch where
  os_is_vxworks : Bool
  address_size : Nat
  is_x86 : Bool
  deriving DecidableEq, Repr

/-- The constant `~4095ULL`. -/
def pageMask : Nat := 2 ^ 64 - 1 - 4095

/-- The value of `static_cast<int64_t>(x)` for a 64-bit unsigned `x`. -/
def toI64 (x : Nat) : Int :=
  if x % 2 ^ 64 < 2 ^ 63 then (x % 2 ^ 64 : Nat) else (x % 2 ^ 64 : Nat) - 2 ^ 64

/-- The locals `base`, `start` and `size` of the segment loop
(Load.cpp:135-137). -/
def segmentBase (seg : Segment) : Nat := seg.virtual_address &&& pageMask

/-- The local `start`: the offset of the segment in its first page. -/
def segmentStart (seg : Segment) : Nat := seg.virtual_address &&& 4095

/-- The local `size`: the page-rounded size of the range. -/
def segmentSize (seg : Segment) : Nat :=
  ((segmentStart seg + seg.memory_size + 4095) % 2 ^ 64) &&& pageMask

/-- The file name `"seg_" << std::hex << base << "_" << (base + size)`. -/
def segmentName (seg : Segment) : String :=
  String.mk ("seg_".data ++ toHex (segmentBase seg) ++ '_' ::
    toHex ((segmentBase seg + segmentSize seg) % 2 ^ 64))

/-- The page range `info` written for a segment (Load.cpp:155-161); the kind
is always `kAnonymousPageRange`. -/
def segmentPageRange (seg : Segment) : snapshot.PageRange :=
  { base := toI64 (segmentBase seg),
    limit := toI64 ((segmentBase seg + segmentSize seg) % 2 ^ 64),
    can_read := (4 &&& seg.flags) != 0,
    can_write := (2 &&& seg.flags) != 0,
    can_exec := (1 &&& seg.flags) != 0,
    name := segmentName seg }

/-- The file written for a segment (Load.cpp:166-183): `size` bytes, zero
except for the segment's data copied at offset `start`; the writes are taken to
succeed. -/
def segmentFile (seg : Segment) : File :=
  { size := segmentSize seg,
    byteAt := fun i =>
      if segmentStart seg ≤ i ∧ i < segmentStart seg + seg.file_size then
        seg.data (i - segmentStart seg)
      else 0 }

/-- The four fixed page ranges added for x86 (Load.cpp:92-132), all named
`zero`. -/
def x86PageRanges : List snapshot.PageRange :=
  [{ base := 0x1000, limit := 0xa0000, can_read := true, can_write := true,
     can_exec := false, name := "zero" },
   { base := 0xa0000, limit := 0xa0000 + 0x60000, can_read := true, can_write := true,
     can_exec := false, name := "zero" },
   { base := 0x00100000, limit := 0x00100000 + 0x00180000, can_read := true,
     can_write := true, can_exec := false, name := "zero" },
   { base := 0x00100000 + 0x00180000,
     limit := 0x00100000 + 0x00180000 + 0x800000 - 0x100000 - 0x180000,
     can_read := true, can_write := true, can_exec := false, name := "zero" }]

/-- The file `zero` after `ftruncate(zero_fd, 0x800000)`. -/
def zeroFile : File := { size := 0x800000, byteAt := fun _ => 0 }

/-- What `main` leaves behind: the snapshot it serializes and the files of the
memory directory, the most recently written first. -/
structure Output where
  snapshot : snapshot.Program
  files : List (String × File)

/-- The segment loop of `main` (Load.cpp:134-184): the page ranges added and
the files written, given those before. -/
def loadSegments (memoryDir : String) :
    List Segment → List snapshot.PageRange → List (String × File) →
    List snapshot.PageRange × List (String × File)
  | [], ranges, files => (ranges, files)
  | seg :: rest, ranges, files =>
    loadSegments memoryDir rest (ranges ++ [segmentPageRange seg])
      ((memoryDir ++ "/" ++ segmentName seg, segmentFile seg) :: files)

/-- Function `main` of Load.cpp (lines 47-207). `elf` is `none` when the
binary cannot be loaded; `stateBlob rsp rip` stands for the bytes of the
`X86State` with those two registers set. The result is `none` when `main`
returns `EXIT_FAILURE` or a `CHECK` fails; opening and writing the files is
taken to succeed. -/
def main (memoryDir : String) (flagsArch flagsOs : String) (arch : TargetArch)
    (stateBlob : Nat → Nat → List Nat) (elf : Option Elf) : Option Output :=
  match elf with
  | none => none
  | some reader =>
    if reader.elf_class ≠ 1 then none
    else if !arch.os_is_vxworks then none
    else if arch.address_size ≠ 32 then none
    else
      let files := [(memoryDir ++ "/" ++ "zero", zeroFile)]
      let ranges := if arch.is_x86 then x86PageRanges else []
      let r := loadSegments memoryDir reader.segments ranges files
      let rip : Nat := reader.entry % 2 ^ 32
      some { snapshot :=
               { arch := flagsArch, os := flagsOs,
                 address_spaces := [{ id := 1, parent_id := none, page_ranges := r.1 }],
                 threads := [{ pc := Int.ofNat rip, state := stateBlob 0x7000 rip,
                               address_space_id := 1 }] },
             files := r.2 }

/-- The length of the backing file that a page range names in the memory
directory, if that file was written. -/
def backingFileSize (memoryDir : String) (out : Output) (range : snapshot.PageRange) :
    Option Nat :=
  (out.files.lookup (memoryDir ++ "/" ++ range.name)).map (fun f => f.size)

end load

/-! ## Reading the lifted control-flow graph -/

/-- The basic block that `GetOrCreateBlock` holds for a pc, if any. -/
def LFunction.blockAt (f : LFunction) (pc : Nat) : Option BasicBlock := f.blocks.lookup pc

/-- The blocks a terminator can transfer control to. -/
def Terminator.targets : Terminator → List Nat
  | .br target => [target]
  | .condBr taken not_taken => [taken, not_taken]
  | .tailCall _ => []

/-- Specification side of spec §4.3 step 5 for the categories other than
`ConditionalAsyncHyperCall`: the terminator prescribed for an instruction whose
body lifted. -/
def categoryTerminator (inst : Instruction) : Option Terminator :=
  match inst.category with
  | .Normal | .NoOp => some (.br inst.next_pc)
  | .DirectJump | .DirectFunctionCall => some (.br inst.branch_taken_pc)
  | .ConditionalBranch => some (.condBr inst.branch_taken_pc inst.branch_not_taken_pc)
  | .IndirectJump => some (.tailCall .jump)
  | .IndirectFunctionCall => some (.tailCall .function_call)
  | .FunctionReturn => some (.tailCall .function_return)
  | .AsyncHyperCall => some (.tailCall .async_hyper_call)
  | .Invalid | .Error => some (.tailCall .error)
  | .ConditionalAsyncHyperCall => none

/-- The terminator that one iteration of the loop "Lift each instruction into
its own basic block" (Lifter.cpp:198-248) appends to the block of `inst`: the
`error` tail call when `LiftIntoBlock` fails, else the one its `switch` selects. -/
def emittedTerminator (liftOk : Instruction → Bool) (inst : Instruction) : Terminator :=
  if !liftOk inst then .tailCall .error
  else
    match inst.category with
    | .Invalid | .Error => .tailCall .error
    | .Normal | .NoOp => .br inst.next_pc
    | .DirectJump | .DirectFunctionCall => .br inst.branch_taken_pc
    | .IndirectJump => .tailCall .jump
    | .IndirectFunctionCall => .tailCall .function_call
    | .FunctionReturn => .tailCall .function_return
    | .ConditionalBranch | .ConditionalAsyncHyperCall =>
      .condBr inst.branch_taken_pc inst.branch_not_taken_pc
    | .AsyncHyperCall => .tailCall .async_hyper_call

/-- The block that iteration leaves for `inst`: the lifted body (empty when
`LiftIntoBlock` failed) and the one terminator. -/
def liftedBlock (liftOk : Instruction → Bool) (inst : Instruction) : BasicBlock :=
  { body := if liftOk inst then [inst] else [],
    terminators := [emittedTerminator liftOk inst] }

/-- Whether some iteration over `entries` asks `GetOrCreateBlock` for the
block of `pc` as the target of the branch it emits. -/
def referencedBy (liftOk : Instruction → Bool) (entries : List (Nat × Instruction))
    (pc : Nat) : Bool :=
  entries.any (fun e => decide (pc ∈ (emittedTerminator liftOk e.2).targets))

/-- The block held for `pc` once the loop has run over `entries`, given
whether the root pc is in the instruction map: the block of the instruction
decoded at `pc`; else, for the root, the block created up front (with the
`error` tail call when the root is not in the map); else an empty block when a
branch refers to `pc`; else none. -/
def blockAfter (liftOk : Instruction → Bool) (root : Nat) (rootDecoded : Bool)
    (entries : List (Nat × Instruction)) (pc : Nat) : Option BasicBlock :=
  match entries.lookup pc with
  | some inst => some (liftedBlock liftOk inst)
  | none =>
    if pc = root then
      some { body := [], terminators := if rootDecoded then [] else [.tailCall .error] }
    else if referencedBy liftOk entries pc then some { body := [], terminators := [] }
    else none

/-- Modelled from the spec: the decoder `Decode` (`vmill/Arch/Decoder.cpp`) is
not among the sources. By spec §4.2 its work list starts as `{start_pc}` and
successors are added only for an instruction that decoded, so a map it returns
for `root` that holds any instruction holds one at `root`. -/
def InstructionMap.RootedAt (insts : InstructionMap) (root : Nat) : Prop :=
  insts.entries ≠ [] → insts.count root ≠ 0

/-! ## The address space (spec §3, §4.1; Context/AddressSpace.h) -/

/-- Modelled from the spec: `AddressSpace.cpp` is not among the sources. A page
backing is a reference-counted buffer of 4096 bytes ("each MemoryMap holds a
reference-counted page backing"); a new one is zero filled. -/
structure Backing where
  refs : Nat
  data : Nat → Nat

/-- Modelled from the spec: the store of page backings shared by the address
spaces and their clones; the backings in use are those numbered below `next`. -/
structure Heap where
  next : Nat
  cell : Nat → Backing

/-- Modelled from the spec: what an address space knows of one of its mapped
4 KiB pages: the three permissions (membership of the page in the sets of
readable, writable and executable pages) and the backing it refers to. -/
structure PageEntry where
  can_read : Bool
  can_write : Bool
  can_exec : Bool
  backing : Nat
  deriving DecidableEq, Repr

/-- Modelled from the spec: the state of a `vmill::AddressSpace` (only its
header is among the sources): the flags `is_dead` and `seen_write_to_exec`,
and its memory maps, kept page by page (page number, entry), which leaves the
grouping of pages into maps of uniform permissions implicit. -/
structure AddressSpace where
  is_dead : Bool
  seen_write_to_exec : Bool
  pages : List (Nat × PageEntry)
  deriving DecidableEq, Repr

/-- Sets one backing of the heap. -/
def Heap.set (h : Heap) (id : Nat) (b : Backing) : Heap :=
  { h with cell := fun i => if i = id then b else h.cell i }

/-- Takes one more reference to a backing. -/
def Heap.incRef (h : Heap) (id : Nat) : Heap :=
  h.set id { h.cell id with refs := (h.cell id).refs + 1 }

/-- Drops one reference to a backing. -/
def Heap.decRef (h : Heap) (id : Nat) : Heap :=
  h.set id { h.cell id with refs := (h.cell id).refs - 1 }

namespace AddressSpace

/-- Modelled from the spec: the constructor `AddressSpace()`, an empty live
address space. -/
def empty : AddressSpace := { is_dead := false, seen_write_to_exec := false, pages := [] }

/-- The entry of the page containing `addr`, if that page is mapped. -/
def find (a : AddressSpace) (addr : Nat) : Option PageEntry := a.pages.lookup (addr / 4096)

/-- Modelled from the spec: `IsDead`. -/
def IsDead (a : AddressSpace) : Bool := a.is_dead

/-- Modelled from the spec: `TryRead` of a byte ("succeeds iff the page is
readable and the space not dead"); `some v` stands for `true` with `*val = v`. -/
def TryRead (h : Heap) (a : AddressSpace) (addr : Nat) : Option Nat :=
  if a.is_dead then none
  else
    match a.find addr with
    | none => none
    | some e => if e.can_read then some ((h.cell e.backing).data (addr % 4096)) else none

/-- Modelled from the spec: `TryWrite` of a byte ("succeeds iff the page is
writable. On first write to a shared page, materializes a private copy; if the
page is also marked executable, sets seen-write-to-exec"). A backing is shared
when it has more than one reference. -/
def TryWrite (h : Heap) (a : AddressSpace) (addr val : Nat) : Bool × Heap × AddressSpace :=
  if a.is_dead then (false, h, a)
  else
    match a.find addr with
    | none => (false, h, a)
    | some e =>
      if !e.can_write then (false, h, a)
      else
        let seen := a.seen_write_to_exec || e.can_exec
        let old := h.cell e.backing
        if old.refs > 1 then
          let h1 := h.decRef e.backing
          let h2 : Heap :=
            { next := h1.next + 1,
              cell := fun i =>
                if i = h1.next then
                  { refs := 1,
                    data := fun o => if o = addr % 4096 then val else old.data o }
                else h1.cell i }
          (true, h2,
            { a with
              seen_write_to_exec := seen,
              pages := a.pages.map (fun p =>
                if p.1 = addr / 4096 then (p.1, { p.2 with backing := h1.next }) else p) })
        else
          (true,
            h.set e.backing
              { old with data := fun o => if o = addr % 4096 then val else old.data o },
            { a with seen_write_to_exec := seen })

/-- Modelled from the spec: `TryReadExecutable` ("succeeds iff executable; used
by the decoder"); an attempt on a live space consumes `seen_write_to_exec`. -/
def TryReadExecutable (h : Heap) (a : AddressSpace) (addr : Nat) :
    Option Nat × AddressSpace :=
  if a.is_dead then (none, a)
  else
    let a1 := { a with seen_write_to_exec := false }
    match a.find addr with
    | none => (none, a1)
    | some e =>
      if e.can_exec then (some ((h.cell e.backing).data (addr % 4096)), a1) else (none, a1)

/-- The entries of `n` new pages from page number `page` on, backed by the
backings numbered from `id` on. -/
def freshPages (can_read can_write can_exec : Bool) : Nat → Nat → Nat → List (Nat × PageEntry)
  | 0, _, _ => []
  | n + 1, page, id =>
    (page, { can_read := can_read, can_write := can_write, can_exec := can_exec,
             backing := id }) :: freshPages can_read can_write can_exec n (page + 1) (id + 1)

/-- Modelled from the spec: `AddMap` ("base and size must be page-aligned; must
not overlap existing maps; new map has uniform permissions"; a violation is
rejected as an error, here `none`; on a dead space the call is a silent no-op).
The new pages get zero-filled backings with one reference each. -/
def AddMap (h : Heap) (a : AddressSpace) (base size : Nat)
    (can_read can_write can_exec : Bool) : Option (Heap × AddressSpace) :=
  if a.is_dead then some (h, a)
  else if base % 4096 ≠ 0 ∨ size % 4096 ≠ 0 then none
  else if a.pages.any (fun p => base / 4096 ≤ p.1 ∧ p.1 < base / 4096 + size / 4096) then none
  else
    some
      ({ next := h.next + size / 4096,
         cell := fun i =>
           if h.next ≤ i ∧ i < h.next + size / 4096 then { refs := 1, data := fun _ => 0 }
           else h.cell i },
       { a with
         pages := freshPages can_read can_write can_exec (size / 4096) (base / 4096) h.next ++
           a.pages })

/-- Modelled from the spec: `SetPermissions` on the pages that start in
`[base, base + size)`; on a dead space it does nothing. -/
def SetPermissions (a : AddressSpace) (base size : Nat)
    (can_read can_write can_exec : Bool) : AddressSpace :=
  if a.is_dead then a
  else
    { a with
      pages := a.pages.map (fun p =>
        if base ≤ p.1 * 4096 ∧ p.1 * 4096 < base + size then
          (p.1, { p.2 with can_read := can_read, can_write := can_write,
                           can_exec := can_exec })
        else p) }

/-- Drops the references that a list of pages holds. -/
def release (h : Heap) (pages : List (Nat × PageEntry)) : Heap :=
  pages.foldl (fun h1 p => h1.decRef p.2.backing) h

/-- Modelled from the spec: `RemoveMap` ("removes pages from any overlapping
maps"); on a dead space it does nothing. -/
def RemoveMap (h : Heap) (a : AddressSpace) (base size : Nat) : Heap × AddressSpace :=
  if a.is_dead then (h, a)
  else
    (release h (a.pages.filter (fun p => base ≤ p.1 * 4096 ∧ p.1 * 4096 < base + size)),
     { a with
       pages := a.pages.filter (fun p => ¬ (base ≤ p.1 * 4096 ∧ p.1 * 4096 < base + size)) })

/-- Modelled from the spec: `Kill` ("sets dead, drops all maps, releases backing
memory"). -/
def Kill (h : Heap) (a : AddressSpace) : Heap × AddressSpace :=
  (release h a.pages, { a with is_dead := true, pages := [] })

/-- Modelled from the spec: the copy constructor, `clone()` ("creates a child
with CoW sharing"; "permission sets are copied, not shared"): the child has the
parent's pages and flags, and every backing gets one more reference. -/
def clone (h : Heap) (a : AddressSpace) : Heap × AddressSpace :=
  (a.pages.foldl (fun h1 p => h1.incRef p.2.backing) h, a)

/-- The references of an address space are sound in a heap when every page
refers to a backing in use on which at least one reference is counted. -/
def WellFormed (h : Heap) (a : AddressSpace) : Prop :=
  ∀ p ∈ a.pages, p.2.backing < h.next ∧ 1 ≤ (h.cell p.2.backing).refs

/-- The live space `a` has the `n` pages from page number `page` on mapped
writable, page `page + j` on the backing `id + j`, which nobody else refers to. -/
def OwnsRange (h : Heap) (a : AddressSpace) (page n id : Nat) : Prop :=
  a.is_dead = false ∧
  ∀ j, j < n → ∃ e, a.pages.lookup (page + j) = some e ∧ e.can_write = true ∧
    e.backing = id + j ∧ (h.cell (id + j)).refs ≤ 1

/-- The byte stored at an address of the space, whatever the permissions. -/
def byteAt (h : Heap) (a : AddressSpace) (addr : Nat) : Option Nat :=
  (a.find addr).map (fun e => (h.cell e.backing).data (addr % 4096))

/-- The permissions `(can_read, can_write, can_exec)` of the page of an
address. -/
def permsAt (a : AddressSpace) (addr : Nat) : Option (Bool × Bool × Bool) :=
  (a.find addr).map (fun e => (e.can_read, e.can_write, e.can_exec))

end AddressSpace

/-- The operations of one address space of the model, as the loader uses them
through `emu_addr_space`. -/
def specAddressSpaceOps : AddressSpaceOps (Heap × AddressSpace) :=
  { AddMap := fun s base size r w x => AddressSpace.AddMap s.1 s.2 base size r w x,
    TryWrite := fun s addr val =>
      ((AddressSpace.TryWrite s.1 s.2 addr val).1,
        ((AddressSpace.TryWrite s.1 s.2 addr val).2.1,
          (AddressSpace.TryWrite s.1 s.2 addr val).2.2)),
    SetPermissions := fun s base size r w x =>
      some (s.1, AddressSpace.SetPermissions s.2 base size r w x) }

/-! ## Concrete inputs used to exercise the definitions -/

/-- A concrete string hash (a polynomial hash), standing in for
`std::hash<std::string>` where a concrete one is needed. -/
def demoHash (s : List Nat) : Nat := s.foldl (fun acc b => acc * 31 + b) 7

/-- An instruction map with a single (return) instruction at `pc`. -/
def singleInstruction (pc : Nat) (bytes : List Nat) : InstructionMap :=
  { entries := [(pc, { bytes := bytes, category := .FunctionReturn, next_pc := pc + bytes.length,
                       branch_taken_pc := 0, branch_not_taken_pc := 0 })],
    ascending := List.pairwise_singleton _ _ }

/-- A concrete decoder: it reads one byte at the root pc and decodes it as a
one-byte return instruction; an unreadable pc gives the empty map. -/
def demoDecode (pc : Nat) (cb : Nat → Option Nat) : InstructionMap :=
  match cb pc with
  | some b => singleInstruction pc [b]
  | none => { entries := [], ascending := List.Pairwise.nil }

/-- A concrete lifter over the demo hash and decoder, with an optimizer that
leaves the function as built. -/
def demoLifter : Lifter :=
  { context := 1, strHash := demoHash, Decode := demoDecode,
    LiftIntoBlock := fun _ => true, RunO3 := fun f => f }

/-- A byte reader over memory holding `0xc3` at address `0x1000`. -/
def demoReader (addr : Nat) : Option Nat := if addr = 0x1000 then some 0xc3 else none

/-- The same memory after the byte at `0x1000` was overwritten with `0x90`. -/
def demoReaderModified (addr : Nat) : Option Nat := if addr = 0x1000 then some 0x90 else none

/-- An empty module of the demo lifter's context. -/
def demoModule : Module := { context := 1, functions := [], globals := [] }

/-- A two-instruction map: `nop` at `0x1000`, `ret` at `0x1001`. -/
def demoInsts : InstructionMap :=
  { entries := [(0x1000, { bytes := [0x90], category := .Normal, next_pc := 0x1001,
                           branch_taken_pc := 0, branch_not_taken_pc := 0 }),
                (0x1001, { bytes := [0xc3], category := .FunctionReturn, next_pc := 0x1002,
                           branch_taken_pc := 0, branch_not_taken_pc := 0 })],
    ascending := by decide }

/-- The function the demo lifter builds for the trace at `0x1000` read through
`demoReader`. -/
def demoLiftedFunction : LFunction :=
  { name := "$1000_19c", entry := [.br 0x1000],
    blocks := [(0x1000,
      { body := [{ bytes := [0xc3], category := .FunctionReturn, next_pc := 0x1001,
                   branch_taken_pc := 0, branch_not_taken_pc := 0 }],
        terminators := [.tailCall .function_return] })] }

/-- The demo module once it holds `demoLiftedFunction`. -/
def demoLiftedModule : Module :=
  { context := 1, functions := [demoLiftedFunction], globals := [] }

/-- Collaborators that leave the module and the address space alone, hand out
`pc + 1` as the task pointer, and interpret a task without touching the
executor. Address spaces are plain numbers here. -/
def demoCollaborators : Collaborators Nat :=
  { GetLiftedFunction := fun m mem _ => (demoLiftedFunction, m, mem),
    ConvertContinuationToTask := fun cont => cont.pc + 1,
    Interpret := fun _ e => e }

/-- The task variable `__vmill_task_0` as a runtime would define it, holding
the state of a finished run. -/
def demoTaskVar0 : GlobalVariable :=
  { name := "__vmill_task_0", valueType := { id := 7 }, isConstant := false,
    initializer := some (.data { id := 7 } [1, 2, 3]) }

/-- A runtime module that provides `__vmill_task_0` only. -/
def demoRuntimeModule : Module :=
  { context := 1, functions := [], globals := [demoTaskVar0] }

/-- A fresh executor over the demo runtime module. -/
def demoExecutor : Executor Nat :=
  { lifted_code := demoRuntimeModule, memories := [], tasks := [], interpreter := false }

/-- The demo executor after its first initial task (pc `0x1000`, address
space `0`) was added. -/
def demoExecutorOneTask : Executor Nat :=
  { lifted_code := demoRuntimeModule, memories := [0], tasks := [0x1001],
    interpreter := true }

/-- An executor with an interpreter and three queued tasks. -/
def demoExecutorQueued : Executor Nat :=
  { lifted_code := demoRuntimeModule, memories := [0], tasks := [0x1001, 0x2001, 0x3001],
    interpreter := true }

/-- Collaborators over address spaces that are lists of numbers: `Interpret`
appends the task it is given to every address space of the executor and
touches nothing else. -/
def demoRecordingCollaborators : Collaborators (List Nat) :=
  { GetLiftedFunction := fun m mem _ => (demoLiftedFunction, m, mem),
    ConvertContinuationToTask := fun cont => cont.pc + 1,
    Interpret := fun task e => { e with memories := e.memories.map (fun m => m ++ [task]) } }

/-- An executor with an interpreter, one empty address space and three queued
tasks. -/
def demoExecutorRecording : Executor (List Nat) :=
  { lifted_code := demoRuntimeModule, memories := [[]], tasks := [0x1001, 0x2001, 0x3001],
    interpreter := true }

/-- An executor on which no initial task was added, so `interpreter` is null,
but whose queue holds a task. -/
def demoExecutorNoInterpreter : Executor (List Nat) :=
  { lifted_code := demoRuntimeModule, memories := [], tasks := [0x1001],
    interpreter := false }

/-- A host on which nothing was stored yet. -/
def demoHost : Host := { gExecutor := false, ir_file := none, local_runtime_bitcode := none }

/-- A sequence of queue calls: two adds, a dequeue, an add, two dequeues and a
dequeue on the then empty queue, and a last add. -/
def demoCalls : List QueueCall :=
  [.AddTask 5, .AddTask 7, .NextTask, .AddTask 9, .NextTask, .NextTask, .NextTask, .AddTask 11]

/-- A task variable `__vmill_task_2` holding the state of a finished run. -/
def demoTaskVar2 : GlobalVariable :=
  { name := "__vmill_task_2", valueType := { id := 7 }, isConstant := false,
    initializer := some (.data { id := 7 } [4, 5, 6]) }

/-- A runtime module that provides `__vmill_task_0` and `__vmill_task_2` but
no `__vmill_task_1`. -/
def demoGappedModule : Module :=
  { context := 1, functions := [], globals := [demoTaskVar0, demoTaskVar2] }

/-- An executor over the module with a gap in its task variables. -/
def demoGappedExecutor : Executor Nat :=
  { lifted_code := demoGappedModule, memories := [], tasks := [], interpreter := false }

/-- The module with a gap once `__vmill_task_0` alone has been reset. -/
def demoGappedModuleStored : Module :=
  { context := 1, functions := [],
    globals := [{ demoTaskVar0 with initializer := some (.null { id := 7 }) }, demoTaskVar2] }

/-- A little-endian read of `width` bytes from a list of (address, byte)
pairs; it fails when one of the addresses is not in the list. -/
def demoReadBytes (mem : List (Nat × Nat)) : Nat → Nat → Option Nat
  | 0, _ => some 0
  | width + 1, addr =>
    match mem.lookup addr, demoReadBytes mem width (addr + 1) with
    | some b, some rest => some (b + 256 * rest)
    | _, _ => none

/-- A little-endian write of `width` bytes into a list of (address, byte) pairs. -/
def demoWriteBytes (mem : List (Nat × Nat)) : Nat → Nat → Nat → List (Nat × Nat)
  | 0, _, _ => mem
  | width + 1, addr, v =>
    demoWriteBytes (mem.map (fun p => if p.1 = addr then (addr, v % 256) else p))
      width (addr + 1) (v / 256)

/-- Concrete address-space operations over lists of (address, byte) pairs,
with a number as the output buffer. -/
def demoApi : AddressSpaceApi (List (Nat × Nat)) Nat :=
  { TryRead := fun width mem addr out =>
      match demoReadBytes mem width addr with
      | some v => (true, v, mem)
      | none => (false, out, mem),
    TryWrite := fun width mem addr v =>
      if (List.range width).all (fun i => (mem.lookup (addr + i)).isSome) then
        (true, demoWriteBytes mem width addr v)
      else (false, mem) }

/-- Four mapped bytes at `0x2000`. -/
def demoMemory : List (Nat × Nat) :=
  [(0x2000, 0x11), (0x2001, 0x22), (0x2002, 0x33), (0x2003, 0x44)]

/-- An executor whose memory number 0 is `demoMemory`. -/
def demoMemoryExecutor : Executor (List (Nat × Nat)) :=
  { lifted_code := demoRuntimeModule, memories := [demoMemory], tasks := [],
    interpreter := true }

/-! ## A context that records the calls made on it -/

/-- A call of the loader on the context or on one of its address spaces. -/
inductive ApiCall
  | CreateAddressSpace
  | CloneAddressSpace (parent_mem : Nat)
  | AddMap (memory base size : Nat) (can_read can_write can_exec : Bool)
  | TryWrite (memory addr val : Nat)
  | SetPermissions (memory base size : Nat) (can_read can_write can_exec : Bool)
  | AllocateStateInRuntime (state : List Nat)
  | ScheduleTask (task : Task)
  | ResumeTask (task : Task)
  deriving DecidableEq, Repr

/-- A context whose state is the list of calls made so far: every call
succeeds and is appended; the handle of a new address space or state is one
more than the number of calls before it; nothing is ever dequeued. -/
def recordingContext : ContextApi (List ApiCall) :=
  { CreateAddressSpace := fun log => (log.length + 1, log ++ [.CreateAddressSpace]),
    CloneAddressSpace := fun log parent_mem =>
      (log.length + 1, log ++ [.CloneAddressSpace parent_mem]),
    AddressSpaceOf := fun memory =>
      { AddMap := fun log base size r w x => some (log ++ [.AddMap memory base size r w x]),
        TryWrite := fun log addr val => (true, log ++ [.TryWrite memory addr val]),
        SetPermissions := fun log base size r w x =>
          some (log ++ [.SetPermissions memory base size r w x]) },
    AllocateStateInRuntime := fun log state =>
      (log.length + 1, log ++ [.AllocateStateInRuntime state]),
    ScheduleTask := fun log task => log ++ [.ScheduleTask task],
    TryDequeueTask := fun log => (none, log),
    ResumeTask := fun log task => log ++ [.ResumeTask task] }

/-- A file system without files. -/
def noFiles : FileSystem := { file := fun _ => none, readAmount := fun _ _ => none }

/-- A snapshot with one address space of id 7 (no pages) and one task in it. -/
def demoSnapshotOneTask : snapshot.Program :=
  { arch := "x86", os := "linux",
    address_spaces := [{ id := 7, parent_id := none, page_ranges := [] }],
    threads := [{ pc := 0x1000, state := [1, 2, 3], address_space_id := 7 }] }

/-- A snapshot with two address-space entries that both have id 7. -/
def demoSnapshotDuplicateId : snapshot.Program :=
  { arch := "x86", os := "linux",
    address_spaces := [{ id := 7, parent_id := none, page_ranges := [] },
                       { id := 7, parent_id := none, page_ranges := [] }],
    threads := [] }

/-- A snapshot whose second address space names the first one as its parent. -/
def demoSnapshotParent : snapshot.Program :=
  { arch := "x86", os := "linux",
    address_spaces := [{ id := 1, parent_id := none, page_ranges := [] },
                       { id := 2, parent_id := some 1, page_ranges := [] }],
    threads := [] }

/-- A text segment at an unaligned address. -/
def demoTextSegment : load.Segment :=
  { virtual_address := 0x8048123, memory_size := 0x2000, file_size := 0x1800, flags := 5,
    data := fun i => i % 251 }

/-- An empty segment at a page-aligned address (memory size 0). -/
def demoEmptySegment : load.Segment :=
  { virtual_address := 0x8000, memory_size := 0, file_size := 0, flags := 6,
    data := fun _ => 0 }

/-- A 32-bit ELF file with the two demo segments. -/
def demoElf : load.Elf :=
  { elf_class := 1, entry := 0x8048123, segments := [demoTextSegment, demoEmptySegment] }

/-- An x86 VxWorks target with 32-bit addresses. -/
def demoArch : load.TargetArch := { os_is_vxworks := true, address_size := 32, is_x86 := true }

/-- The output of the static loader on the demo ELF file, with memory
directory `ws/memory`. -/
def demoLoadOutput : Option load.Output :=
  load.main "ws/memory" "x86" "vxworks" demoArch (fun rsp rip => [rsp, rip]) (some demoElf)

/-- The first fixed x86 page range, `[0x1000, 0xa0000)` named `zero`. -/
def demoZeroRange : snapshot.PageRange :=
  { base := 0x1000, limit := 0xa0000, can_read := true, can_write := true,
    can_exec := false, name := "zero" }

/-- A page range whose base is not below its limit. -/
def demoEmptyRange : snapshot.PageRange :=
  { base := 0x8000, limit := 0x8000, can_read := true, can_write := true,
    can_exec := false, name := "seg_8000_8000" }

/-- The files the static loader leaves in `ws/memory`, as the snapshot loader
sees them; every `read` delivers up to a full buffer. -/
def demoLoadedFiles : FileSystem :=
  { file := fun path => (demoLoadOutput.bind (fun out => out.files.lookup path)),
    readAmount := fun _ _ => some 4096 }

/-- The `nop` at `0x1000` of the two-instruction demo trace. -/
def demoNop : Instruction :=
  { bytes := [0x90], category := .Normal, next_pc := 0x1001, branch_taken_pc := 0,
    branch_not_taken_pc := 0 }

/-- A readable and writable page entry on backing 0. -/
def demoPage : PageEntry :=
  { can_read := true, can_write := true, can_exec := false, backing := 0 }

/-- A heap with one backing in use, holding `0x55` at offset 0, referenced once. -/
def demoHeap : Heap :=
  { next := 1,
    cell := fun i =>
      if i = 0 then { refs := 1, data := fun o => if o = 0 then 0x55 else 0 }
      else { refs := 0, data := fun _ => 0 } }

/-- A live address space with the single page `[0x1000, 0x2000)`. -/
def demoSpace : AddressSpace :=
  { is_dead := false, seen_write_to_exec := false, pages := [(1, demoPage)] }

/-- A heap without backings in use. -/
def demoEmptyHeap : Heap := { next := 0, cell := fun _ => { refs := 0, data := fun _ => 0 } }

/-- A file of 4096 bytes. -/
def demoCodeFile : File := { size := 4096, byteAt := fun i => (i * 7) % 256 }

/-- A file system holding `ws/memory/code`, whose reads deliver at most 1000
bytes at a time. -/
def demoCodeFiles : FileSystem :=
  { file := fun path => if path = "ws/memory/code" then some demoCodeFile else none,
    readAmount := fun _ _ => some 1000 }

/-- The page range `[0x1000, 0x2000)` backed by the file `code`, recorded as
readable and executable but not writable. -/
def demoCodeRange : snapshot.PageRange :=
  { base := 0x1000, limit := 0x2000, can_read := true, can_write := false,
    can_exec := true, name := "code" }

/-! ## Concrete traces -/

/-- A one-byte return instruction at `pc`. -/
def demoRetAt (pc : Nat) : Instruction :=
  { bytes := [0xc3], category := .FunctionReturn, next_pc := pc + 1,
    branch_taken_pc := 0, branch_not_taken_pc := 0 }

/-- A conditional hyper call at `0x1000` (x86 `into`) with the taken target
`0x2000` and the not-taken target `0x1001`, its next pc. -/
def demoHyperCall : Instruction :=
  { bytes := [0xce], category := .ConditionalAsyncHyperCall, next_pc := 0x1001,
    branch_taken_pc := 0x2000, branch_not_taken_pc := 0x1001 }

/-- The trace rooted at `0x1000` of `demoHyperCall` and the return
instructions decoded at its two targets. -/
def demoHyperCallInsts : InstructionMap :=
  { entries := [(0x1000, demoHyperCall), (0x1001, demoRetAt 0x1001),
                (0x2000, demoRetAt 0x2000)],
    ascending := by decide }

/-- A conditional branch at `0x1000` to `0x1010`, falling through to `0x1002`. -/
def demoBranch : Instruction :=
  { bytes := [0x75, 0x0e], category := .ConditionalBranch, next_pc := 0x1002,
    branch_taken_pc := 0x1010, branch_not_taken_pc := 0x1002 }

/-- The trace rooted at `0x1000` of `demoBranch` and the return decoded at
`0x1002`; nothing was decoded at the taken target `0x1010`. -/
def demoBranchInsts : InstructionMap :=
  { entries := [(0x1000, demoBranch), (0x1002, demoRetAt 0x1002)],
    ascending := by decide }

/-- A direct jump at `0x2000` to `0x1000`. -/
def demoJump : Instruction :=
  { bytes := [0xe9, 0xfb, 0xef, 0xff, 0xff], category := .DirectJump, next_pc := 0x2005,
    branch_taken_pc := 0x1000, branch_not_taken_pc := 0 }

/-- The instruction map holding `demoJump` only; it has no instruction at
`0x1000`. -/
def demoJumpInsts : InstructionMap :=
  { entries := [(0x2000, demoJump)], ascending := List.pairwise_singleton _ _ }

theorem hexDigit_mem (d : Nat) : hexDigit d ∈ lowerHexChars := by
  unfold hexDigit
  split <;> decide

theorem hexCharValue_hexDigit (d : Nat) (h : d < 16) : hexCharValue (hexDigit d) = d := by
  interval_cases d <;> rfl

theorem hexValue_append_singleton (ds : List Char) (c : Char) :
    hexValue (ds ++ [c]) = hexValue ds * 16 + hexCharValue c := by
  simp [hexValue, List.foldl_append]

theorem hexLoop_spec : ∀ (fuel n : Nat) (acc : List Char), n < fuel →
    ∃ ds, hexLoop fuel n acc = ds ++ acc ∧ IsLowerHexOf ds n := by
  intro fuel
  induction fuel with
  | zero => intro n acc h; omega
  | succ fuel ih =>
    intro n acc h
    unfold hexLoop
    by_cases hq : n / 16 = 0
    · refine ⟨[hexDigit (n % 16)], by simp [hq], by simp, ?_, ?_, ?_⟩
      · intro c hc
        simp only [List.mem_singleton] at hc
        subst hc
        exact hexDigit_mem _
      · intro h0
        simpa using h0
      · have hlt : n < 16 := by omega
        have : hexValue [hexDigit (n % 16)] = hexCharValue (hexDigit (n % 16)) := by
          simp [hexValue]
        rw [this, hexCharValue_hexDigit _ (Nat.mod_lt _ (by norm_num))]
        omega
    · have hlt : n / 16 < fuel := by omega
      obtain ⟨ds, hds, hne, hmem, hhead, hval⟩ := ih (n / 16) (hexDigit (n % 16) :: acc) hlt
      refine ⟨ds ++ [hexDigit (n % 16)], by simp [hq, hds], by simp, ?_, ?_, ?_⟩
      · intro c hc
        rcases List.mem_append.mp hc with hc | hc
        · exact hmem c hc
        · simp only [List.mem_singleton] at hc
          subst hc
          exact hexDigit_mem _
      · intro h0
        exfalso
        have hd : ds.head? = some '0' := by
          cases ds with
          | nil => exact absurd rfl hne
          | cons a t => simpa using h0
        have := hhead hd
        subst this
        apply hq
        rw [← hval]
        rfl
      · rw [hexValue_append_singleton, hval,
          hexCharValue_hexDigit _ (Nat.mod_lt _ (by norm_num))]
        omega

theorem toHex_spec (n : Nat) : IsLowerHexOf (toHex n) n := by
  obtain ⟨ds, hds, hspec⟩ := hexLoop_spec (n + 1) n [] (Nat.lt_succ_self n)
  have : toHex n = ds := by simpa [toHex] using hds
  rw [this]
  exact hspec

theorem toHex_injective {a b : Nat} (h : toHex a = toHex b) : a = b := by
  have ha := (toHex_spec a).2.2.2
  have hb := (toHex_spec b).2.2.2
  rw [h] at ha
  omega

theorem underscore_not_mem_toHex (n : Nat) : '_' ∉ toHex n := by
  intro h
  have := (toHex_spec n).2.1 _ h
  revert this
  decide

theorem LiftedFunctionName_injective {pc1 hash1 pc2 hash2 : Nat}
    (h : LiftedFunctionName pc1 hash1 = LiftedFunctionName pc2 hash2) :
    pc1 = pc2 ∧ hash1 = hash2 := by
  unfold LiftedFunctionName at h
  have h0 := congrArg String.data h
  have h1 : toHex pc1 ++ '_' :: toHex hash1 = toHex pc2 ++ '_' :: toHex hash2 := by
    simpa using h0
  have := (List.append_cons_inj_of_not_mem (underscore_not_mem_toHex pc1)
    (underscore_not_mem_toHex hash1)).mp h1
  exact ⟨toHex_injective this.1, toHex_injective this.2.2⟩

/-! ### Hexadecimal numerals are unique -/

theorem hexCharValue_lt : ∀ c ∈ lowerHexChars, hexCharValue c < 16 := by decide

theorem hexCharValue_injOn :
    ∀ c ∈ lowerHexChars, ∀ d ∈ lowerHexChars, hexCharValue c = hexCharValue d → c = d := by
  decide

theorem hexCharValue_pos : ∀ c ∈ lowerHexChars, c ≠ '0' → 0 < hexCharValue c := by decide

theorem hexValue_foldl (s : List Char) (a : Nat) :
    s.foldl (fun acc c => acc * 16 + hexCharValue c) a = a * 16 ^ s.length + hexValue s := by
  induction s generalizing a with
  | nil => simp [hexValue]
  | cons c r ih =>
    simp only [List.foldl_cons, hexValue, List.length_cons]
    rw [ih, ih (0 * 16 + hexCharValue c)]
    ring

theorem hexValue_pos_of_head {c : Char} {r : List Char} (hc : c ∈ lowerHexChars)
    (h0 : c ≠ '0') : 0 < hexValue (c :: r) := by
  have h := hexValue_foldl r (0 * 16 + hexCharValue c)
  have hpos := hexCharValue_pos c hc h0
  have hpow : 0 < 16 ^ r.length := by positivity
  have hmul : 0 < (0 * 16 + hexCharValue c) * 16 ^ r.length :=
    Nat.mul_pos (by omega) hpow
  simp only [hexValue, List.foldl_cons] at h ⊢
  omega

theorem isLowerHexOf_init_value_pos {s : List Char} {c : Char} {n : Nat}
    (h : IsLowerHexOf (s ++ [c]) n) (hs : s ≠ []) : 0 < hexValue s := by
  obtain ⟨-, hmem, hhead, -⟩ := h
  cases s with
  | nil => exact absurd rfl hs
  | cons a r =>
    apply hexValue_pos_of_head (hmem a (by simp))
    intro ha
    have := hhead (by simp [ha])
    simp at this

theorem isLowerHexOf_unique : ∀ (s t : List Char) (n : Nat),
    IsLowerHexOf s n → IsLowerHexOf t n → s = t := by
  intro s
  induction s using List.reverseRecOn with
  | nil => intro t n hs _; exact absurd rfl hs.1
  | append_singleton s c ih =>
    intro t n hs ht
    rcases List.eq_nil_or_concat t with rfl | ⟨t, d, rfl⟩
    · exact absurd rfl ht.1
    · simp only [List.concat_eq_append] at ht ⊢
      have hvs := hs.2.2.2
      have hvt := ht.2.2.2
      rw [hexValue_append_singleton] at hvs hvt
      have hc := hexCharValue_lt c (hs.2.1 c (by simp))
      have hd := hexCharValue_lt d (ht.2.1 d (by simp))
      have hcd : c = d := hexCharValue_injOn c (hs.2.1 c (by simp)) d (ht.2.1 d (by simp))
        (by omega)
      have hval : hexValue s = hexValue t := by omega
      subst hcd
      have hst : s = t := by
        by_cases hse : s = []
        · by_cases hte : t = []
          · rw [hse, hte]
          · have := isLowerHexOf_init_value_pos ht hte
            rw [← hval, hse] at this
            simp [hexValue] at this
        · by_cases hte : t = []
          · have := isLowerHexOf_init_value_pos hs hse
            rw [hval, hte] at this
            simp [hexValue] at this
          · have hps := isLowerHexOf_init_value_pos hs hse
            have hpt := isLowerHexOf_init_value_pos ht hte
            refine ih t (hexValue s) ⟨hse, fun x hx => hs.2.1 x (by simp [hx]), ?_, rfl⟩
              ⟨hte, fun x hx => ht.2.1 x (by simp [hx]), ?_, hval.symm⟩
            · intro h0
              have := hs.2.2.1 (by
                cases s with
                | nil => exact absurd rfl hse
                | cons a r => simpa using h0)
              cases s with
              | nil => exact absurd rfl hse
              | cons a r => simp at this
            · intro h0
              have := ht.2.2.1 (by
                cases t with
                | nil => exact absurd rfl hte
                | cons a r => simpa using h0)
              cases t with
              | nil => exact absurd rfl hte
              | cons a r => simp at this
      rw [hst]

/-! ## LiftIntoModule: lookup facts -/

theorem getFunction_name {m : Module} {n : String} {f : LFunction}
    (h : m.getFunction n = some f) : f.name = n := by
  have := List.find?_some h
  simpa using this

theorem getFunction_push {m : Module} {n : String} (d : LFunction)
    (h : m.getFunction n = none) (hd : d.name = n) :
    Module.getFunction { m with functions := m.functions ++ [d] } n = some d := by
  unfold Module.getFunction at h ⊢
  simp [List.find?_append, h, hd]

theorem LiftIntoModule_found (L : Lifter) (pc : Nat) (cb : Nat → Option Nat)
    (module : Module) (f : LFunction) (hctx : module.context = L.context)
    (hf : module.getFunction
      (LiftedFunctionName pc (TraceHash L.strHash (L.Decode pc cb))) = some f) :
    LiftIntoModule L pc cb module =
      some ({ pc := pc, hash := TraceHash L.strHash (L.Decode pc cb), func := f }, module) := by
  simp [LiftIntoModule, hctx, hf]

theorem LiftIntoModule_total (L : Lifter) (pc : Nat) (cb : Nat → Option Nat)
    (module : Module) (hctx : module.context = L.context) :
    ∃ f m1, LiftIntoModule L pc cb module =
        some ({ pc := pc, hash := TraceHash L.strHash (L.Decode pc cb), func := f }, m1) ∧
      m1.context = L.context ∧
      m1.getFunction (LiftedFunctionName pc (TraceHash L.strHash (L.Decode pc cb))) = some f := by
  cases hf : module.getFunction
      (LiftedFunctionName pc (TraceHash L.strHash (L.Decode pc cb))) with
  | some f => exact ⟨f, module, LiftIntoModule_found L pc cb module f hctx hf, hctx, hf⟩
  | none =>
    refine ⟨{ L.RunO3 (buildLiftedFunction L.LiftIntoBlock
          (LiftedFunctionName pc (TraceHash L.strHash (L.Decode pc cb))) pc (L.Decode pc cb)) with
          name := LiftedFunctionName pc (TraceHash L.strHash (L.Decode pc cb)) },
        { module with functions := module.functions ++
          [{ L.RunO3 (buildLiftedFunction L.LiftIntoBlock
              (LiftedFunctionName pc (TraceHash L.strHash (L.Decode pc cb))) pc
              (L.Decode pc cb)) with
            name := LiftedFunctionName pc (TraceHash L.strHash (L.Decode pc cb)) }] },
        ?_, hctx, getFunction_push _ hf rfl⟩
    simp [LiftIntoModule, hctx, hf]

/-- C1. If the module already holds a function named after the decoded
`(pc, hash)`, `LiftIntoModule` returns that function with the same `(pc, hash)`
and leaves the module unchanged; and after any first call, a second call whose
decode is unchanged returns the same function and the same module. -/
theorem LiftIntoModule_idempotent (L : Lifter) (pc : Nat) (cb : Nat → Option Nat)
    (module : Module) (hctx : module.context = L.context) :
    (∀ f, module.getFunction
        (LiftedFunctionName pc (TraceHash L.strHash (L.Decode pc cb))) = some f →
      LiftIntoModule L pc cb module =
        some ({ pc := pc, hash := TraceHash L.strHash (L.Decode pc cb), func := f }, module)) ∧
    (∃ r m1, LiftIntoModule L pc cb module = some (r, m1) ∧
      ∀ cb2, L.Decode pc cb2 = L.Decode pc cb →
        LiftIntoModule L pc cb2 m1 = some (r, m1)) := by
  refine ⟨fun f hf => LiftIntoModule_found L pc cb module f hctx hf, ?_⟩
  obtain ⟨f, m1, h1, hc1, hf1⟩ := LiftIntoModule_total L pc cb module hctx
  refine ⟨_, m1, h1, ?_⟩
  intro cb2 hdec
  have := LiftIntoModule_found L pc cb2 m1 f hc1 (by rw [hdec]; exact hf1)
  rw [this, hdec]

/-- Witness for C1 on the demo lifter: the module already holding the lifted
function is returned unchanged with that function, and lifting twice from the
empty module gives the same function both times. -/
theorem LiftIntoModule_idempotent_witness :
    demoLiftedModule.context = demoLifter.context ∧
    demoLiftedModule.getFunction (LiftedFunctionName 0x1000
      (TraceHash demoLifter.strHash (demoLifter.Decode 0x1000 demoReader))) =
        some demoLiftedFunction ∧
    LiftIntoModule demoLifter 0x1000 demoReader demoLiftedModule =
      some ({ pc := 0x1000,
              hash := TraceHash demoLifter.strHash (demoLifter.Decode 0x1000 demoReader),
              func := demoLiftedFunction }, demoLiftedModule) :=
  ⟨rfl, by decide,
    (LiftIntoModule_idempotent demoLifter 0x1000 demoReader demoLiftedModule rfl).1
      demoLiftedFunction (by decide)⟩

/-- C2. The lifted function name determines both the pc and the hash. -/
theorem LiftedFunctionName_encodes_pc_and_hash (pc1 hash1 pc2 hash2 : Nat)
    (h : LiftedFunctionName pc1 hash1 = LiftedFunctionName pc2 hash2) :
    pc1 = pc2 ∧ hash1 = hash2 :=
  LiftedFunctionName_injective h

/-- Witness for C2 at pc `0x1000` and hash `0x19c`. -/
theorem LiftedFunctionName_encodes_pc_and_hash_witness :
    LiftedFunctionName 0x1000 0x19c = LiftedFunctionName (0xfff + 1) (0x19b + 1) ∧
    (0x1000 = 0xfff + 1 ∧ 0x19c = 0x19b + 1) :=
  ⟨by decide, LiftedFunctionName_encodes_pc_and_hash 0x1000 0x19c (0xfff + 1) (0x19b + 1)
    (by decide)⟩

/-- C3. The lifted function name is exactly the character `$`, then the pc as
a lower-case hexadecimal numeral without marker or padding, then `_`, then the
hash as such a numeral: the name has this shape, and whatever numerals of pc
and hash are put into this shape give the name. -/
theorem LiftedFunctionName_shape (pc hash : Nat) :
    (∃ p h, LiftedFunctionName pc hash = String.mk ('$' :: p ++ '_' :: h) ∧
      IsLowerHexOf p pc ∧ IsLowerHexOf h hash) ∧
    (∀ p h, IsLowerHexOf p pc → IsLowerHexOf h hash →
      LiftedFunctionName pc hash = String.mk ('$' :: p ++ '_' :: h)) := by
  refine ⟨⟨toHex pc, toHex hash, rfl, toHex_spec pc, toHex_spec hash⟩, ?_⟩
  intro p h hp hh
  rw [isLowerHexOf_unique p (toHex pc) pc hp (toHex_spec pc),
    isLowerHexOf_unique h (toHex hash) hash hh (toHex_spec hash)]
  rfl

/-- Witness for C3: pc `0x1000` and hash `0x19c` give the name `$1000_19c`. -/
theorem LiftedFunctionName_shape_witness :
    IsLowerHexOf "1000".data 0x1000 ∧ IsLowerHexOf "19c".data 0x19c ∧
    LiftedFunctionName 0x1000 0x19c = "$1000_19c" :=
  ⟨by unfold IsLowerHexOf; decide, by unfold IsLowerHexOf; decide,
    (LiftedFunctionName_shape 0x1000 0x19c).2 "1000".data "19c".data
      (by unfold IsLowerHexOf; decide) (by unfold IsLowerHexOf; decide)⟩

theorem insertionSort_entries (insts : InstructionMap) :
    insts.entries.insertionSort (fun a b => a.1 ≤ b.1) = insts.entries := by
  apply List.Sorted.insertionSort_eq
  exact insts.ascending.imp (fun h => Nat.le_of_lt h)

theorem TraceHash_eq_bytesInPcOrder (strHash : List Nat → Nat) (insts : InstructionMap) :
    TraceHash strHash insts = strHash (bytesInPcOrder insts.entries) % 2 ^ 64 := by
  unfold TraceHash bytesInPcOrder
  rw [insertionSort_entries]

/-- C4. The trace hash is the 64-bit string hash of the instructions' bytes
concatenated in ascending pc order; so two instruction maps with identical
bytes get the same hash and, for the same root pc, the same function name. -/
theorem TraceHash_in_pc_order (strHash : List Nat → Nat) (insts : InstructionMap) :
    TraceHash strHash insts = strHash (bytesInPcOrder insts.entries) % 2 ^ 64 ∧
    ∀ (pc : Nat) (insts2 : InstructionMap),
      bytesInPcOrder insts2.entries = bytesInPcOrder insts.entries →
      TraceHash strHash insts2 = TraceHash strHash insts ∧
      LiftedFunctionName pc (TraceHash strHash insts2) =
        LiftedFunctionName pc (TraceHash strHash insts) := by
  refine ⟨TraceHash_eq_bytesInPcOrder strHash insts, ?_⟩
  intro pc insts2 h
  have : TraceHash strHash insts2 = TraceHash strHash insts := by
    rw [TraceHash_eq_bytesInPcOrder, TraceHash_eq_bytesInPcOrder, h]
  exact ⟨this, by rw [this]⟩

/-- Witness for C4: the two-instruction demo map hashes the bytes `90 c3`, and
a second decode of the same bytes gets the same hash and name. -/
theorem TraceHash_in_pc_order_witness :
    TraceHash demoHash demoInsts = demoHash [0x90, 0xc3] % 2 ^ 64 ∧
    bytesInPcOrder demoInsts.entries = [0x90, 0xc3] ∧
    bytesInPcOrder (singleInstruction 0x1000 [0x90, 0xc3]).entries =
      bytesInPcOrder demoInsts.entries ∧
    LiftedFunctionName 0x1000 (TraceHash demoHash (singleInstruction 0x1000 [0x90, 0xc3])) =
      LiftedFunctionName 0x1000 (TraceHash demoHash demoInsts) :=
  ⟨(TraceHash_in_pc_order demoHash demoInsts).1, by decide, by decide,
    ((TraceHash_in_pc_order demoHash demoInsts).2 0x1000
      (singleInstruction 0x1000 [0x90, 0xc3]) (by decide)).2⟩

theorem bytesInPcOrder_singleInstruction (pc : Nat) (bytes : List Nat) :
    bytesInPcOrder (singleInstruction pc bytes).entries = bytes := by
  simp [bytesInPcOrder, singleInstruction]

/-- Whatever the string hash is, two different byte strings of at most nine
bytes hash to the same 64-bit value at the same pc. -/
theorem TraceHash_collision (strHash : List Nat → Nat) (pc : Nat) :
    ∃ b1 b2 : List Nat, b1 ≠ b2 ∧ (∀ x ∈ b1, x < 256) ∧ (∀ x ∈ b2, x < 256) ∧
      b1.length ≤ 9 ∧ b2.length ≤ 9 ∧
      TraceHash strHash (singleInstruction pc b1) =
        TraceHash strHash (singleInstruction pc b2) := by
  let f : Fin (2 ^ 64 + 1) → Fin (2 ^ 64) := fun n =>
    ⟨TraceHash strHash (singleInstruction pc (Nat.digits 256 n.val)),
      Nat.mod_lt _ (by positivity)⟩
  have hcard : Fintype.card (Fin (2 ^ 64)) < Fintype.card (Fin (2 ^ 64 + 1)) := by
    simp only [Fintype.card_fin]
    exact Nat.lt_succ_self _
  obtain ⟨x, y, hxy, hf⟩ := Fintype.exists_ne_map_eq_of_card_lt f hcard
  have hlen : ∀ n : Fin (2 ^ 64 + 1), (Nat.digits 256 n.val).length ≤ 9 := by
    intro n
    have hn := n.isLt
    rcases Nat.eq_zero_or_pos n.val with h0 | hpos
    · simp [h0]
    · rw [Nat.digits_len 256 n.val (by norm_num) (by omega)]
      have : Nat.log 256 n.val < 9 := by
        apply Nat.log_lt_of_lt_pow (by omega)
        have h2 : (2 : Nat) ^ 64 + 1 ≤ 256 ^ 9 := by norm_num
        omega
      omega
  refine ⟨Nat.digits 256 x.val, Nat.digits 256 y.val, ?_, ?_, ?_, hlen x, hlen y, ?_⟩
  · intro h
    apply hxy
    exact Fin.ext (Nat.digits.injective 256 h)
  · intro d hd
    exact Nat.digits_lt_base (by norm_num) hd
  · intro d hd
    exact Nat.digits_lt_base (by norm_num) hd
  · exact congrArg Fin.val hf

/-- C5, refutation. No string hash makes every change of the instruction
bytes change the trace hash: for each one, two single-instruction traces at pc
`0x1000` with different bytes get the same hash. -/
theorem TraceHash_not_injective :
    ¬ ∃ strHash : List Nat → Nat, ∀ insts1 insts2 : InstructionMap,
      bytesInPcOrder insts1.entries ≠ bytesInPcOrder insts2.entries →
      TraceHash strHash insts1 ≠ TraceHash strHash insts2 := by
  rintro ⟨strHash, h⟩
  obtain ⟨b1, b2, hne, -, -, -, -, heq⟩ := TraceHash_collision strHash 0x1000
  refine h (singleInstruction 0x1000 b1) (singleInstruction 0x1000 b2) ?_ heq
  rw [bytesInPcOrder_singleInstruction, bytesInPcOrder_singleInstruction]
  exact hne

theorem LiftIntoModule_func_name (L : Lifter) (pc : Nat) (cb : Nat → Option Nat)
    (module : Module) (hctx : module.context = L.context) (r : LiftedFunction) (m1 : Module)
    (h : LiftIntoModule L pc cb module = some (r, m1)) :
    r.func.name = LiftedFunctionName pc (TraceHash L.strHash (L.Decode pc cb)) := by
  obtain ⟨f, m, hh, -, hf⟩ := LiftIntoModule_total L pc cb module hctx
  rw [hh] at h
  simp only [Option.some.injEq, Prod.mk.injEq] at h
  rw [← h.1]
  exact getFunction_name hf

/-- C5, as amended. When two decodes rooted at the same pc get different
trace hashes, their concatenated instruction bytes differ, the two function
names differ, and lifting the second decode into the module that already holds
the function of the first returns a function with the other name, not the
previously lifted one. -/
theorem LiftIntoModule_sensitive_to_hash (L : Lifter) (pc : Nat)
    (cb1 cb2 : Nat → Option Nat) (module : Module)
    (hctx : module.context = L.context)
    (hne : TraceHash L.strHash (L.Decode pc cb1) ≠ TraceHash L.strHash (L.Decode pc cb2)) :
    bytesInPcOrder (L.Decode pc cb1).entries ≠ bytesInPcOrder (L.Decode pc cb2).entries ∧
    LiftedFunctionName pc (TraceHash L.strHash (L.Decode pc cb1)) ≠
      LiftedFunctionName pc (TraceHash L.strHash (L.Decode pc cb2)) ∧
    ∃ r1 m1 r2 m2, LiftIntoModule L pc cb1 module = some (r1, m1) ∧
      LiftIntoModule L pc cb2 m1 = some (r2, m2) ∧
      r1.func.name = LiftedFunctionName pc (TraceHash L.strHash (L.Decode pc cb1)) ∧
      r2.func.name = LiftedFunctionName pc (TraceHash L.strHash (L.Decode pc cb2)) ∧
      r2.func ≠ r1.func := by
  have hnames : LiftedFunctionName pc (TraceHash L.strHash (L.Decode pc cb1)) ≠
      LiftedFunctionName pc (TraceHash L.strHash (L.Decode pc cb2)) :=
    fun h => hne (LiftedFunctionName_injective h).2
  refine ⟨?_, hnames, ?_⟩
  · intro h
    apply hne
    rw [TraceHash_eq_bytesInPcOrder, TraceHash_eq_bytesInPcOrder, h]
  · obtain ⟨f1, m1, h1, hc1, -⟩ := LiftIntoModule_total L pc cb1 module hctx
    obtain ⟨f2, m2, h2, -, -⟩ := LiftIntoModule_total L pc cb2 m1 hc1
    have n1 := LiftIntoModule_func_name L pc cb1 module hctx _ m1 h1
    have n2 := LiftIntoModule_func_name L pc cb2 m1 hc1 _ m2 h2
    refine ⟨_, m1, _, m2, h1, h2, n1, n2, ?_⟩
    intro h
    apply hnames
    rw [← n1, ← n2, h]

/-- Witness for C5 as amended: overwriting the byte `c3` at `0x1000` with `90`
changes the demo hash, and the second lift returns a function of another name. -/
theorem LiftIntoModule_sensitive_to_hash_witness :
    demoModule.context = demoLifter.context ∧
    TraceHash demoLifter.strHash (demoLifter.Decode 0x1000 demoReader) ≠
      TraceHash demoLifter.strHash (demoLifter.Decode 0x1000 demoReaderModified) ∧
    LiftedFunctionName 0x1000
        (TraceHash demoLifter.strHash (demoLifter.Decode 0x1000 demoReader)) ≠
      LiftedFunctionName 0x1000
        (TraceHash demoLifter.strHash (demoLifter.Decode 0x1000 demoReaderModified)) :=
  ⟨rfl, by decide,
    (LiftIntoModule_sensitive_to_hash demoLifter 0x1000 demoReader demoReaderModified
      demoModule rfl (by decide)).2.1⟩

/-! ## The task queue and Run -/

theorem runQueueCalls_fifo {AS : Type} (calls : List QueueCall) :
    ∀ (returned : List Nat) (e : Executor AS),
      (runQueueCalls calls returned e).1 ++ (runQueueCalls calls returned e).2.tasks =
        returned ++ e.tasks ++ addedTasks calls := by
  induction calls with
  | nil => intro returned e; simp [runQueueCalls, addedTasks]
  | cons c calls ih =>
    intro returned e
    cases c with
    | AddTask task =>
      simp only [runQueueCalls, addedTasks]
      rw [ih]
      simp [Executor.AddTask]
    | NextTask =>
      simp only [runQueueCalls, addedTasks]
      cases htasks : e.tasks with
      | nil =>
        simp only [List.isEmpty_nil, if_true]
        rw [ih]
        simp [Executor.NextTask, htasks]
      | cons t rest =>
        simp only [List.isEmpty_cons, Bool.false_eq_true, if_false]
        rw [ih]
        simp [Executor.NextTask, htasks]

/-- C6. The task queue is first-in first-out: after any sequence of `AddTask`
and `NextTask` calls, the tasks `NextTask` returned followed by the tasks still
queued are exactly the initial queue followed by the added tasks, in order;
and `NextTask` on an empty queue returns null and leaves the queue empty. -/
theorem task_queue_fifo {AS : Type} (calls : List QueueCall) (e : Executor AS) :
    (runQueueCalls calls [] e).1 ++ (runQueueCalls calls [] e).2.tasks =
      e.tasks ++ addedTasks calls ∧
    (e.tasks = [] → e.NextTask = (nullptr, e)) := by
  refine ⟨by simpa using runQueueCalls_fifo calls [] e, ?_⟩
  intro h
  simp [Executor.NextTask, h]

/-- Witness for C6: on the demo calls the tasks come back as 5, 7, 9, the
fourth dequeue finds the queue empty, and 11 is still queued. -/
theorem task_queue_fifo_witness :
    (runQueueCalls demoCalls [] demoExecutor).1 = [5, 7, 9] ∧
    (runQueueCalls demoCalls [] demoExecutor).2.tasks = [11] ∧
    demoExecutor.tasks = [] ∧
    demoExecutor.NextTask = (nullptr, demoExecutor) :=
  ⟨by decide, by decide, rfl, (task_queue_fifo demoCalls demoExecutor).2 rfl⟩

theorem RunLoop_drains {AS : Type} (C : Collaborators AS)
    (hadd : ∀ task e1, (C.Interpret task e1).tasks = e1.tasks)
    (hkeep : ∀ task e1, e1.interpreter = true → (C.Interpret task e1).interpreter = true) :
    ∀ (fuel : Nat) (e : Executor AS),
      (e.tasks ≠ [] → e.interpreter = true) →
      (∀ task ∈ e.tasks, task ≠ nullptr) → e.tasks.length < fuel →
      Executor.RunLoop C fuel e = .returned (interpretInOrder C e.tasks e) ∧
        (interpretInOrder C e.tasks e).tasks = [] := by
  intro fuel
  induction fuel with
  | zero => intro e _ _ h; omega
  | succ fuel ih =>
    intro e hint hnn hlen
    cases htasks : e.tasks with
    | nil =>
      refine ⟨?_, ?_⟩
      · simp only [Executor.RunLoop, Executor.NextTask, htasks, interpretInOrder]
        simp
      · simpa [interpretInOrder] using htasks
    | cons t rest =>
      have ht : t ≠ nullptr := hnn t (by simp [htasks])
      have hi : e.interpreter = true := hint (by simp [htasks])
      have hrest : (C.Interpret t { e with tasks := rest }).tasks = rest := hadd _ _
      have hstep := ih (C.Interpret t { e with tasks := rest })
        (fun _ => hkeep t { e with tasks := rest } hi)
        (by
          intro task hmem
          rw [hrest] at hmem
          exact hnn task (by simp [htasks, hmem]))
        (by
          rw [hrest]
          simp [htasks] at hlen
          omega)
      rw [hrest] at hstep
      refine ⟨?_, ?_⟩
      · simp only [Executor.RunLoop, Executor.NextTask, htasks, interpretInOrder]
        rw [if_neg ht, if_neg (by simp [hi])]
        exact hstep.1
      · simpa [interpretInOrder] using hstep.2

/-- C7. Let the executor hold an interpreter whenever its queue is not empty
(tasks come from the interpreter that `AddInitialTask` creates), let the queued
task pointers be non-null, and let interpreting a task leave the queue and the
interpreter in place. Then `Run`, given fuel for n + 1 iterations on a queue of
n tasks, returns, and the executor it returns is the one obtained by taking
each queued task off the queue and handing it to `Interpret`, once each and in
queue order; its queue is empty, `gExecutor` is reset and the module is stored
as `IR`. On an empty queue `Run` returns the executor as it was, without any
call of `Interpret`. -/
theorem Run_drains_queue {AS : Type} (C : Collaborators AS) (e : Executor AS) (h : Host)
    (fuel : Nat)
    (hadd : ∀ task e1, (C.Interpret task e1).tasks = e1.tasks)
    (hkeep : ∀ task e1, e1.interpreter = true → (C.Interpret task e1).interpreter = true)
    (hint : e.tasks ≠ [] → e.interpreter = true)
    (htasks : ∀ task ∈ e.tasks, task ≠ nullptr)
    (hfuel : e.tasks.length < fuel) :
    Executor.Run C fuel e h =
      .returned (interpretInOrder C e.tasks e,
        { h with gExecutor := false,
                 ir_file := some (interpretInOrder C e.tasks e).lifted_code }) ∧
    (interpretInOrder C e.tasks e).tasks = [] ∧
    (e.tasks = [] →
      Executor.Run C fuel e h =
        .returned (e, { h with gExecutor := false, ir_file := some e.lifted_code })) := by
  obtain ⟨hrun, hempty⟩ := RunLoop_drains C hadd hkeep fuel e hint htasks hfuel
  have hall : Executor.Run C fuel e h =
      .returned (interpretInOrder C e.tasks e,
        { h with gExecutor := false,
                 ir_file := some (interpretInOrder C e.tasks e).lifted_code }) := by
    simp [Executor.Run, hrun]
  refine ⟨hall, hempty, fun hnil => ?_⟩
  rw [hall, hnil]
  rfl

/-- Witness for C7: `Interpret` appends the task it is given to the address
space, and after `Run` the address space holds the three queued tasks in queue
order, each once, and the queue is empty. -/
theorem Run_drains_queue_witness :
    (∀ task e1, (demoRecordingCollaborators.Interpret task e1).tasks = e1.tasks) ∧
    (∀ task e1, e1.interpreter = true →
      (demoRecordingCollaborators.Interpret task e1).interpreter = true) ∧
    (demoExecutorRecording.tasks ≠ [] → demoExecutorRecording.interpreter = true) ∧
    (∀ task ∈ demoExecutorRecording.tasks, task ≠ nullptr) ∧
    demoExecutorRecording.tasks.length < 4 ∧
    Executor.Run demoRecordingCollaborators 4 demoExecutorRecording demoHost =
      .returned ({ lifted_code := demoRuntimeModule, memories := [[0x1001, 0x2001, 0x3001]],
                   tasks := [], interpreter := true },
        { gExecutor := false, ir_file := some demoRuntimeModule,
          local_runtime_bitcode := none }) :=
  ⟨fun _ _ => rfl, fun _ _ hi => hi, fun _ => rfl, by decide, by decide,
    (Run_drains_queue demoRecordingCollaborators demoExecutorRecording demoHost 4
      (fun _ _ => rfl) (fun _ _ hi => hi) (fun _ => rfl) (by decide) (by decide)).1.trans
      (by decide)⟩

/-- The loop of `Run` on an executor without interpreter: with a task queued
it dequeues the task and then calls through the null `interpreter`. -/
theorem Run_without_interpreter :
    Executor.Run demoRecordingCollaborators 4 demoExecutorNoInterpreter demoHost =
      .nullInterpreter ({ demoExecutorNoInterpreter with tasks := [] },
        { demoHost with gExecutor := true }) := by
  decide

/-! ## The task-variable protocol -/

theorem getGlobalVariable_push {m : Module} {n : String} (g : GlobalVariable)
    (h : m.getGlobalVariable n = none) (hg : g.name = n) :
    Module.getGlobalVariable { m with globals := m.globals ++ [g] } n = some g := by
  unfold Module.getGlobalVariable at h ⊢
  simp [List.find?_append, h, hg]

theorem ensureTaskVar_zero (m : Module) :
    ensureTaskVar m 0 = if (m.getGlobalVariable (taskVarName 0)).isSome then some m else none := by
  cases h : m.getGlobalVariable (taskVarName 0) <;> simp [ensureTaskVar, h]

/-- C8, refutation. On the demo executor the first initial task is added, the
module then has `__vmill_task_0` and lacks `__vmill_task_1`, and adding the
second initial task aborts instead of creating `__vmill_task_1`. -/
theorem AddInitialTask_second_task_aborts :
    Executor.AddInitialTask demoCollaborators demoExecutor [] 0x1000 0 =
      some demoExecutorOneTask ∧
    demoExecutorOneTask.lifted_code.getGlobalVariable (taskVarName 0) = some demoTaskVar0 ∧
    demoExecutorOneTask.lifted_code.getGlobalVariable (taskVarName 1) = none ∧
    Executor.AddInitialTask demoCollaborators demoExecutorOneTask [] 0x2000 1 = none := by
  refine ⟨by decide, by decide, by decide, by decide⟩

/-- C8, as amended. `AddInitialTask` aborts when the memory registry is not
empty, so it only ever adds task number 0: it succeeds only if the module
already has `__vmill_task_0`, hands the module unchanged to the lifter, and the
variable still exists afterwards when the lifter keeps the globals. The
variable-creation step, for a task number i >= 1 whose predecessor variable
exists and whose own variable is missing, appends `__vmill_task_<i>` with the
predecessor's value type and a zero initializer. -/
theorem AddInitialTask_task_variable {AS : Type} (C : Collaborators AS) (e : Executor AS)
    (state : List Nat) (pc : Nat) (memory : AS) :
    (e.memories ≠ [] → Executor.AddInitialTask C e state pc memory = none) ∧
    (∀ e1, Executor.AddInitialTask C e state pc memory = some e1 →
      e.memories = [] ∧ (e.lifted_code.getGlobalVariable (taskVarName 0)).isSome ∧
      e1.lifted_code = (C.GetLiftedFunction e.lifted_code memory pc).2.1 ∧
      ((∀ m mem a, (C.GetLiftedFunction m mem a).2.1.globals = m.globals) →
        (e1.lifted_code.getGlobalVariable (taskVarName 0)).isSome)) ∧
    (∀ i prev, 1 ≤ i →
      e.lifted_code.getGlobalVariable (taskVarName (i - 1)) = some prev →
      e.lifted_code.getGlobalVariable (taskVarName i) = none →
      ∃ m1, ensureTaskVar e.lifted_code i = some m1 ∧
        m1.globals = e.lifted_code.globals ++
          [{ name := taskVarName i, valueType := prev.valueType, isConstant := false,
             initializer := some (Constant.getNullValue prev.valueType) }] ∧
        m1.getGlobalVariable (taskVarName i) =
          some { name := taskVarName i, valueType := prev.valueType, isConstant := false,
                 initializer := some (Constant.getNullValue prev.valueType) }) := by
  refine ⟨?_, ?_, ?_⟩
  · intro hne
    cases hm : e.memories with
    | nil => exact absurd hm hne
    | cons a l => simp [Executor.AddInitialTask, hm]
  · intro e1 h1
    cases hm : e.memories with
    | cons a l => simp [Executor.AddInitialTask, hm] at h1
    | nil =>
      simp only [Executor.AddInitialTask, hm, List.isEmpty_nil, Bool.not_true,
        Bool.false_eq_true, if_false, List.length_nil, ensureTaskVar_zero] at h1
      cases hv : (e.lifted_code.getGlobalVariable (taskVarName 0)).isSome with
      | false => simp [hv] at h1
      | true =>
        simp only [hv, if_true, Option.some.injEq] at h1
        subst h1
        refine ⟨rfl, rfl, rfl, ?_⟩
        intro hkeep
        unfold Module.getGlobalVariable at hv ⊢
        simpa [hkeep] using hv
  · intro i prev hi hprev hnone
    refine ⟨_, ?_, rfl, getGlobalVariable_push _ hnone rfl⟩
    unfold ensureTaskVar
    have hi0 : i ≠ 0 := by omega
    simp [hnone, hprev, hi0]

/-- Witness for C8 as amended: the executor that already has one memory
rejects another initial task, and the creation step for task number 1 on the
demo runtime module appends `__vmill_task_1` shaped like `__vmill_task_0`. -/
theorem AddInitialTask_task_variable_witness :
    demoExecutorOneTask.memories ≠ [] ∧
    Executor.AddInitialTask demoCollaborators demoExecutorOneTask [] 0x2000 1 = none ∧
    ∃ m1, ensureTaskVar demoExecutorOneTask.lifted_code 1 = some m1 ∧
      m1.globals = demoExecutorOneTask.lifted_code.globals ++
        [{ name := taskVarName 1, valueType := demoTaskVar0.valueType, isConstant := false,
           initializer := some (Constant.getNullValue demoTaskVar0.valueType) }] ∧
      m1.getGlobalVariable (taskVarName 1) =
        some { name := taskVarName 1, valueType := demoTaskVar0.valueType,
               isConstant := false,
               initializer := some (Constant.getNullValue demoTaskVar0.valueType) } :=
  ⟨by decide,
    (AddInitialTask_task_variable demoCollaborators demoExecutorOneTask [] 0x2000 1).1
      (by decide),
    (AddInitialTask_task_variable demoCollaborators demoExecutorOneTask [] 0x2000 1).2.2
      1 demoTaskVar0 (by decide) (by decide) (by decide)⟩

/-! ## The destructor -/

theorem find_setInitializerIn (gs : List GlobalVariable) (n : String) (c : Constant)
    (x : String) :
    (setInitializerIn gs n c).find? (fun g => g.name == x) =
      if x = n then (gs.find? (fun g => g.name == n)).map
        (fun g => { g with initializer := some c })
      else gs.find? (fun g => g.name == x) := by
  induction gs with
  | nil => simp [setInitializerIn]
  | cons g gs ih =>
    unfold setInitializerIn
    by_cases hgn : g.name = n
    · by_cases hx : x = n
      · simp [hgn, hx]
      · have : ¬ n = x := fun h => hx h.symm
        simp [hgn, hx, List.find?_cons, this]
    · by_cases hx : x = n
      · subst hx
        simp only [if_true] at ih
        simp [hgn, List.find?_cons, ih]
      · by_cases hgx : g.name = x
        · simp [hgn, hx, List.find?_cons, hgx]
        · simp [hgn, hx, List.find?_cons, hgx, ih]

theorem exceptTaskInitializers_setInitializerIn (k : Nat) (gs : List GlobalVariable)
    (n : String) (c : Constant) (hn : n ∈ taskVarNames k) :
    exceptTaskInitializers k (setInitializerIn gs n c) = exceptTaskInitializers k gs := by
  induction gs with
  | nil => simp [setInitializerIn]
  | cons g gs ih =>
    unfold setInitializerIn
    by_cases hgn : g.name = n
    · simp [hgn, exceptTaskInitializers, hn]
    · simp only [exceptTaskInitializers] at ih
      simp [hgn, exceptTaskInitializers, ih]

theorem taskVarName_mem (k j : Nat) (h : j < k) : taskVarName j ∈ taskVarNames k := by
  simp only [taskVarNames, List.mem_map, List.mem_range]
  exact ⟨j, h, rfl⟩

theorem getGlobalVariable_setInitializer (m : Module) (n : String) (c : Constant)
    (x : String) :
    (m.setInitializer n c).getGlobalVariable x =
      if x = n then (m.getGlobalVariable n).map (fun g => { g with initializer := some c })
      else m.getGlobalVariable x := by
  unfold Module.getGlobalVariable Module.setInitializer
  exact find_setInitializerIn m.globals n c x

theorem zeroed_of_initializer (v : GlobalVariable) (c : Constant)
    (h : v.initializer = some c) :
    v.zeroed = { v with initializer := some (Constant.getNullValue c.getType) } := by
  simp [GlobalVariable.zeroed, h]

theorem zeroed_setInitializer_null (v : GlobalVariable) (c : Constant)
    (h : v.initializer = some c) :
    GlobalVariable.zeroed { v with initializer := some (Constant.getNullValue c.getType) } =
      v.zeroed := by
  simp [GlobalVariable.zeroed, h, Constant.getNullValue, Constant.getType]

theorem resetTaskVars_spec (k : Nat) (hk : k < 2 ^ 32) :
    ∀ (d i fuel : Nat) (m : Module), i + d = k → d < fuel →
      (∀ j, i ≤ j → j < k → ∃ v c, m.getGlobalVariable (taskVarName j) = some v ∧
        v.initializer = some c) →
      m.getGlobalVariable (taskVarName k) = none →
      ∃ m1, resetTaskVars fuel i m = some m1 ∧ m1.context = m.context ∧
        m1.functions = m.functions ∧
        exceptTaskInitializers k m1.globals = exceptTaskInitializers k m.globals ∧
        (∀ x, (∃ j, i ≤ j ∧ j < k ∧ x = taskVarName j) →
          m1.getGlobalVariable x = (m.getGlobalVariable x).map GlobalVariable.zeroed) ∧
        (∀ x, (¬ ∃ j, i ≤ j ∧ j < k ∧ x = taskVarName j) →
          m1.getGlobalVariable x = m.getGlobalVariable x) := by
  intro d
  induction d with
  | zero =>
    intro i fuel m hik hfuel _ hnone
    have hi : i = k := by omega
    subst hi
    obtain ⟨f, rfl⟩ : ∃ f, fuel = f + 1 := ⟨fuel - 1, by omega⟩
    refine ⟨m, ?_, rfl, rfl, rfl, ?_, ?_⟩
    · simp [resetTaskVars, hnone]
    · rintro x ⟨j, h1, h2, -⟩
      omega
    · intro x _
      rfl
  | succ d ih =>
    intro i fuel m hik hfuel hsome hnone
    obtain ⟨f, rfl⟩ : ∃ f, fuel = f + 1 := ⟨fuel - 1, by omega⟩
    have hilt : i < k := by omega
    obtain ⟨v, c, hv, hc⟩ := hsome i (Nat.le_refl i) hilt
    have hmod : (i + 1) % 2 ^ 32 = i + 1 := Nat.mod_eq_of_lt (by omega)
    have hstep : resetTaskVars (f + 1) i m = resetTaskVars f (i + 1)
        (m.setInitializer (taskVarName i) (Constant.getNullValue c.getType)) := by
      simp only [resetTaskVars, hv, hc, hmod]
    obtain ⟨m1, hrun, hctx, hfun, hexc, hin, hout⟩ := ih (i + 1) f
      (m.setInitializer (taskVarName i) (Constant.getNullValue c.getType))
      (by omega) (by omega)
      (by
        intro j hj1 hj2
        obtain ⟨vj, cj, hvj, hcj⟩ := hsome j (by omega) hj2
        rw [getGlobalVariable_setInitializer]
        by_cases hname : taskVarName j = taskVarName i
        · rw [if_pos hname, hv]
          exact ⟨_, _, rfl, rfl⟩
        · rw [if_neg hname]
          exact ⟨vj, cj, hvj, hcj⟩)
      (by
        rw [getGlobalVariable_setInitializer]
        by_cases hname : taskVarName k = taskVarName i
        · rw [hname] at hnone
          rw [hnone] at hv
          exact absurd hv (by simp)
        · rw [if_neg hname]
          exact hnone)
    refine ⟨m1, by rw [hstep, hrun], by rw [hctx]; rfl, by rw [hfun]; rfl, ?_, ?_, ?_⟩
    · rw [hexc]
      exact exceptTaskInitializers_setInitializerIn k m.globals _ _ (taskVarName_mem k i hilt)
    · rintro x ⟨j, hj1, hj2, hx⟩
      by_cases hP : ∃ j, i + 1 ≤ j ∧ j < k ∧ x = taskVarName j
      · rw [hin x hP, getGlobalVariable_setInitializer]
        by_cases hname : x = taskVarName i
        · rw [if_pos hname, hname, hv]
          simp only [Option.map_some']
          rw [zeroed_setInitializer_null v c hc]
        · rw [if_neg hname]
      · have hji : j = i := by
          by_contra hne
          exact hP ⟨j, by omega, hj2, hx⟩
        subst hji
        rw [hout x hP, getGlobalVariable_setInitializer, if_pos hx, hx, hv]
        simp only [Option.map_some']
        rw [zeroed_of_initializer v c hc]
    · intro x hP
      have hP1 : ¬ ∃ j, i + 1 ≤ j ∧ j < k ∧ x = taskVarName j := by
        rintro ⟨j, h1, h2, h3⟩
        exact hP ⟨j, by omega, h2, h3⟩
      have hname : x ≠ taskVarName i := fun h => hP ⟨i, Nat.le_refl i, hilt, h⟩
      rw [hout x hP1, getGlobalVariable_setInitializer, if_neg hname]

/-- C9, refutation. The demo module has the task variables 0 and 2 but not 1;
the destructor stores a module in which `__vmill_task_2` exists and still has
its non-zero initializer. -/
theorem destructor_skips_task_variable_after_gap :
    demoGappedExecutor.lifted_code.getGlobalVariable (taskVarName 2) = some demoTaskVar2 ∧
    Executor.destructor 8 demoGappedExecutor demoHost =
      some { demoHost with local_runtime_bitcode := some demoGappedModuleStored } ∧
    demoGappedModuleStored.getGlobalVariable (taskVarName 2) = some demoTaskVar2 ∧
    demoTaskVar2.initializer ≠
      demoTaskVar2.initializer.map (fun c => Constant.getNullValue c.getType) := by
  refine ⟨by decide, by decide, by decide, by decide⟩

/-- C9, as amended. Let k be the first index without a task variable, every
task variable below k having an initializer. Given fuel for k + 1 iterations
the destructor stores a module in which each task variable below k has its
initializer replaced by the zero value of that initializer's type, and which
otherwise equals the executor's module: same context and functions, the same
globals up to the initializers of those task variables, and the same result
for every lookup of another name. -/
theorem destructor_resets_task_variables {AS : Type} (e : Executor AS) (h : Host)
    (k fuel : Nat) (hk : k < 2 ^ 32) (hfuel : k < fuel)
    (hsome : ∀ j, j < k → ∃ v c, e.lifted_code.getGlobalVariable (taskVarName j) = some v ∧
      v.initializer = some c)
    (hnone : e.lifted_code.getGlobalVariable (taskVarName k) = none) :
    ∃ m1, Executor.destructor fuel e h = some { h with local_runtime_bitcode := some m1 } ∧
      (∀ j, j < k → m1.getGlobalVariable (taskVarName j) =
        (e.lifted_code.getGlobalVariable (taskVarName j)).map GlobalVariable.zeroed) ∧
      m1.context = e.lifted_code.context ∧ m1.functions = e.lifted_code.functions ∧
      exceptTaskInitializers k m1.globals = exceptTaskInitializers k e.lifted_code.globals ∧
      (∀ x, (¬ ∃ j, j < k ∧ x = taskVarName j) →
        m1.getGlobalVariable x = e.lifted_code.getGlobalVariable x) := by
  obtain ⟨m1, hrun, hctx, hfun, hexc, hin, hout⟩ :=
    resetTaskVars_spec k hk k 0 fuel e.lifted_code (by omega) hfuel
      (fun j _ hj => hsome j hj) hnone
  refine ⟨m1, by simp [Executor.destructor, hrun], ?_, hctx, hfun, hexc, ?_⟩
  · intro j hj
    exact hin _ ⟨j, Nat.zero_le j, hj, rfl⟩
  · intro x hx
    apply hout
    rintro ⟨j, -, h2, h3⟩
    exact hx ⟨j, h2, h3⟩

/-- Witness for C9 as amended, on the module whose first missing task variable
is number 1: `__vmill_task_0` is stored with a zero initializer. -/
theorem destructor_resets_task_variables_witness :
    (1 : Nat) < 2 ^ 32 ∧ (1 : Nat) < 8 ∧
    demoGappedExecutor.lifted_code.getGlobalVariable (taskVarName 0) = some demoTaskVar0 ∧
    demoTaskVar0.initializer = some (.data { id := 7 } [1, 2, 3]) ∧
    demoGappedExecutor.lifted_code.getGlobalVariable (taskVarName 1) = none ∧
    ∃ m1, Executor.destructor 8 demoGappedExecutor demoHost =
        some { demoHost with local_runtime_bitcode := some m1 } ∧
      (∀ j, j < 1 → m1.getGlobalVariable (taskVarName j) =
        (demoGappedExecutor.lifted_code.getGlobalVariable (taskVarName j)).map
          GlobalVariable.zeroed) ∧
      m1.context = demoGappedExecutor.lifted_code.context ∧
      m1.functions = demoGappedExecutor.lifted_code.functions ∧
      exceptTaskInitializers 1 m1.globals =
        exceptTaskInitializers 1 demoGappedExecutor.lifted_code.globals ∧
      (∀ x, (¬ ∃ j, j < 1 ∧ x = taskVarName j) →
        m1.getGlobalVariable x = demoGappedExecutor.lifted_code.getGlobalVariable x) :=
  ⟨by norm_num, by norm_num, by decide, rfl, by decide,
    destructor_resets_task_variables demoGappedExecutor demoHost 1 8 (by norm_num)
      (by norm_num)
      (fun j hj => by
        have hj0 : j = 0 := by omega
        subst hj0
        exact ⟨demoTaskVar0, _, by decide, rfl⟩)
      (by decide)⟩

/-! ## Memory callbacks -/

/-- C10. For a valid memory index and a size of 1, 2, 4 or 8, `DoRead` returns
what the indexed address space's read of that width at the guest address
returns, and `DoWrite` what its write of that width (of the value truncated to
the width) returns; for every other size both return false and leave the
executor, its address spaces and the output buffer as they were. -/
theorem memory_callbacks_dispatch_on_size {AS Buf : Type} (api : AddressSpaceApi AS Buf)
    (e : Executor AS) (size index addr value : Nat) (val : Buf) (mem : AS)
    (hmem : e.memories[index]? = some mem) (hvalue : value < 2 ^ 64) :
    (size ∈ [1, 2, 4, 8] →
      Executor.DoRead api e size index addr val =
        some ((api.TryRead size mem addr val).1, (api.TryRead size mem addr val).2.1,
          { e with memories := e.memories.set index (api.TryRead size mem addr val).2.2 }) ∧
      Executor.DoWrite api e size index addr value =
        some ((api.TryWrite size mem addr (value % 2 ^ (8 * size))).1,
          { e with memories :=
              e.memories.set index (api.TryWrite size mem addr (value % 2 ^ (8 * size))).2 })) ∧
    (size ∉ [1, 2, 4, 8] →
      Executor.DoRead api e size index addr val = some (false, val, e) ∧
      Executor.DoWrite api e size index addr value = some (false, e)) := by
  constructor
  · intro hsize
    simp only [List.mem_cons, List.mem_singleton, List.mem_nil_iff, or_false] at hsize
    rcases hsize with rfl | rfl | rfl | rfl
    · exact ⟨by simp [Executor.DoRead, Executor.readVia, hmem],
        by simp [Executor.DoWrite, Executor.writeVia, hmem]⟩
    · exact ⟨by simp [Executor.DoRead, Executor.readVia, hmem],
        by simp [Executor.DoWrite, Executor.writeVia, hmem]⟩
    · exact ⟨by simp [Executor.DoRead, Executor.readVia, hmem],
        by simp [Executor.DoWrite, Executor.writeVia, hmem]⟩
    · have hv : value % 2 ^ (8 * 8) = value := Nat.mod_eq_of_lt (by simpa using hvalue)
      rw [hv]
      exact ⟨by simp [Executor.DoRead, Executor.readVia, hmem],
        by simp [Executor.DoWrite, Executor.writeVia, hmem]⟩
  · intro hsize
    simp only [List.mem_cons, List.mem_singleton, List.mem_nil_iff, or_false, not_or] at hsize
    obtain ⟨h1, h2, h4, h8⟩ := hsize
    constructor
    · unfold Executor.DoRead
      rw [hmem]
      simp only
    · unfold Executor.DoWrite
      rw [hmem]
      simp only

/-- Witness for C10: a 4-byte read at `0x2000` of memory 0 returns the four
mapped bytes, a 2-byte write of `0xabcdef` stores `ef cd`, and size 3 is
refused without touching anything. -/
theorem memory_callbacks_dispatch_on_size_witness :
    demoMemoryExecutor.memories[0]? = some demoMemory ∧
    Executor.DoRead demoApi demoMemoryExecutor 4 0 0x2000 0 =
      some (true, 0x44332211, demoMemoryExecutor) ∧
    Executor.DoWrite demoApi demoMemoryExecutor 2 0 0x2000 0xabcdef =
      some (true, { demoMemoryExecutor with
        memories := [[(0x2000, 0xef), (0x2001, 0xcd), (0x2002, 0x33), (0x2003, 0x44)]] }) ∧
    Executor.DoRead demoApi demoMemoryExecutor 3 0 0x2000 0 =
      some (false, 0, demoMemoryExecutor) ∧
    Executor.DoWrite demoApi demoMemoryExecutor 3 0 0x2000 0xabcdef =
      some (false, demoMemoryExecutor) :=
  ⟨rfl,
    ((memory_callbacks_dispatch_on_size demoApi demoMemoryExecutor 4 0 0x2000 0xabcdef 0
      demoMemory rfl (by norm_num)).1 (by decide)).1,
    ((memory_callbacks_dispatch_on_size demoApi demoMemoryExecutor 2 0 0x2000 0xabcdef 0
      demoMemory rfl (by norm_num)).1 (by decide)).2,
    ((memory_callbacks_dispatch_on_size demoApi demoMemoryExecutor 3 0 0x2000 0xabcdef 0
      demoMemory rfl (by norm_num)).2 (by decide)).1,
    ((memory_callbacks_dispatch_on_size demoApi demoMemoryExecutor 3 0 0x2000 0xabcdef 0
      demoMemory rfl (by norm_num)).2 (by decide)).2⟩

/-! ## Loading a snapshot -/

/-- C11, the code at the failing input. For the snapshot with one address
space of id 7 and one task with `address_space_id` 7, loading creates the
address space and then aborts at the task: no task is scheduled, because
`addr_space_ids` is never filled. -/
theorem LoadSnapshot_one_task_aborts :
    grr.LoadSnapshot recordingContext "ws" noFiles 0 [] demoSnapshotOneTask =
      .aborted [.CreateAddressSpace] ∧
    (grr.LoadAddressSpaces recordingContext "ws" noFiles 0 [] []
      demoSnapshotOneTask.address_spaces).result? = some ([.CreateAddressSpace], []) := by
  refine ⟨by decide, by decide⟩

/-- C12, the code at the failing input. For the snapshot with two address-space
entries of id 7, loading ends normally having created two address spaces: the
duplicate id is not detected, because `addr_space_ids` is never filled. -/
theorem LoadSnapshot_duplicate_id_not_detected :
    grr.LoadSnapshot recordingContext "ws" noFiles 0 [] demoSnapshotDuplicateId =
      .done [.CreateAddressSpace, .CreateAddressSpace] := by
  decide

/-- C13, the code at the failing input. For the snapshot whose second entry
has `parent_id` 1, the id of the first entry, loading creates the first address
space and aborts at the second without cloning, because `addr_space_ids` is
never filled. -/
theorem LoadSnapshot_parent_never_found :
    grr.LoadSnapshot recordingContext "ws" noFiles 0 [] demoSnapshotParent =
      .aborted [.CreateAddressSpace] := by
  decide

theorem toU64_of_nonneg {x : Int} (h0 : 0 ≤ x) (h1 : x < 2 ^ 64) : (toU64 x : Int) = x := by
  unfold toU64
  rw [Int.emod_eq_of_lt h0 h1]
  exact Int.toNat_of_nonneg h0

/-- C15. A page range with `base >= limit` aborts the load before anything is
done for it (the state at the abort is the state before, so no map was added);
a page range whose backing file has a length other than `limit - base` aborts
in `LoadPageRangeFromFile` with the state unchanged, so the load of the range
aborts right after `AddMap`, before any byte is copied. -/
theorem malformed_page_range_rejected {S : Type} (ops : AddressSpaceOps S)
    (workspace : String) (fs : FileSystem) (fuel : Nat) (s : S) (page : snapshot.PageRange) :
    (page.base ≥ page.limit → grr.LoadPageRange ops workspace fs fuel s page = .aborted s) ∧
    (∀ file, page.limit > page.base →
      -(2 : Int) ^ 63 ≤ page.base → page.limit < (2 : Int) ^ 63 →
      fs.file (workspace ++ "/memory/" ++ page.name) = some file →
      (file.size : Int) ≠ page.limit - page.base →
      (∀ s1, grr.LoadPageRangeFromFile ops workspace fs fuel s1 page = .aborted s1) ∧
      grr.LoadPageRange ops workspace fs fuel s page =
        .aborted ((ops.AddMap s (toU64 page.base)
          ((toU64 page.limit + 2 ^ 64 - toU64 page.base) % 2 ^ 64) true true false).getD s)) := by
  constructor
  · intro h
    have : ¬ page.limit > page.base := by omega
    simp [grr.LoadPageRange, this]
  · intro file hlt hlo hhi hfile hsize
    have hne : toU64 (page.limit - page.base) ≠ file.size := by
      intro h
      apply hsize
      rw [← h, toU64_of_nonneg (by omega) (by omega)]
    have hfrom : ∀ s1, grr.LoadPageRangeFromFile ops workspace fs fuel s1 page = .aborted s1 := by
      intro s1
      simp [grr.LoadPageRangeFromFile, hfile, hne]
    refine ⟨hfrom, ?_⟩
    unfold grr.LoadPageRange
    rw [if_neg (not_not.mpr hlt)]
    dsimp only
    split
    · rename_i hadd
      rw [hadd]
      rfl
    · rename_i s1 hadd
      rw [hadd, hfrom]
      rfl

/-- Witness for C15 on the files left by the static loader: the range with
`base = limit` aborts with nothing done, and the range `[0x1000, 0xa0000)`,
whose file `zero` has `0x800000` bytes, aborts with only `AddMap` done. -/
theorem malformed_page_range_rejected_witness :
    demoEmptyRange.base ≥ demoEmptyRange.limit ∧
    grr.LoadPageRange (recordingContext.AddressSpaceOf 1) "ws" demoLoadedFiles 9 []
      demoEmptyRange = .aborted [] ∧
    demoLoadedFiles.file ("ws" ++ "/memory/" ++ demoZeroRange.name) = some load.zeroFile ∧
    (load.zeroFile.size : Int) ≠ demoZeroRange.limit - demoZeroRange.base ∧
    grr.LoadPageRange (recordingContext.AddressSpaceOf 1) "ws" demoLoadedFiles 9 []
      demoZeroRange = .aborted [.AddMap 1 0x1000 0x9f000 true true false] :=
  ⟨by decide,
    (malformed_page_range_rejected (recordingContext.AddressSpaceOf 1) "ws" demoLoadedFiles 9
      [] demoEmptyRange).1 (by decide),
    rfl, by decide,
    ((malformed_page_range_rejected (recordingContext.AddressSpaceOf 1) "ws" demoLoadedFiles 9
      [] demoZeroRange).2 load.zeroFile (by decide) (by decide) (by decide) rfl
        (by decide)).2⟩

/-! ## The static loader -/

/-- C18, the code at the failing input. For the empty segment at the
page-aligned address `0x8000` the static loader writes a page range with
`base = limit = 0x8000`, so `limit > base` fails, and the snapshot loader
aborts on this range. -/
theorem segmentPageRange_empty_segment :
    (load.segmentPageRange demoEmptySegment).base = 0x8000 ∧
    (load.segmentPageRange demoEmptySegment).limit = 0x8000 ∧
    ¬ (load.segmentPageRange demoEmptySegment).limit >
      (load.segmentPageRange demoEmptySegment).base ∧
    demoLoadOutput.map (fun out => out.snapshot.address_spaces.map
      (fun a => a.page_ranges.drop 5)) = some [[demoEmptyRange]] ∧
    grr.LoadPageRange (recordingContext.AddressSpaceOf 1) "ws" demoLoadedFiles 0 []
      demoEmptyRange = .aborted [] := by
  refine ⟨by decide, by decide, by decide, by decide, by decide⟩

/-- C19, the code at the failing input. On an x86 target the snapshot's first
page range is `[0x1000, 0xa0000)` named `zero`, of size `0x9f000`, while the
file `zero` written to the memory directory has length `0x800000`; the range of
the text segment does get a file of exactly its size. -/
theorem zero_file_has_wrong_size :
    demoLoadOutput.map (fun out => out.snapshot.address_spaces.map
      (fun a => a.page_ranges.take 1)) = some [[demoZeroRange]] ∧
    demoZeroRange.limit - demoZeroRange.base = 0x9f000 ∧
    demoLoadOutput.bind (fun out => load.backingFileSize "ws/memory" out demoZeroRange) =
      some 0x800000 ∧
    (load.segmentPageRange demoTextSegment).limit -
      (load.segmentPageRange demoTextSegment).base = 0x3000 ∧
    demoLoadOutput.bind (fun out => load.backingFileSize "ws/memory" out
      (load.segmentPageRange demoTextSegment)) = some 0x3000 := by
  refine ⟨by decide, by decide, by decide, by decide, by decide⟩

/-! ## The terminators of lifted blocks -/

theorem lookup_map_block (f : Nat → BasicBlock → BasicBlock) (bs : List (Nat × BasicBlock))
    (k : Nat) :
    (bs.map (fun e => (e.1, f e.1 e.2))).lookup k = (bs.lookup k).map (f k) := by
  induction bs with
  | nil => simp
  | cons e bs ih =>
    obtain ⟨a, b⟩ := e
    by_cases hk : k = a
    · subst hk
      simp [List.lookup_cons]
    · have hb : (k == a) = false := by simpa using hk
      simp [List.lookup_cons, hb, ih]

theorem lookup_appendTerminator (bs : List (Nat × BasicBlock)) (q : Nat) (t : Terminator)
    (k : Nat) :
    (appendTerminator bs q t).lookup k =
      (bs.lookup k).map (fun b =>
        if k = q then { b with terminators := b.terminators ++ [t] } else b) := by
  have h : appendTerminator bs q t = bs.map (fun e => (e.1,
      (fun a (b : BasicBlock) =>
        if a = q then { b with terminators := b.terminators ++ [t] } else b) e.1 e.2)) := by
    unfold appendTerminator
    apply List.map_congr_left
    intro e _
    by_cases he : e.1 = q <;> simp [he]
  rw [h]
  exact lookup_map_block (fun a (b : BasicBlock) =>
    if a = q then { b with terminators := b.terminators ++ [t] } else b) bs k

theorem lookup_appendBody (bs : List (Nat × BasicBlock)) (q : Nat) (inst : Instruction)
    (k : Nat) :
    (appendBody bs q inst).lookup k =
      (bs.lookup k).map (fun b => if k = q then { b with body := b.body ++ [inst] } else b) := by
  have h : appendBody bs q inst = bs.map (fun e => (e.1,
      (fun a (b : BasicBlock) =>
        if a = q then { b with body := b.body ++ [inst] } else b) e.1 e.2)) := by
    unfold appendBody
    apply List.map_congr_left
    intro e _
    by_cases he : e.1 = q <;> simp [he]
  rw [h]
  exact lookup_map_block (fun a (b : BasicBlock) =>
    if a = q then { b with body := b.body ++ [inst] } else b) bs k

theorem lookup_terminateStragglers (bs : List (Nat × BasicBlock)) (k : Nat) :
    (terminateStragglers bs).lookup k =
      (bs.lookup k).map (fun b =>
        if b.terminators.isEmpty then { b with terminators := [.tailCall .missing_block] }
        else b) := by
  have h : terminateStragglers bs = bs.map (fun e => (e.1,
      (fun (_ : Nat) (b : BasicBlock) =>
        if b.terminators.isEmpty then { b with terminators := [.tailCall .missing_block] }
        else b) e.1 e.2)) := by
    unfold terminateStragglers
    apply List.map_congr_left
    intro e _
    by_cases he : e.2.terminators.isEmpty <;> simp [he]
  rw [h]
  exact lookup_map_block (fun (_ : Nat) (b : BasicBlock) =>
    if b.terminators.isEmpty then { b with terminators := [.tailCall .missing_block] }
    else b) bs k

theorem any_key_eq_lookup (bs : List (Nat × BasicBlock)) (q : Nat) :
    bs.any (fun e => e.1 == q) = (bs.lookup q).isSome := by
  induction bs with
  | nil => simp
  | cons e bs ih =>
    obtain ⟨a, b⟩ := e
    by_cases hk : q = a
    · subst hk
      simp [List.lookup_cons]
    · have hb : (q == a) = false := by simpa using hk
      have hb2 : (a == q) = false := by simpa using fun h => hk h.symm
      simp [List.lookup_cons, hb, hb2, ih]

theorem lookup_GetOrCreateBlock (bs : List (Nat × BasicBlock)) (q k : Nat) :
    (GetOrCreateBlock bs q).lookup k =
      (bs.lookup k).or (if k = q then some { body := [], terminators := [] } else none) := by
  unfold GetOrCreateBlock
  rw [any_key_eq_lookup]
  cases hq : bs.lookup q with
  | some b =>
    simp only [Option.isSome_some, if_true]
    by_cases hk : k = q
    · subst hk
      simp [hq]
    · simp [hk]
  | none =>
    simp only [Option.isSome_none, Bool.false_eq_true, if_false, List.lookup_append]
    by_cases hk : k = q
    · subst hk
      simp [hq, List.lookup_cons]
    · have hb : (k == q) = false := by simpa using hk
      simp [hk, List.lookup_cons, hb]

theorem lookup_liftInstruction_other (liftOk : Instruction → Bool)
    (bs : List (Nat × BasicBlock)) (q : Nat) (i : Instruction) (p : Nat) (hne : p ≠ q) :
    (liftInstruction liftOk bs (q, i)).lookup p = bs.lookup p ∨
      (bs.lookup p = none ∧
        (liftInstruction liftOk bs (q, i)).lookup p = some { body := [], terminators := [] }) := by
  unfold liftInstruction
  dsimp only
  cases hlk : bs.lookup p <;> cases hok : liftOk i <;> cases hc : i.category <;>
    simp [AddTerminatingTailCall, lookup_appendTerminator, lookup_appendBody,
      lookup_GetOrCreateBlock, hne, hlk] <;>
    tauto

theorem lookup_liftInstruction_self (liftOk : Instruction → Bool)
    (bs : List (Nat × BasicBlock)) (p : Nat) (i : Instruction) (t : Terminator)
    (hfresh : bs.lookup p = none ∨ bs.lookup p = some { body := [], terminators := [] })
    (hok : liftOk i = true) (hcat : categoryTerminator i = some t) :
    (liftInstruction liftOk bs (p, i)).lookup p = some { body := [i], terminators := [t] } ∧
    ∀ target ∈ t.targets, ((liftInstruction liftOk bs (p, i)).lookup target).isSome := by
  unfold liftInstruction
  unfold categoryTerminator at hcat
  dsimp only
  rcases hfresh with hlk | hlk <;> cases hc : i.category <;>
    simp [hc] at hcat <;> subst hcat <;>
    simp [AddTerminatingTailCall, lookup_appendTerminator, lookup_appendBody,
      lookup_GetOrCreateBlock, hlk, hok, hc, Terminator.targets]

theorem lookup_liftInstruction_isSome (liftOk : Instruction → Bool)
    (bs : List (Nat × BasicBlock)) (e : Nat × Instruction) (r : Nat)
    (h : (bs.lookup r).isSome) : ((liftInstruction liftOk bs e).lookup r).isSome := by
  obtain ⟨b, hb⟩ := Option.isSome_iff_exists.mp h
  obtain ⟨q, i⟩ := e
  unfold liftInstruction
  dsimp only
  cases hok : liftOk i <;> cases hc : i.category <;>
    simp [AddTerminatingTailCall, lookup_appendTerminator, lookup_appendBody,
      lookup_GetOrCreateBlock, hb]

theorem lookup_foldl_liftInstruction_isSome (liftOk : Instruction → Bool)
    (entries : List (Nat × Instruction)) :
    ∀ (bs : List (Nat × BasicBlock)) (r : Nat), (bs.lookup r).isSome →
      ((entries.foldl (liftInstruction liftOk) bs).lookup r).isSome := by
  induction entries with
  | nil => intro bs r h; exact h
  | cons e entries ih =>
    intro bs r h
    exact ih _ r (lookup_liftInstruction_isSome liftOk bs e r h)

theorem lookup_foldl_liftInstruction_some (liftOk : Instruction → Bool)
    (entries : List (Nat × Instruction)) (p : Nat) (hne : ∀ e ∈ entries, e.1 ≠ p) :
    ∀ (bs : List (Nat × BasicBlock)) (b : BasicBlock), bs.lookup p = some b →
      (entries.foldl (liftInstruction liftOk) bs).lookup p = some b := by
  induction entries with
  | nil => intro bs b h; exact h
  | cons e entries ih =>
    intro bs b h
    obtain ⟨q, i⟩ := e
    have hq : p ≠ q := fun hpq => hne (q, i) (by simp) hpq.symm
    have hstep : (liftInstruction liftOk bs (q, i)).lookup p = some b := by
      rcases lookup_liftInstruction_other liftOk bs q i p hq with h1 | ⟨h1, -⟩
      · rw [h1, h]
      · rw [h] at h1
        exact absurd h1 (by simp)
    exact ih (fun e he => hne e (List.mem_cons_of_mem _ he)) _ b hstep

theorem lookup_foldl_liftInstruction_fresh (liftOk : Instruction → Bool)
    (entries : List (Nat × Instruction)) (p : Nat) (hne : ∀ e ∈ entries, e.1 ≠ p) :
    ∀ (bs : List (Nat × BasicBlock)),
      (bs.lookup p = none ∨ bs.lookup p = some { body := [], terminators := [] }) →
      ((entries.foldl (liftInstruction liftOk) bs).lookup p = none ∨
        (entries.foldl (liftInstruction liftOk) bs).lookup p =
          some { body := [], terminators := [] }) := by
  induction entries with
  | nil => intro bs h; exact h
  | cons e entries ih =>
    intro bs h
    obtain ⟨q, i⟩ := e
    have hq : p ≠ q := fun hpq => hne (q, i) (by simp) hpq.symm
    apply ih (fun e he => hne e (List.mem_cons_of_mem _ he))
    rcases lookup_liftInstruction_other liftOk bs q i p hq with h1 | ⟨-, h1⟩
    · rw [h1]
      exact h
    · exact Or.inr h1

theorem entries_split (insts : InstructionMap) (p : Nat) (i : Instruction)
    (hmem : (p, i) ∈ insts.entries) :
    ∃ pre post, insts.entries = pre ++ (p, i) :: post ∧
      (∀ e ∈ pre, e.1 ≠ p) ∧ (∀ e ∈ post, e.1 ≠ p) := by
  obtain ⟨pre, post, hsplit⟩ := List.append_of_mem hmem
  refine ⟨pre, post, hsplit, ?_, ?_⟩
  · intro e he
    have hpw := insts.ascending
    rw [hsplit, List.pairwise_append] at hpw
    have := hpw.2.2 e he (p, i) (by simp)
    simp only at this
    omega
  · intro e he
    have hpw := insts.ascending
    rw [hsplit, List.pairwise_append] at hpw
    have := (List.pairwise_cons.mp hpw.2.1).1 e he
    simp only at this
    omega

/-- C20. In the function built by `LiftIntoModule`, the block of every decoded
instruction whose body lifted holds that instruction and exactly one
terminator, the one its category prescribes: a branch to the `next_pc` block
(Normal, NoOp), a branch to the `branch_taken_pc` block (DirectJump,
DirectFunctionCall), a conditional branch to the taken and not-taken blocks
(ConditionalBranch), or a tail call to `jump`, `function_call`,
`function_return`, `async_hyper_call` or `error` (IndirectJump,
IndirectFunctionCall, FunctionReturn, AsyncHyperCall, Invalid and Error); the
blocks branched to exist in the function. -/
theorem lifted_block_terminated_by_category (liftOk : Instruction → Bool)
    (func_name : String) (root : Nat) (insts : InstructionMap) (pc : Nat)
    (inst : Instruction) (t : Terminator)
    (hmem : (pc, inst) ∈ insts.entries) (hok : liftOk inst = true)
    (hcat : categoryTerminator inst = some t) :
    (buildLiftedFunction liftOk func_name root insts).blockAt pc =
      some { body := [inst], terminators := [t] } ∧
    ∀ target ∈ t.targets,
      ((buildLiftedFunction liftOk func_name root insts).blockAt target).isSome := by
  obtain ⟨pre, post, hsplit, hpre, hpost⟩ := entries_split insts pc inst hmem
  have hinit : ∀ bs0 : List (Nat × BasicBlock),
      bs0 = (if insts.count root = 0 then
        AddTerminatingTailCall (GetOrCreateBlock [] root) root .error
        else GetOrCreateBlock [] root) →
      (bs0.lookup pc = none ∨ bs0.lookup pc = some { body := [], terminators := [] }) := by
    intro bs0 hbs0
    by_cases hroot : pc = root
    · have hcount : insts.count root ≠ 0 := by
        unfold InstructionMap.count
        have : insts.entries.any (fun e => e.1 == root) = true := by
          rw [List.any_eq_true]
          exact ⟨(pc, inst), hmem, by simp [hroot]⟩
        simp [this]
      rw [hbs0, if_neg hcount]
      right
      simp [lookup_GetOrCreateBlock, hroot]
    · left
      rw [hbs0]
      split <;>
        simp [AddTerminatingTailCall, lookup_appendTerminator, lookup_GetOrCreateBlock, hroot]
  have hfresh := lookup_foldl_liftInstruction_fresh liftOk pre pc hpre _ (hinit _ rfl)
  have hself := lookup_liftInstruction_self liftOk _ pc inst t hfresh hok hcat
  unfold LFunction.blockAt buildLiftedFunction
  dsimp only
  rw [hsplit, List.foldl_append, List.foldl_cons]
  constructor
  · rw [lookup_terminateStragglers,
      lookup_foldl_liftInstruction_some liftOk post pc hpost _ _ hself.1]
    simp
  · intro target htarget
    rw [lookup_terminateStragglers]
    have := lookup_foldl_liftInstruction_isSome liftOk post _ target (hself.2 target htarget)
    obtain ⟨b, hb⟩ := Option.isSome_iff_exists.mp this
    rw [hb]
    simp

/-- Witness for C20 on the two-instruction demo trace: the block of the `nop`
at `0x1000` ends in a branch to the block of `0x1001`, which exists. -/
theorem lifted_block_terminated_by_category_witness :
    (0x1000, demoNop) ∈ demoInsts.entries ∧
    categoryTerminator demoNop = some (.br 0x1001) ∧
    (buildLiftedFunction (fun _ => true) "f" 0x1000 demoInsts).blockAt 0x1000 =
      some { body := [demoNop], terminators := [.br 0x1001] } ∧
    ∀ target ∈ (Terminator.br 0x1001).targets,
      ((buildLiftedFunction (fun _ => true) "f" 0x1000 demoInsts).blockAt target).isSome :=
  ⟨by decide, by decide,
    (lifted_block_terminated_by_category (fun _ => true) "f" 0x1000 demoInsts 0x1000 demoNop
      (.br 0x1001) (by decide) rfl (by decide)).1,
    (lifted_block_terminated_by_category (fun _ => true) "f" 0x1000 demoInsts 0x1000 demoNop
      (.br 0x1001) (by decide) rfl (by decide)).2⟩

/-! ## The address space: Kill and clone -/

/-- C17. After `Kill` the address space is dead and has no mapped page, and
on it (over any heap) `TryRead`, `TryWrite` and `TryReadExecutable` fail while
`TryWrite`, `TryReadExecutable`, `AddMap`, `RemoveMap` and `SetPermissions`
leave the heap and the space exactly as they were, so no map is added and the
same holds for every later call. -/
theorem killed_address_space_is_muted (h h1 : Heap) (a : AddressSpace)
    (addr val base size : Nat) (can_read can_write can_exec : Bool) :
    (AddressSpace.Kill h a).2.IsDead = true ∧
    (AddressSpace.Kill h a).2.pages = [] ∧
    AddressSpace.TryRead h1 (AddressSpace.Kill h a).2 addr = none ∧
    AddressSpace.TryWrite h1 (AddressSpace.Kill h a).2 addr val =
      (false, h1, (AddressSpace.Kill h a).2) ∧
    AddressSpace.TryReadExecutable h1 (AddressSpace.Kill h a).2 addr =
      (none, (AddressSpace.Kill h a).2) ∧
    AddressSpace.AddMap h1 (AddressSpace.Kill h a).2 base size can_read can_write can_exec =
      some (h1, (AddressSpace.Kill h a).2) ∧
    AddressSpace.RemoveMap h1 (AddressSpace.Kill h a).2 base size =
      (h1, (AddressSpace.Kill h a).2) ∧
    AddressSpace.SetPermissions (AddressSpace.Kill h a).2 base size can_read can_write
      can_exec = (AddressSpace.Kill h a).2 := by
  refine ⟨rfl, rfl, ?_, ?_, ?_, ?_, ?_, ?_⟩ <;>
    simp [AddressSpace.Kill, AddressSpace.TryRead, AddressSpace.TryWrite,
      AddressSpace.TryReadExecutable, AddressSpace.AddMap, AddressSpace.RemoveMap,
      AddressSpace.SetPermissions]

theorem foldl_incRef_next (pages : List (Nat × PageEntry)) :
    ∀ h : Heap, (pages.foldl (fun h1 p => h1.incRef p.2.backing) h).next = h.next := by
  induction pages with
  | nil => intro h; rfl
  | cons p pages ih => intro h; rw [List.foldl_cons, ih]; rfl

theorem foldl_incRef_data (pages : List (Nat × PageEntry)) :
    ∀ (h : Heap) (id : Nat),
      ((pages.foldl (fun h1 p => h1.incRef p.2.backing) h).cell id).data = (h.cell id).data := by
  induction pages with
  | nil => intro h id; rfl
  | cons p pages ih =>
    intro h id
    rw [List.foldl_cons, ih]
    simp only [Heap.incRef, Heap.set]
    split
    · rename_i hid
      rw [hid]
    · rfl

theorem foldl_incRef_refs_le (pages : List (Nat × PageEntry)) :
    ∀ (h : Heap) (id : Nat),
      (h.cell id).refs ≤ ((pages.foldl (fun h1 p => h1.incRef p.2.backing) h).cell id).refs := by
  induction pages with
  | nil => intro h id; exact Nat.le_refl _
  | cons p pages ih =>
    intro h id
    rw [List.foldl_cons]
    refine Nat.le_trans ?_ (ih _ id)
    simp only [Heap.incRef, Heap.set]
    split
    · rename_i hid
      rw [hid]
      exact Nat.le_succ _
    · exact Nat.le_refl _

theorem foldl_incRef_refs_mem (pages : List (Nat × PageEntry)) :
    ∀ (h : Heap) (p : Nat × PageEntry), p ∈ pages →
      (h.cell p.2.backing).refs + 1 ≤
        ((pages.foldl (fun h1 q => h1.incRef q.2.backing) h).cell p.2.backing).refs := by
  induction pages with
  | nil => intro h p hp; simp at hp
  | cons q pages ih =>
    intro h p hp
    rw [List.foldl_cons]
    rcases List.mem_cons.mp hp with rfl | hp
    · refine Nat.le_trans ?_ (foldl_incRef_refs_le pages _ _)
      simp [Heap.incRef, Heap.set]
    · refine Nat.le_trans ?_ (ih _ p hp)
      have : (h.cell p.2.backing).refs ≤ ((h.incRef q.2.backing).cell p.2.backing).refs := by
        simp only [Heap.incRef, Heap.set]
        split
        · rename_i hid
          rw [hid]
          exact Nat.le_succ _
        · exact Nat.le_refl _
      omega

theorem mem_of_find {a : AddressSpace} {addr : Nat} {e : PageEntry}
    (h : a.find addr = some e) : (addr / 4096, e) ∈ a.pages := by
  unfold AddressSpace.find at h
  generalize a.pages = l at h
  induction l with
  | nil => simp at h
  | cons p l ih =>
    obtain ⟨k, v⟩ := p
    by_cases hk : addr / 4096 = k
    · simp [List.lookup_cons, hk] at h
      simp [hk, h]
    · have hb : (addr / 4096 == k) = false := by simpa using hk
      simp only [List.lookup_cons, hb] at h
      exact List.mem_cons_of_mem _ (ih h)

theorem TryWrite_shared_frame (h : Heap) (s o : AddressSpace) (x v : Nat) (h2 : Heap)
    (s2 : AddressSpace)
    (hshared : ∀ e, s.find x = some e → 2 ≤ (h.cell e.backing).refs)
    (hvalid : ∀ p ∈ o.pages, p.2.backing < h.next)
    (hw : AddressSpace.TryWrite h s x v = (true, h2, s2)) :
    ∀ addr, AddressSpace.TryRead h2 o addr = AddressSpace.TryRead h o addr := by
  intro addr
  unfold AddressSpace.TryWrite at hw
  cases hdead : s.is_dead with
  | true => simp [hdead] at hw
  | false =>
    cases hfind : s.find x with
    | none => simp [hdead, hfind] at hw
    | some e =>
      have hrefs := hshared e hfind
      cases hcw : e.can_write with
      | false => simp [hdead, hfind, hcw] at hw
      | true =>
        have hgt : (h.cell e.backing).refs > 1 := by omega
        simp only [hdead, hfind, hcw, Bool.false_eq_true, if_false, Bool.not_true,
          hgt, if_true, Prod.mk.injEq, true_and] at hw
        obtain ⟨hh2, -⟩ := hw
        unfold AddressSpace.TryRead
        cases hod : o.is_dead with
        | true => simp
        | false =>
          cases hfo : o.find addr with
          | none => simp
          | some e1 =>
            have hlt : e1.backing < h.next := hvalid _ (mem_of_find hfo)
            have hcell : (h2.cell e1.backing).data = (h.cell e1.backing).data := by
              rw [← hh2]
              simp only [Heap.decRef, Heap.set]
              rw [if_neg (by omega)]
              split
              · rename_i hid
                rw [hid]
              · rfl
            simp [hcell]

theorem lookup_map_page (f : Nat → PageEntry → PageEntry) (ps : List (Nat × PageEntry))
    (k : Nat) :
    (ps.map (fun p => (p.1, f p.1 p.2))).lookup k = (ps.lookup k).map (f k) := by
  induction ps with
  | nil => simp
  | cons p ps ih =>
    obtain ⟨a, b⟩ := p
    by_cases hk : k = a
    · subst hk
      simp [List.lookup_cons]
    · have hb : (k == a) = false := by simpa using hk
      simp [List.lookup_cons, hb, ih]

theorem TryWrite_read_back (h : Heap) (s : AddressSpace) (x v : Nat) (h2 : Heap)
    (s2 : AddressSpace) (e : PageEntry) (hfind : s.find x = some e)
    (hread : e.can_read = true)
    (hw : AddressSpace.TryWrite h s x v = (true, h2, s2)) :
    AddressSpace.TryRead h2 s2 x = some v := by
  unfold AddressSpace.TryWrite at hw
  cases hdead : s.is_dead with
  | true => simp [hdead] at hw
  | false =>
    cases hcw : e.can_write with
    | false => simp [hdead, hfind, hcw] at hw
    | true =>
      simp only [hdead, hfind, hcw, Bool.false_eq_true, if_false, Bool.not_true] at hw
      by_cases hgt : (h.cell e.backing).refs > 1
      · simp only [hgt, if_true, Prod.mk.injEq, true_and] at hw
        obtain ⟨hh2, hs2⟩ := hw
        have hpages : s2.pages = s.pages.map (fun p => (p.1,
            (fun k (q : PageEntry) =>
              if k = x / 4096 then { q with backing := (h.decRef e.backing).next } else q)
              p.1 p.2)) := by
          rw [← hs2]
          apply List.map_congr_left
          intro p _
          by_cases hp : p.1 = x / 4096 <;> simp [hp]
        have hfind2 : s2.find x = some { e with backing := (h.decRef e.backing).next } := by
          unfold AddressSpace.find at hfind ⊢
          rw [hpages]
          rw [lookup_map_page (fun k (q : PageEntry) =>
            if k = x / 4096 then { q with backing := (h.decRef e.backing).next } else q)
            s.pages (x / 4096), hfind]
          simp
        have hd2 : s2.is_dead = false := by rw [← hs2]
        unfold AddressSpace.TryRead
        rw [hd2, hfind2, ← hh2]
        simp [hread]
      · simp only [hgt, if_false, Prod.mk.injEq, true_and] at hw
        obtain ⟨hh2, hs2⟩ := hw
        have hfind2 : s2.find x = some e := by
          rw [← hs2]
          exact hfind
        have hd2 : s2.is_dead = false := by rw [← hs2]
        unfold AddressSpace.TryRead
        rw [hd2, hfind2, ← hh2]
        simp [hread, Heap.set]

theorem TryRead_clone (h : Heap) (a : AddressSpace) (addr : Nat) :
    AddressSpace.TryRead (AddressSpace.clone h a).1 a addr = AddressSpace.TryRead h a addr := by
  unfold AddressSpace.TryRead AddressSpace.clone
  simp only [foldl_incRef_data]

theorem demoSpace_wellFormed : demoSpace.WellFormed demoHeap := by
  intro p hp
  simp only [demoSpace, List.mem_singleton] at hp
  subst hp
  decide

/-- C16. Let `b` be the clone of an address space `a` whose references are
sound. Right after the clone both read what `a` read before. A successful
`TryWrite` on `b` leaves every `TryRead` on `a` as it was, and a successful
`TryWrite` on `a` leaves every `TryRead` on `b` as it was (the child observes
the pre-write byte), while the writer reads the new byte back from a readable
page. -/
theorem clone_then_write_isolated (h : Heap) (a : AddressSpace) (hwf : a.WellFormed h)
    (x v : Nat) :
    (∀ addr, AddressSpace.TryRead (AddressSpace.clone h a).1 (AddressSpace.clone h a).2 addr =
      AddressSpace.TryRead h a addr) ∧
    (∀ h2 b2, AddressSpace.TryWrite (AddressSpace.clone h a).1 (AddressSpace.clone h a).2 x v =
        (true, h2, b2) →
      (∀ addr, AddressSpace.TryRead h2 a addr = AddressSpace.TryRead h a addr) ∧
      (∀ e, a.find x = some e → e.can_read = true →
        AddressSpace.TryRead h2 b2 x = some v)) ∧
    (∀ h2 a2, AddressSpace.TryWrite (AddressSpace.clone h a).1 a x v = (true, h2, a2) →
      (∀ addr, AddressSpace.TryRead h2 (AddressSpace.clone h a).2 addr =
        AddressSpace.TryRead h a addr) ∧
      (∀ e, a.find x = some e → e.can_read = true →
        AddressSpace.TryRead h2 a2 x = some v)) := by
  have hshared : ∀ e, a.find x = some e →
      2 ≤ ((AddressSpace.clone h a).1.cell e.backing).refs := by
    intro e he
    have hm := mem_of_find he
    have h1 := (hwf _ hm).2
    have h2 := foldl_incRef_refs_mem a.pages h _ hm
    simp only [AddressSpace.clone]
    simp only at h1 h2
    omega
  have hvalid : ∀ p ∈ a.pages, p.2.backing < (AddressSpace.clone h a).1.next := by
    intro p hp
    simp only [AddressSpace.clone, foldl_incRef_next]
    exact (hwf p hp).1
  have hframe : ∀ h2 s2, AddressSpace.TryWrite (AddressSpace.clone h a).1 a x v =
      (true, h2, s2) →
      (∀ addr, AddressSpace.TryRead h2 a addr = AddressSpace.TryRead h a addr) ∧
      (∀ e, a.find x = some e → e.can_read = true →
        AddressSpace.TryRead h2 s2 x = some v) := by
    intro h2 s2 hw
    refine ⟨fun addr => ?_, fun e he hr => TryWrite_read_back _ a x v h2 s2 e he hr hw⟩
    rw [TryWrite_shared_frame _ a a x v h2 s2 hshared hvalid hw addr, TryRead_clone]
  exact ⟨fun addr => TryRead_clone h a addr, hframe, hframe⟩

/-- Witness for C16, scenario S5: the page at `0x1000` holds `0x55`; after the
clone the parent writes `0xaa` there; the child still reads `0x55` and the
parent reads `0xaa`. -/
theorem clone_then_write_isolated_witness :
    demoSpace.WellFormed demoHeap ∧
    AddressSpace.TryRead demoHeap demoSpace 0x1000 = some 0x55 ∧
    (AddressSpace.TryWrite (AddressSpace.clone demoHeap demoSpace).1 demoSpace 0x1000 0xaa).1 =
      true ∧
    AddressSpace.TryRead
      (AddressSpace.TryWrite (AddressSpace.clone demoHeap demoSpace).1 demoSpace 0x1000 0xaa).2.1
      (AddressSpace.clone demoHeap demoSpace).2 0x1000 = some 0x55 ∧
    AddressSpace.TryRead
      (AddressSpace.TryWrite (AddressSpace.clone demoHeap demoSpace).1 demoSpace 0x1000 0xaa).2.1
      (AddressSpace.TryWrite (AddressSpace.clone demoHeap demoSpace).1 demoSpace 0x1000 0xaa).2.2
      0x1000 = some 0xaa :=
  ⟨demoSpace_wellFormed, by decide, by decide,
    (((clone_then_write_isolated demoHeap demoSpace demoSpace_wellFormed 0x1000 0xaa).2.2
      _ _ rfl).1 0x1000).trans (by decide),
    ((clone_then_write_isolated demoHeap demoSpace demoSpace_wellFormed 0x1000 0xaa).2.2
      _ _ rfl).2 demoPage (by decide) (by decide)⟩

/-! ## Loading a page range -/

theorem writeChunk_append {S : Type} (ops : AddressSpaceOps S) (l1 l2 : List Nat) :
    ∀ (s : S) (base i : Nat),
      grr.writeChunk ops s base i (l1 ++ l2) =
        (grr.writeChunk ops s base i l1).andThen id
          (fun s1 => grr.writeChunk ops s1 base (i + l1.length) l2) := by
  induction l1 with
  | nil => intro s base i; simp [grr.writeChunk, Outcome.andThen]
  | cons b l1 ih =>
    intro s base i
    simp only [List.cons_append, grr.writeChunk, List.length_cons, List.append_eq]
    split
    · rw [ih]
      have : i + 1 + l1.length = i + (l1.length + 1) := by omega
      rw [this]
    · simp [Outcome.andThen]

theorem writeChunk_shift {S : Type} (ops : AddressSpaceOps S) (l : List Nat) :
    ∀ (s : S) (base k i : Nat),
      grr.writeChunk ops s ((base + k) % 2 ^ 64) i l = grr.writeChunk ops s base (k + i) l := by
  induction l with
  | nil => intro s base k i; simp [grr.writeChunk]
  | cons b l ih =>
    intro s base k i
    simp only [grr.writeChunk]
    have haddr : ((base + k) % 2 ^ 64 + i) % 2 ^ 64 = (base + (k + i)) % 2 ^ 64 := by omega
    rw [haddr, ih]
    have : k + (i + 1) = k + i + 1 := by omega
    rw [this]

theorem range_map_add (f : Nat → Nat) (off a b : Nat) :
    (List.range (a + b)).map (fun i => f (off + i)) =
      (List.range a).map (fun i => f (off + i)) ++
        (List.range b).map (fun i => f (off + a + i)) := by
  rw [List.range_add, List.map_append, List.map_map]
  congr 1
  apply List.map_congr_left
  intro i _
  simp [Nat.add_assoc]

theorem copyLoop_eq_writeChunk {S : Type} (ops : AddressSpaceOps S) (fs : FileSystem)
    (path : String) (file : File)
    (hread : ∀ off, off < file.size → ∃ k, fs.readAmount path off = some k ∧ 1 ≤ k) :
    ∀ (fuel : Nat) (s : S) (base_addr range_size offset : Nat),
      offset + range_size = file.size → range_size < 2 ^ 64 → range_size ≤ fuel →
      grr.copyLoop ops fs path file fuel s base_addr range_size offset =
        grr.writeChunk ops s base_addr 0
          ((List.range range_size).map (fun i => file.byteAt (offset + i))) := by
  intro fuel
  induction fuel with
  | zero =>
    intro s base_addr range_size offset _ _ hfuel
    have : range_size = 0 := by omega
    subst this
    simp [grr.copyLoop, grr.writeChunk]
  | succ fuel ih =>
    intro s base_addr range_size offset hsum hlt hfuel
    by_cases h0 : range_size = 0
    · subst h0
      simp [grr.copyLoop, grr.writeChunk]
    · obtain ⟨k, hk, hk1⟩ := hread offset (by omega)
      have hamount : ∃ amount, min (min k 4096) (file.size - offset) = amount ∧
          1 ≤ amount ∧ amount ≤ range_size := ⟨_, rfl, by omega, by omega⟩
      obtain ⟨amount, hamt, ha1, ha2⟩ := hamount
      have hsplit : range_size = amount + (range_size - amount) := by omega
      have hrest : (range_size + 2 ^ 64 - amount) % 2 ^ 64 = range_size - amount := by omega
      simp only [grr.copyLoop, if_neg h0, grr.sysRead, hk, hamt, List.length_map,
        List.length_range, hrest]
      conv_rhs => rw [hsplit, range_map_add, writeChunk_append]
      congr 1
      funext s1
      rw [ih s1 _ (range_size - amount) (offset + amount) (by omega) (by omega) (by omega),
        writeChunk_shift]
      simp

theorem lookup_freshPages (r w x : Bool) :
    ∀ (n page id k : Nat) (rest : List (Nat × PageEntry)),
      (AddressSpace.freshPages r w x n page id ++ rest).lookup k =
        if page ≤ k ∧ k < page + n then
          some { can_read := r, can_write := w, can_exec := x, backing := id + (k - page) }
        else rest.lookup k := by
  intro n
  induction n with
  | zero =>
    intro page id k rest
    have : ¬ (page ≤ k ∧ k < page) := by omega
    simp [AddressSpace.freshPages, this]
  | succ n ih =>
    intro page id k rest
    simp only [AddressSpace.freshPages, List.cons_append, List.lookup_cons]
    by_cases hk : k = page
    · subst hk
      have : k ≤ k ∧ k < k + (n + 1) := by omega
      simp [this]
    · have hb : (k == page) = false := by simpa using hk
      simp only [hb]
      rw [ih]
      by_cases hc : page ≤ k ∧ k < page + (n + 1)
      · have hc1 : page + 1 ≤ k ∧ k < page + 1 + n := by omega
        have hid : id + 1 + (k - (page + 1)) = id + (k - page) := by omega
        simp [hc, hc1, hid]
      · have hc1 : ¬ (page + 1 ≤ k ∧ k < page + 1 + n) := by omega
        simp [hc, hc1]

theorem AddMap_alive_eq (h : Heap) (a : AddressSpace) (base size : Nat) (r w x : Bool)
    (halive : a.is_dead = false) (hb : base % 4096 = 0) (hs : size % 4096 = 0)
    (hfree : ∀ p ∈ a.pages, ¬ (base / 4096 ≤ p.1 ∧ p.1 < base / 4096 + size / 4096)) :
    AddressSpace.AddMap h a base size r w x =
      some
        ({ next := h.next + size / 4096,
           cell := fun i =>
             if h.next ≤ i ∧ i < h.next + size / 4096 then { refs := 1, data := fun _ => 0 }
             else h.cell i },
         { a with
           pages := AddressSpace.freshPages r w x (size / 4096) (base / 4096) h.next ++
             a.pages }) := by
  have hany : a.pages.any
      (fun p => decide (base / 4096 ≤ p.1 ∧ p.1 < base / 4096 + size / 4096)) = false := by
    rw [List.any_eq_false]
    intro p hp
    simpa using hfree p hp
  unfold AddressSpace.AddMap
  rw [if_neg (by simp [halive]), if_neg (by omega),
    if_neg (by rw [hany]; exact Bool.false_ne_true)]

theorem AddMap_owns (h : Heap) (a : AddressSpace) (base size : Nat)
    (halive : a.is_dead = false) (hb : base % 4096 = 0) (hs : size % 4096 = 0)
    (hfree : ∀ p ∈ a.pages, ¬ (base / 4096 ≤ p.1 ∧ p.1 < base / 4096 + size / 4096)) :
    ∃ h1 a1, AddressSpace.AddMap h a base size true true false = some (h1, a1) ∧
      AddressSpace.OwnsRange h1 a1 (base / 4096) (size / 4096) h.next := by
  refine ⟨_, _, AddMap_alive_eq h a base size true true false halive hb hs hfree, halive, ?_⟩
  intro j hj
  refine ⟨{ can_read := true, can_write := true, can_exec := false, backing := h.next + j },
    ?_, rfl, rfl, ?_⟩
  · simp only
    rw [lookup_freshPages]
    have hc : base / 4096 ≤ base / 4096 + j ∧ base / 4096 + j < base / 4096 + size / 4096 := by
      omega
    simp [hc]
  · have hc : h.next ≤ h.next + j ∧ h.next + j < h.next + size / 4096 := by omega
    simp [hc]

theorem TryWrite_owned (h : Heap) (a : AddressSpace) (page n id i v : Nat)
    (hown : AddressSpace.OwnsRange h a page n id) (hi : i < n * 4096) :
    (AddressSpace.TryWrite h a (page * 4096 + i) v).1 = true ∧
    AddressSpace.OwnsRange (AddressSpace.TryWrite h a (page * 4096 + i) v).2.1
      (AddressSpace.TryWrite h a (page * 4096 + i) v).2.2 page n id ∧
    (AddressSpace.TryWrite h a (page * 4096 + i) v).2.2.pages = a.pages ∧
    ∀ m, m < n * 4096 →
      AddressSpace.byteAt (AddressSpace.TryWrite h a (page * 4096 + i) v).2.1
        (AddressSpace.TryWrite h a (page * 4096 + i) v).2.2 (page * 4096 + m) =
        if m = i then some v else AddressSpace.byteAt h a (page * 4096 + m) := by
  obtain ⟨halive, hpages⟩ := hown
  have hdiv : (page * 4096 + i) / 4096 = page + i / 4096 := by omega
  have hmod : (page * 4096 + i) % 4096 = i % 4096 := by omega
  obtain ⟨e, he, hcw, hback, hrefs⟩ := hpages (i / 4096) (by omega)
  have hfind : a.find (page * 4096 + i) = some e := by
    unfold AddressSpace.find
    rw [hdiv, he]
  have hnot : ¬ (h.cell e.backing).refs > 1 := by rw [hback]; omega
  have hw : AddressSpace.TryWrite h a (page * 4096 + i) v =
      (true,
        h.set e.backing { h.cell e.backing with
          data := fun o => if o = i % 4096 then v else (h.cell e.backing).data o },
        { a with seen_write_to_exec := a.seen_write_to_exec || e.can_exec }) := by
    unfold AddressSpace.TryWrite
    simp only [halive, hfind, hcw, hnot, hmod, Bool.false_eq_true, if_false, Bool.not_true]
  rw [hw]
  refine ⟨rfl, ⟨halive, ?_⟩, rfl, ?_⟩
  · intro j hj
    obtain ⟨ej, hej, hcwj, hbackj, hrefsj⟩ := hpages j hj
    refine ⟨ej, hej, hcwj, hbackj, ?_⟩
    simp only [Heap.set]
    split
    · exact hrefs.trans_eq' (by rw [hback])
    · exact hrefsj
  · intro m hm
    obtain ⟨em, hem, -, hbackm, -⟩ := hpages (m / 4096) (by omega)
    have hdivm : (page * 4096 + m) / 4096 = page + m / 4096 := by omega
    have hmodm : (page * 4096 + m) % 4096 = m % 4096 := by omega
    simp only [AddressSpace.byteAt, AddressSpace.find, hdivm, hem, hmodm, Option.map_some',
      Heap.set, hbackm, hback]
    by_cases hmi : m = i
    · subst hmi
      simp
    · by_cases hpg : m / 4096 = i / 4096
      · have hoff : m % 4096 ≠ i % 4096 := by omega
        simp [hmi, hpg, hoff]
      · have : id + m / 4096 ≠ id + i / 4096 := by omega
        simp [hmi, this]

theorem writeChunk_owned (f : Nat → Nat) (page n id : Nat)
    (hfit : page * 4096 + n * 4096 ≤ 2 ^ 64) :
    ∀ (cnt i : Nat) (s : Heap × AddressSpace),
      AddressSpace.OwnsRange s.1 s.2 page n id → i + cnt ≤ n * 4096 →
      ∃ s1, grr.writeChunk specAddressSpaceOps s (page * 4096) i
          ((List.range cnt).map (fun k => f (i + k))) = .done s1 ∧
        AddressSpace.OwnsRange s1.1 s1.2 page n id ∧ s1.2.pages = s.2.pages ∧
        ∀ m, m < n * 4096 →
          AddressSpace.byteAt s1.1 s1.2 (page * 4096 + m) =
            if i ≤ m ∧ m < i + cnt then some (f m)
            else AddressSpace.byteAt s.1 s.2 (page * 4096 + m) := by
  intro cnt
  induction cnt with
  | zero =>
    intro i s hown _
    refine ⟨s, by simp [grr.writeChunk], hown, rfl, ?_⟩
    intro m _
    have : ¬ (i ≤ m ∧ m < i + 0) := by omega
    rw [if_neg this]
  | succ cnt ih =>
    intro i s hown hle
    have hi : i < n * 4096 := by omega
    obtain ⟨hok, hown1, hpages1, hbytes1⟩ := TryWrite_owned s.1 s.2 page n id i (f i) hown hi
    obtain ⟨s1, hrun, hown2, hpages2, hbytes2⟩ :=
      ih (i + 1) ((AddressSpace.TryWrite s.1 s.2 (page * 4096 + i) (f i)).2.1,
        (AddressSpace.TryWrite s.1 s.2 (page * 4096 + i) (f i)).2.2) hown1 (by omega)
    refine ⟨s1, ?_, hown2, hpages2.trans hpages1, ?_⟩
    · have hlist : (List.range (cnt + 1)).map (fun k => f (i + k)) =
          f i :: (List.range cnt).map (fun k => f (i + 1 + k)) := by
        rw [List.range_succ_eq_map, List.map_cons, List.map_map]
        congr 1
        apply List.map_congr_left
        intro k _
        simp only [Function.comp, Nat.succ_eq_add_one]
        congr 1
        omega
      have haddr : (page * 4096 + i) % 2 ^ 64 = page * 4096 + i := by
        apply Nat.mod_eq_of_lt
        omega
      rw [hlist]
      simp only [grr.writeChunk, haddr, specAddressSpaceOps, hok, if_true]
      exact hrun
    · intro m hm
      rw [hbytes2 m hm, hbytes1 m hm]
      by_cases hmi : m = i
      · subst hmi
        have h1 : ¬ (m + 1 ≤ m ∧ m < m + 1 + cnt) := by omega
        have h2 : m ≤ m ∧ m < m + (cnt + 1) := by omega
        rw [if_neg h1, if_pos rfl, if_pos h2]
      · by_cases hin : i + 1 ≤ m ∧ m < i + 1 + cnt
        · have h2 : i ≤ m ∧ m < i + (cnt + 1) := by omega
          rw [if_pos hin, if_pos h2]
        · have h2 : ¬ (i ≤ m ∧ m < i + (cnt + 1)) := by omega
          rw [if_neg hin, if_neg hmi, if_neg h2]

theorem find_SetPermissions (a : AddressSpace) (base size : Nat) (r w x : Bool)
    (halive : a.is_dead = false) (addr : Nat) :
    (AddressSpace.SetPermissions a base size r w x).find addr =
      (a.find addr).map (fun e =>
        if base ≤ addr / 4096 * 4096 ∧ addr / 4096 * 4096 < base + size then
          { e with can_read := r, can_write := w, can_exec := x }
        else e) := by
  unfold AddressSpace.SetPermissions AddressSpace.find
  rw [if_neg (by simp [halive])]
  have hmap : a.pages.map (fun p =>
      if base ≤ p.1 * 4096 ∧ p.1 * 4096 < base + size then
        (p.1, { p.2 with can_read := r, can_write := w, can_exec := x })
      else p) = a.pages.map (fun p => (p.1,
        (fun k (e : PageEntry) =>
          if base ≤ k * 4096 ∧ k * 4096 < base + size then
            { e with can_read := r, can_write := w, can_exec := x }
          else e) p.1 p.2)) := by
    apply List.map_congr_left
    intro p _
    by_cases hp : base ≤ p.1 * 4096 ∧ p.1 * 4096 < base + size <;> simp [hp]
  simp only
  rw [hmap]
  exact lookup_map_page (fun k (e : PageEntry) =>
    if base ≤ k * 4096 ∧ k * 4096 < base + size then
      { e with can_read := r, can_write := w, can_exec := x }
    else e) a.pages (addr / 4096)

/-- C14. On an address space of the model that is live and has no page mapped
in `[base, limit)`, for a page-aligned range `0 <= base < limit` whose backing
file has exactly `limit - base` bytes, with every `read` delivering at least
one byte and fuel for one iteration per byte: `AddMap` maps the range with the
default permissions (read, write, no execute), `LoadPageRangeFromFile` ends
normally and its effect is that of writing exactly the `limit - base` bytes of
the file in order, byte `i` at `base + i`, after which byte `base + i` of the
address space is byte `i` of the file; only then `SetPermissions` installs the
recorded permissions, whatever `can_write` is, and the bytes stay. -/
theorem page_range_loaded (workspace : String) (fs : FileSystem) (fuel : Nat)
    (h : Heap) (a : AddressSpace) (page : snapshot.PageRange) (file : File)
    (halive : a.is_dead = false)
    (hbase : 0 ≤ page.base) (hlt : page.limit > page.base) (hlim : page.limit < 2 ^ 63)
    (hab : page.base % 4096 = 0) (hal : page.limit % 4096 = 0)
    (hfree : ∀ p ∈ a.pages,
      ¬ (page.base.toNat ≤ p.1 * 4096 ∧ p.1 * 4096 < page.limit.toNat))
    (hfile : fs.file (workspace ++ "/memory/" ++ page.name) = some file)
    (hsize : (file.size : Int) = page.limit - page.base)
    (hread : ∀ off, off < file.size →
      ∃ k, fs.readAmount (workspace ++ "/memory/" ++ page.name) off = some k ∧ 1 ≤ k)
    (hfuel : file.size ≤ fuel) :
    ∃ s1 s2,
      AddressSpace.AddMap h a page.base.toNat file.size true true false = some s1 ∧
      grr.LoadPageRangeFromFile specAddressSpaceOps workspace fs fuel s1 page = .done s2 ∧
      grr.writeChunk specAddressSpaceOps s1 page.base.toNat 0
        ((List.range file.size).map (fun i => file.byteAt i)) = .done s2 ∧
      grr.LoadPageRange specAddressSpaceOps workspace fs fuel (h, a) page =
        .done (s2.1, AddressSpace.SetPermissions s2.2 page.base.toNat file.size
          page.can_read page.can_write page.can_exec) ∧
      ∀ i, i < file.size →
        AddressSpace.permsAt s2.2 (page.base.toNat + i) = some (true, true, false) ∧
        AddressSpace.byteAt s2.1 s2.2 (page.base.toNat + i) = some (file.byteAt i) ∧
        AddressSpace.byteAt s2.1
          (AddressSpace.SetPermissions s2.2 page.base.toNat file.size
            page.can_read page.can_write page.can_exec) (page.base.toNat + i) =
          some (file.byteAt i) ∧
        AddressSpace.permsAt
          (AddressSpace.SetPermissions s2.2 page.base.toNat file.size
            page.can_read page.can_write page.can_exec) (page.base.toNat + i) =
          some (page.can_read, page.can_write, page.can_exec) := by
  obtain ⟨b, hb⟩ := Int.eq_ofNat_of_zero_le hbase
  obtain ⟨l, hl⟩ := Int.eq_ofNat_of_zero_le (by omega : 0 ≤ page.limit)
  have hbn : page.base.toNat = b := by rw [hb]; rfl
  have hln : page.limit.toNat = l := by rw [hl]; rfl
  rw [hln, hbn] at hfree
  rw [hbn]
  have hsz : file.size = l - b := by omega
  have hbl : b < l := by omega
  have hl63 : l < 2 ^ 63 := by omega
  have hb4 : b % 4096 = 0 := by omega
  have hl4 : l % 4096 = 0 := by omega
  have hub : toU64 page.base = b := by
    have := toU64_of_nonneg hbase (by omega)
    omega
  have hul : toU64 page.limit = l := by
    have := toU64_of_nonneg (by omega : 0 ≤ page.limit) (by omega)
    omega
  have hud : toU64 (page.limit - page.base) = file.size := by
    have := toU64_of_nonneg (by omega : 0 ≤ page.limit - page.base) (by omega)
    omega
  have hsizeU : (toU64 page.limit + 2 ^ 64 - toU64 page.base) % 2 ^ 64 = file.size := by
    rw [hub, hul]
    omega
  have hfree1 : ∀ p ∈ a.pages,
      ¬ (b / 4096 ≤ p.1 ∧ p.1 < b / 4096 + file.size / 4096) := by
    intro p hp hc
    apply hfree p hp
    omega
  have hs4 : file.size % 4096 = 0 := by omega
  have hadd := AddMap_alive_eq h a b file.size true true false halive hb4 hs4 hfree1
  obtain ⟨h1, a1, hadd1, hown⟩ := AddMap_owns h a b file.size halive hb4 hs4 hfree1
  have hpage : b / 4096 * 4096 = b := by omega
  have hn : file.size / 4096 * 4096 = file.size := by omega
  obtain ⟨s2, hrun, hown2, hpages2, hbytes2⟩ :=
    writeChunk_owned (fun i => file.byteAt i) (b / 4096) (file.size / 4096) h.next
      (by omega) file.size 0 (h1, a1) hown (by omega)
  rw [hpage] at hrun
  have hrun0 : grr.writeChunk specAddressSpaceOps (h1, a1) b 0
      ((List.range file.size).map (fun i => file.byteAt i)) = .done s2 := by
    simpa using hrun
  have hcopy : grr.LoadPageRangeFromFile specAddressSpaceOps workspace fs fuel (h1, a1) page =
      .done s2 := by
    unfold grr.LoadPageRangeFromFile
    simp only [hfile, hud, ne_eq, not_true_eq_false, if_false, hub]
    rw [copyLoop_eq_writeChunk specAddressSpaceOps fs _ file hread fuel (h1, a1) b
      file.size 0 (by omega) (by omega) hfuel]
    simpa using hrun
  have halive2 : s2.2.is_dead = false := hown2.1
  refine ⟨(h1, a1), s2, hadd1, hcopy, hrun0, ?_, ?_⟩
  · unfold grr.LoadPageRange
    rw [if_neg (not_not.mpr hlt)]
    dsimp only
    rw [hsizeU, hub]
    have hadd2 : specAddressSpaceOps.AddMap (h, a) b file.size true true false =
        some (h1, a1) := hadd1
    rw [hadd2]
    dsimp only
    rw [hcopy]
    rfl
  · intro i hi
    have hdiv : (b + i) / 4096 = b / 4096 + i / 4096 := by omega
    have hin : b ≤ (b + i) / 4096 * 4096 ∧ (b + i) / 4096 * 4096 < b + file.size := by omega
    have hb2 := hbytes2 i (by omega)
    rw [hpage] at hb2
    have hcond : 0 ≤ i ∧ i < 0 + file.size := by omega
    rw [if_pos hcond] at hb2
    have hfind1 : a1.find (b + i) = some ⟨true, true, false, h.next + i / 4096⟩ := by
      rw [hadd] at hadd1
      simp only [Option.some.injEq, Prod.mk.injEq] at hadd1
      rw [← hadd1.2]
      unfold AddressSpace.find
      simp only
      rw [lookup_freshPages, hdiv]
      have hc : b / 4096 ≤ b / 4096 + i / 4096 ∧
          b / 4096 + i / 4096 < b / 4096 + file.size / 4096 := by omega
      rw [if_pos hc]
      congr 2
      omega
    have hfind2 : s2.2.find (b + i) = some ⟨true, true, false, h.next + i / 4096⟩ := by
      unfold AddressSpace.find at hfind1 ⊢
      rw [hpages2]
      exact hfind1
    refine ⟨?_, hb2, ?_, ?_⟩
    · simp [AddressSpace.permsAt, hfind2]
    · unfold AddressSpace.byteAt at hb2 ⊢
      rw [find_SetPermissions _ _ _ _ _ _ halive2, hfind2]
      rw [hfind2] at hb2
      simpa [hin] using hb2
    · unfold AddressSpace.permsAt
      rw [find_SetPermissions _ _ _ _ _ _ halive2, hfind2]
      simp [hin]

/-- Witness for C14: a 4096-byte file loaded at `[0x1000, 0x2000)` into the
empty address space through reads of at most 1000 bytes, with recorded
permissions read and execute but not write. -/
theorem page_range_loaded_witness :
    AddressSpace.empty.is_dead = false ∧
    demoCodeFiles.file ("ws" ++ "/memory/" ++ demoCodeRange.name) = some demoCodeFile ∧
    (demoCodeFile.size : Int) = demoCodeRange.limit - demoCodeRange.base ∧
    ∃ s3, grr.LoadPageRange specAddressSpaceOps "ws" demoCodeFiles 4096
        (demoEmptyHeap, AddressSpace.empty) demoCodeRange = .done s3 ∧
      AddressSpace.byteAt s3.1 s3.2 (0x1000 + 5) = some (demoCodeFile.byteAt 5) ∧
      AddressSpace.permsAt s3.2 (0x1000 + 5) = some (true, false, true) :=
  ⟨rfl, rfl, by decide,
    let ⟨_, _, _, _, _, hload, hall⟩ :=
      page_range_loaded "ws" demoCodeFiles 4096 demoEmptyHeap AddressSpace.empty
        demoCodeRange demoCodeFile rfl (by decide) (by decide) (by decide) (by decide)
        (by decide) (fun p hp => absurd hp (List.not_mem_nil p)) rfl (by decide)
        (fun _ _ => ⟨1000, rfl, by decide⟩) (by decide)
    ⟨_, hload, (hall 5 (by decide)).2.2.1, (hall 5 (by decide)).2.2.2⟩⟩

/-! ## The block held for every pc -/

theorem lookup_liftInstruction_at (liftOk : Instruction → Bool)
    (bs : List (Nat × BasicBlock)) (p : Nat) (i : Instruction)
    (hfresh : bs.lookup p = none ∨ bs.lookup p = some { body := [], terminators := [] }) :
    (liftInstruction liftOk bs (p, i)).lookup p = some (liftedBlock liftOk i) := by
  unfold liftInstruction liftedBlock emittedTerminator
  dsimp only
  rcases hfresh with hlk | hlk <;> cases hok : liftOk i <;> cases hc : i.category <;>
    simp [AddTerminatingTailCall, lookup_appendTerminator, lookup_appendBody,
      lookup_GetOrCreateBlock, hlk]

theorem or_ite_some {β : Type} (a b : Prop) [Decidable a] [Decidable b] (x : β) :
    (if a then some x else none).or (if b then some x else none) =
      if a ∨ b then some x else none := by
  by_cases ha : a <;> by_cases hb : b <;> simp [ha, hb]

theorem lookup_liftInstruction_off (liftOk : Instruction → Bool)
    (bs : List (Nat × BasicBlock)) (q : Nat) (i : Instruction) (p : Nat) (hne : p ≠ q) :
    (liftInstruction liftOk bs (q, i)).lookup p =
      (bs.lookup p).or (if p ∈ (emittedTerminator liftOk i).targets then
        some { body := [], terminators := [] } else none) := by
  unfold liftInstruction emittedTerminator
  dsimp only
  cases hlk : bs.lookup p <;> cases hok : liftOk i <;> cases hc : i.category <;>
    simp [AddTerminatingTailCall, lookup_appendTerminator, lookup_appendBody,
      lookup_GetOrCreateBlock, hne, hlk, Terminator.targets, or_ite_some]

theorem blockAfter_snoc (liftOk : Instruction → Bool) (root : Nat) (rd : Bool)
    (pre : List (Nat × Instruction)) (q : Nat) (i : Instruction)
    (bs : List (Nat × BasicBlock))
    (hq : ∀ e ∈ pre, e.1 ≠ q) (hroot : q = root → rd = true)
    (hbs : ∀ k, bs.lookup k = blockAfter liftOk root rd pre k) (k : Nat) :
    (liftInstruction liftOk bs (q, i)).lookup k =
      blockAfter liftOk root rd (pre ++ [(q, i)]) k := by
  by_cases hk : k = q
  · subst hk
    have hpre : pre.lookup k = none := by
      rw [List.lookup_eq_none_iff]
      intro p hp
      simpa using fun h => hq p hp h.symm
    have hfresh : bs.lookup k = none ∨
        bs.lookup k = some { body := [], terminators := [] } := by
      rw [hbs]
      unfold blockAfter
      rw [hpre]
      by_cases hr : k = root
      · simp [hr, hroot hr]
      · cases referencedBy liftOk pre k <;> simp [hr]
    rw [lookup_liftInstruction_at liftOk bs k i hfresh]
    unfold blockAfter
    rw [List.lookup_append, hpre]
    simp
  · have hone : [(q, i)].lookup k = none := by
      rw [List.lookup_eq_none_iff]
      intro p hp
      simp only [List.mem_singleton] at hp
      subst hp
      simpa using hk
    rw [lookup_liftInstruction_off liftOk bs q i k hk, hbs]
    unfold blockAfter referencedBy
    rw [List.lookup_append, hone]
    cases hpre : pre.lookup k with
    | some inst => simp
    | none =>
      by_cases hr : k = root
      · simp [hr]
      · by_cases href : pre.any (fun e => decide (k ∈ (emittedTerminator liftOk e.2).targets))
        · simp [hr, href]
        · simp [hr, href]

theorem lookup_foldl_liftInstruction (liftOk : Instruction → Bool) (root : Nat) (rd : Bool)
    (rest : List (Nat × Instruction)) :
    ∀ (pre : List (Nat × Instruction)) (bs : List (Nat × BasicBlock)),
      (pre ++ rest).Pairwise (fun a b => a.1 < b.1) →
      (∀ e ∈ rest, e.1 = root → rd = true) →
      (∀ k, bs.lookup k = blockAfter liftOk root rd pre k) →
      ∀ k, (rest.foldl (liftInstruction liftOk) bs).lookup k =
        blockAfter liftOk root rd (pre ++ rest) k := by
  induction rest with
  | nil =>
    intro pre bs _ _ hbs k
    simpa using hbs k
  | cons e rest ih =>
    intro pre bs hpw hroot hbs k
    obtain ⟨q, i⟩ := e
    have hq : ∀ e ∈ pre, e.1 ≠ q := by
      intro e he
      have := (List.pairwise_append.mp hpw).2.2 e he (q, i) (by simp)
      simp only at this
      omega
    have hstep := blockAfter_snoc liftOk root rd pre q i bs hq
      (hroot (q, i) (by simp)) hbs
    have := ih (pre ++ [(q, i)]) (liftInstruction liftOk bs (q, i))
      (by simpa using hpw) (fun e he => hroot e (List.mem_cons_of_mem _ he)) hstep k
    simpa using this

theorem count_eq_zero_iff_lookup (insts : InstructionMap) (pc : Nat) :
    insts.count pc = 0 ↔ insts.entries.lookup pc = none := by
  unfold InstructionMap.count
  rw [List.lookup_eq_none_iff]
  constructor
  · intro h p hp
    by_cases hany : insts.entries.any (fun e => e.1 == pc) = true
    · simp [hany] at h
    · simp only [List.any_eq_true, not_exists, not_and] at hany
      have := hany p hp
      simp only [bne_iff_ne, ne_eq]
      intro heq
      apply this
      simp [heq]
  · intro h
    have hany : ¬ insts.entries.any (fun e => e.1 == pc) = true := by
      simp only [List.any_eq_true, not_exists, not_and]
      intro p hp h2
      have := h p hp
      simp only [bne_iff_ne, ne_eq] at this
      exact this (eq_of_beq h2).symm
    simp [hany]

/-- The block that the function built by `LiftIntoModule` holds for each pc. -/
theorem blockAt_buildLiftedFunction (liftOk : Instruction → Bool) (func_name : String)
    (root : Nat) (insts : InstructionMap) (k : Nat) :
    (buildLiftedFunction liftOk func_name root insts).blockAt k =
      match insts.entries.lookup k with
      | some inst => some (liftedBlock liftOk inst)
      | none =>
        if k = root then some { body := [], terminators := [.tailCall .error] }
        else if referencedBy liftOk insts.entries k then
          some { body := [], terminators := [.tailCall .missing_block] }
        else none := by
  have hinit : ∀ j, (if insts.count root = 0 then
        AddTerminatingTailCall (GetOrCreateBlock [] root) root .error
        else GetOrCreateBlock [] root).lookup j =
      blockAfter liftOk root (decide (insts.count root ≠ 0)) [] j := by
    intro j
    unfold blockAfter referencedBy
    by_cases hc : insts.count root = 0 <;> by_cases hj : j = root <;>
      simp [hc, hj, AddTerminatingTailCall, lookup_appendTerminator, lookup_GetOrCreateBlock]
  have hroot : ∀ e ∈ insts.entries, e.1 = root → decide (insts.count root ≠ 0) = true := by
    intro e he her
    have : insts.entries.lookup root ≠ none := by
      rw [Ne, List.lookup_eq_none_iff]
      intro h
      have := h e he
      simp [her] at this
    simpa [count_eq_zero_iff_lookup] using this
  have hfold := lookup_foldl_liftInstruction liftOk root (decide (insts.count root ≠ 0))
    insts.entries [] _ (by simpa using insts.ascending) hroot hinit k
  unfold LFunction.blockAt buildLiftedFunction
  dsimp only
  rw [lookup_terminateStragglers, hfold]
  unfold blockAfter liftedBlock
  simp only [List.nil_append]
  cases hlk : insts.entries.lookup k with
  | some inst => simp
  | none =>
    by_cases hk : k = root
    · have hc : insts.count root = 0 := by
        rw [count_eq_zero_iff_lookup, ← hk]
        exact hlk
      simp [hk, hc]
    · by_cases href : referencedBy liftOk insts.entries k = true
      · simp [hk, href]
      · simp [hk, href]

theorem keys_GetOrCreateBlock (bs : List (Nat × BasicBlock)) (q : Nat)
    (h : (bs.map Prod.fst).Nodup) : ((GetOrCreateBlock bs q).map Prod.fst).Nodup := by
  unfold GetOrCreateBlock
  by_cases hany : bs.any (fun e => e.1 == q) = true
  · simpa [hany] using h
  · rw [if_neg hany]
    simp only [List.any_eq_true, not_exists, not_and] at hany
    rw [List.map_append, List.nodup_append]
    refine ⟨h, by simp, ?_⟩
    intro a ha hb
    simp only [List.map_cons, List.map_nil, List.mem_singleton] at hb
    obtain ⟨e, he, hea⟩ := List.mem_map.mp ha
    have := hany e he
    simp [hea, hb] at this

theorem keys_appendTerminator (bs : List (Nat × BasicBlock)) (q : Nat) (t : Terminator) :
    (appendTerminator bs q t).map Prod.fst = bs.map Prod.fst := by
  unfold appendTerminator
  rw [List.map_map]
  apply List.map_congr_left
  intro e _
  by_cases he : e.1 = q <;> simp [he]

theorem keys_appendBody (bs : List (Nat × BasicBlock)) (q : Nat) (i : Instruction) :
    (appendBody bs q i).map Prod.fst = bs.map Prod.fst := by
  unfold appendBody
  rw [List.map_map]
  apply List.map_congr_left
  intro e _
  by_cases he : e.1 = q <;> simp [he]

theorem keys_terminateStragglers (bs : List (Nat × BasicBlock)) :
    (terminateStragglers bs).map Prod.fst = bs.map Prod.fst := by
  unfold terminateStragglers
  rw [List.map_map]
  apply List.map_congr_left
  intro e _
  simp only [Function.comp]
  split <;> rfl

theorem keys_liftInstruction (liftOk : Instruction → Bool) (bs : List (Nat × BasicBlock))
    (e : Nat × Instruction) (h : (bs.map Prod.fst).Nodup) :
    ((liftInstruction liftOk bs e).map Prod.fst).Nodup := by
  unfold liftInstruction
  dsimp only
  cases hok : liftOk e.2 <;> cases hc : e.2.category <;>
    simp only [AddTerminatingTailCall, keys_appendTerminator, keys_appendBody, Bool.not_false,
      Bool.not_true, if_true, Bool.false_eq_true, if_false] <;>
    first
      | exact keys_GetOrCreateBlock _ _ h
      | (apply keys_GetOrCreateBlock
         rw [keys_appendBody]
         exact keys_GetOrCreateBlock _ _ h)
      | (apply keys_GetOrCreateBlock
         apply keys_GetOrCreateBlock
         rw [keys_appendBody]
         exact keys_GetOrCreateBlock _ _ h)

theorem keys_foldl_liftInstruction (liftOk : Instruction → Bool)
    (entries : List (Nat × Instruction)) :
    ∀ bs : List (Nat × BasicBlock), (bs.map Prod.fst).Nodup →
      ((entries.foldl (liftInstruction liftOk) bs).map Prod.fst).Nodup := by
  induction entries with
  | nil => intro bs h; exact h
  | cons e entries ih => intro bs h; exact ih _ (keys_liftInstruction liftOk bs e h)

/-- The block map of the function built by `LiftIntoModule` holds one block per pc. -/
theorem keys_buildLiftedFunction (liftOk : Instruction → Bool) (func_name : String)
    (root : Nat) (insts : InstructionMap) :
    ((buildLiftedFunction liftOk func_name root insts).blocks.map Prod.fst).Nodup := by
  unfold buildLiftedFunction
  dsimp only
  rw [keys_terminateStragglers]
  apply keys_foldl_liftInstruction
  split
  · rw [AddTerminatingTailCall, keys_appendTerminator]
    exact keys_GetOrCreateBlock _ _ (by simp)
  · exact keys_GetOrCreateBlock _ _ (by simp)

theorem lookup_of_mem_of_nodup {β : Type} (l : List (Nat × β))
    (h : (l.map Prod.fst).Nodup) (k : Nat) (b : β) (hm : (k, b) ∈ l) :
    l.lookup k = some b := by
  induction l with
  | nil => simp at hm
  | cons e l ih =>
    obtain ⟨a, c⟩ := e
    simp only [List.map_cons, List.nodup_cons] at h
    rcases List.mem_cons.mp hm with heq | hin
    · cases heq
      simp
    · have hne : k ≠ a := by
        intro hka
        apply h.1
        rw [← hka]
        exact List.mem_map.mpr ⟨(k, b), hin, rfl⟩
      have hb : (k == a) = false := by simpa using hne
      rw [List.lookup_cons, hb]
      exact ih h.2 hin

theorem entries_keys_nodup (insts : InstructionMap) : (insts.entries.map Prod.fst).Nodup := by
  unfold List.Nodup
  rw [List.pairwise_map]
  exact insts.ascending.imp (fun h => Nat.ne_of_lt h)

theorem lookup_entries_of_mem (insts : InstructionMap) (p : Nat) (inst : Instruction)
    (hmem : (p, inst) ∈ insts.entries) : insts.entries.lookup p = some inst :=
  lookup_of_mem_of_nodup insts.entries (entries_keys_nodup insts) p inst hmem

theorem mem_of_lookup_eq_some {β : Type} (l : List (Nat × β)) (k : Nat) (b : β)
    (h : l.lookup k = some b) : (k, b) ∈ l := by
  obtain ⟨l1, l2, hl, -⟩ := List.lookup_eq_some_iff.mp h
  rw [hl]
  simp

theorem blockAt_decoded (liftOk : Instruction → Bool) (func_name : String) (root : Nat)
    (insts : InstructionMap) (p : Nat) (inst : Instruction)
    (hmem : (p, inst) ∈ insts.entries) :
    (buildLiftedFunction liftOk func_name root insts).blockAt p =
      some (liftedBlock liftOk inst) := by
  rw [blockAt_buildLiftedFunction, lookup_entries_of_mem insts p inst hmem]

theorem blockAt_target_isSome (liftOk : Instruction → Bool) (func_name : String) (root : Nat)
    (insts : InstructionMap) (p : Nat) (inst : Instruction)
    (hmem : (p, inst) ∈ insts.entries) (target : Nat)
    (ht : target ∈ (emittedTerminator liftOk inst).targets) :
    ((buildLiftedFunction liftOk func_name root insts).blockAt target).isSome := by
  have href : referencedBy liftOk insts.entries target = true := by
    unfold referencedBy
    rw [List.any_eq_true]
    exact ⟨(p, inst), hmem, by simpa using ht⟩
  rw [blockAt_buildLiftedFunction]
  cases insts.entries.lookup target with
  | some i => simp
  | none =>
    by_cases hr : target = root
    · simp [hr]
    · simp [hr, href]

theorem blockAt_undecoded (liftOk : Instruction → Bool) (func_name : String) (root : Nat)
    (insts : InstructionMap) (k : Nat) (hk : insts.count k = 0) :
    (buildLiftedFunction liftOk func_name root insts).blockAt k =
      if k = root then some { body := [], terminators := [.tailCall .error] }
      else if referencedBy liftOk insts.entries k then
        some { body := [], terminators := [.tailCall .missing_block] }
      else none := by
  rw [blockAt_buildLiftedFunction, (count_eq_zero_iff_lookup insts k).mp hk]

/-! ## Conditional hyper calls -/

/-- C21, refutation. In the trace of a conditional hyper call at `0x1000`
with return instructions decoded at both targets, the block of the hyper call
ends in a conditional branch to the blocks of `0x2000` and `0x1001`; the taken
block `0x2000` is the block of the instruction decoded there and ends in the
`function_return` tail call, and no block of the function has an
`async_hyper_call` tail call. When no body lifts, the block of the hyper call
ends in the `error` tail call and has no conditional branch. -/
theorem conditional_hyper_call_taken_edge_is_pc_block :
    (buildLiftedFunction (fun _ => true) "f" 0x1000 demoHyperCallInsts).blockAt 0x1000 =
      some { body := [demoHyperCall], terminators := [.condBr 0x2000 0x1001] } ∧
    (buildLiftedFunction (fun _ => true) "f" 0x1000 demoHyperCallInsts).blockAt 0x2000 =
      some { body := [demoRetAt 0x2000], terminators := [.tailCall .function_return] } ∧
    (∀ e ∈ (buildLiftedFunction (fun _ => true) "f" 0x1000 demoHyperCallInsts).blocks,
      Terminator.tailCall .async_hyper_call ∉ e.2.terminators) ∧
    (buildLiftedFunction (fun _ => false) "f" 0x1000 demoHyperCallInsts).blockAt 0x1000 =
      some { body := [], terminators := [.tailCall .error] } := by
  refine ⟨by decide, by decide, by decide, by decide⟩

/-- C21, as amended. The block of a decoded ConditionalAsyncHyperCall
instruction whose body lifts ends in exactly one terminator, the conditional
branch to the block of `branch_taken_pc` (taken) and the block of
`branch_not_taken_pc` (not taken), both of which exist, as for a
ConditionalBranch; when its body does not lift the block ends in the `error`
tail call. In the whole function only blocks of AsyncHyperCall instructions
whose body lifted end in the `async_hyper_call` tail call. -/
theorem conditional_hyper_call_lifted_as_branch (liftOk : Instruction → Bool)
    (func_name : String) (root : Nat) (insts : InstructionMap) (pc : Nat)
    (inst : Instruction) (hmem : (pc, inst) ∈ insts.entries)
    (hcat : inst.category = .ConditionalAsyncHyperCall) :
    (liftOk inst = true →
      (buildLiftedFunction liftOk func_name root insts).blockAt pc =
        some { body := [inst],
               terminators := [.condBr inst.branch_taken_pc inst.branch_not_taken_pc] } ∧
      ((buildLiftedFunction liftOk func_name root insts).blockAt
        inst.branch_taken_pc).isSome ∧
      ((buildLiftedFunction liftOk func_name root insts).blockAt
        inst.branch_not_taken_pc).isSome) ∧
    (liftOk inst = false →
      (buildLiftedFunction liftOk func_name root insts).blockAt pc =
        some { body := [], terminators := [.tailCall .error] }) ∧
    (∀ k b, (buildLiftedFunction liftOk func_name root insts).blockAt k = some b →
      Terminator.tailCall .async_hyper_call ∈ b.terminators →
      ∃ i, (k, i) ∈ insts.entries ∧ i.category = .AsyncHyperCall ∧ liftOk i = true) := by
  refine ⟨fun hok => ?_, fun hok => ?_, fun k b hb hin => ?_⟩
  · have hterm : emittedTerminator liftOk inst =
        .condBr inst.branch_taken_pc inst.branch_not_taken_pc := by
      simp [emittedTerminator, hok, hcat]
    refine ⟨?_, ?_, ?_⟩
    · rw [blockAt_decoded liftOk func_name root insts pc inst hmem]
      simp [liftedBlock, hok, hterm]
    · exact blockAt_target_isSome liftOk func_name root insts pc inst hmem _
        (by simp [hterm, Terminator.targets])
    · exact blockAt_target_isSome liftOk func_name root insts pc inst hmem _
        (by simp [hterm, Terminator.targets])
  · rw [blockAt_decoded liftOk func_name root insts pc inst hmem]
    simp [liftedBlock, emittedTerminator, hok]
  · rw [blockAt_buildLiftedFunction] at hb
    cases hlk : insts.entries.lookup k with
    | some i =>
      rw [hlk] at hb
      simp only [Option.some.injEq] at hb
      subst hb
      refine ⟨i, mem_of_lookup_eq_some _ _ _ hlk, ?_⟩
      simp only [liftedBlock, List.mem_singleton] at hin
      unfold emittedTerminator at hin
      cases hok : liftOk i <;> cases hc : i.category <;> simp [hok, hc] at hin ⊢
    | none =>
      rw [hlk] at hb
      by_cases hr : k = root
      · simp only [hr, if_true, Option.some.injEq] at hb
        subst hb
        simp at hin
      · by_cases href : referencedBy liftOk insts.entries k = true
        · simp only [hr, href, if_true, if_false, Option.some.injEq] at hb
          subst hb
          simp at hin
        · simp [hr, href] at hb

/-- Witness for C21 as amended, on the trace of the conditional hyper call at
`0x1000`. -/
theorem conditional_hyper_call_lifted_as_branch_witness :
    (0x1000, demoHyperCall) ∈ demoHyperCallInsts.entries ∧
    demoHyperCall.category = .ConditionalAsyncHyperCall ∧
    (buildLiftedFunction (fun _ => true) "f" 0x1000 demoHyperCallInsts).blockAt 0x1000 =
      some { body := [demoHyperCall], terminators := [.condBr 0x2000 0x1001] } ∧
    ((buildLiftedFunction (fun _ => true) "f" 0x1000 demoHyperCallInsts).blockAt
      0x2000).isSome ∧
    ((buildLiftedFunction (fun _ => true) "f" 0x1000 demoHyperCallInsts).blockAt
      0x1001).isSome :=
  ⟨by decide, rfl,
    (conditional_hyper_call_lifted_as_branch (fun _ => true) "f" 0x1000 demoHyperCallInsts
      0x1000 demoHyperCall (by decide) rfl).1 rfl⟩

/-! ## The entry and the root block -/

/-- C22. For every root pc and instruction map, the entry of the function
built by `LiftIntoModule` holds exactly one terminator, a branch to the block
of the root pc, and that block exists; if the root pc is not in the
instruction map, that block is empty and ends in the `error` tail call and
nothing else. -/
theorem entry_branches_to_root_block (liftOk : Instruction → Bool) (func_name : String)
    (root : Nat) (insts : InstructionMap) :
    (buildLiftedFunction liftOk func_name root insts).entry = [.br root] ∧
    ((buildLiftedFunction liftOk func_name root insts).blockAt root).isSome ∧
    (insts.count root = 0 →
      (buildLiftedFunction liftOk func_name root insts).blockAt root =
        some { body := [], terminators := [.tailCall .error] }) := by
  refine ⟨rfl, ?_, fun h0 => ?_⟩
  · rw [blockAt_buildLiftedFunction]
    cases insts.entries.lookup root <;> simp
  · rw [blockAt_undecoded liftOk func_name root insts root h0]
    simp

/-- Witness for C22: the two-instruction demo trace lifted from the root
`0x3000`, which it does not hold. -/
theorem entry_branches_to_root_block_witness :
    demoInsts.count 0x3000 = 0 ∧
    (buildLiftedFunction (fun _ => true) "f" 0x3000 demoInsts).entry = [.br 0x3000] ∧
    (buildLiftedFunction (fun _ => true) "f" 0x3000 demoInsts).blockAt 0x3000 =
      some { body := [], terminators := [.tailCall .error] } :=
  ⟨by decide,
    (entry_branches_to_root_block (fun _ => true) "f" 0x3000 demoInsts).1,
    (entry_branches_to_root_block (fun _ => true) "f" 0x3000 demoInsts).2.2 (by decide)⟩

/-! ## Blocks outside the decoded set -/

theorem blockAt_referenced_undecoded (liftOk : Instruction → Bool) (func_name : String)
    (root : Nat) (insts : InstructionMap) (p : Nat) (inst : Instruction) (b : BasicBlock)
    (t : Terminator) (k : Nat) (hmem : (p, inst) ∈ insts.entries)
    (hb : (buildLiftedFunction liftOk func_name root insts).blockAt p = some b)
    (ht : t ∈ b.terminators) (hk : k ∈ t.targets) (hout : insts.count k = 0) :
    (buildLiftedFunction liftOk func_name root insts).blockAt k =
      some { body := [],
             terminators := [.tailCall (if k = root then .error else .missing_block)] } := by
  rw [blockAt_decoded liftOk func_name root insts p inst hmem] at hb
  simp only [Option.some.injEq] at hb
  subst hb
  simp only [liftedBlock, List.mem_singleton] at ht
  subst ht
  have href : referencedBy liftOk insts.entries k = true := by
    unfold referencedBy
    rw [List.any_eq_true]
    exact ⟨(p, inst), hmem, by simpa using hk⟩
  rw [blockAt_undecoded liftOk func_name root insts k hout]
  by_cases hkr : k = root
  · simp [hkr]
  · simp [hkr, href]

/-- C23. Let the instruction map be one the decoder returns for the root pc
(if it holds any instruction it holds one at the root). For every pc `k`
outside the map that is a branch target of a terminator of the block of a
decoded instruction, the block of `k` is empty and ends in the `missing_block`
tail call and nothing else. No block of a decoded instruction has a
`missing_block` tail call; this part holds for every instruction map. -/
theorem straggler_blocks_end_in_missing_block (liftOk : Instruction → Bool)
    (func_name : String) (root : Nat) (insts : InstructionMap)
    (hroot : insts.RootedAt root) :
    (∀ p inst b t k, (p, inst) ∈ insts.entries →
      (buildLiftedFunction liftOk func_name root insts).blockAt p = some b →
      t ∈ b.terminators → k ∈ t.targets → insts.count k = 0 →
      (buildLiftedFunction liftOk func_name root insts).blockAt k =
        some { body := [], terminators := [.tailCall .missing_block] }) ∧
    (∀ p inst b, (p, inst) ∈ insts.entries →
      (buildLiftedFunction liftOk func_name root insts).blockAt p = some b →
      Terminator.tailCall .missing_block ∉ b.terminators) := by
  constructor
  · intro p inst b t k hmem hb ht hk hout
    have hne : k ≠ root := by
      intro hkr
      have hnonempty : insts.entries ≠ [] := List.ne_nil_of_mem hmem
      exact hroot hnonempty (hkr ▸ hout)
    rw [blockAt_referenced_undecoded liftOk func_name root insts p inst b t k hmem hb ht hk
      hout]
    simp [hne]
  · intro p inst b hmem hb hin
    rw [blockAt_decoded liftOk func_name root insts p inst hmem] at hb
    simp only [Option.some.injEq] at hb
    subst hb
    simp only [liftedBlock, List.mem_singleton] at hin
    unfold emittedTerminator at hin
    cases hok : liftOk inst <;> cases hc : inst.category <;> simp [hok, hc] at hin

/-- Witness for C23: in the trace of the conditional branch at the root
`0x1000`, the taken target `0x1010` is outside the map and its block ends in
`missing_block`. -/
theorem straggler_blocks_end_in_missing_block_witness :
    demoBranchInsts.RootedAt 0x1000 ∧
    (0x1000, demoBranch) ∈ demoBranchInsts.entries ∧
    demoBranchInsts.count 0x1010 = 0 ∧
    (buildLiftedFunction (fun _ => true) "f" 0x1000 demoBranchInsts).blockAt 0x1000 =
      some { body := [demoBranch], terminators := [.condBr 0x1010 0x1002] } ∧
    (buildLiftedFunction (fun _ => true) "f" 0x1000 demoBranchInsts).blockAt 0x1010 =
      some { body := [], terminators := [.tailCall .missing_block] } :=
  ⟨fun _ => by decide, by decide, by decide, by decide,
    (straggler_blocks_end_in_missing_block (fun _ => true) "f" 0x1000
      demoBranchInsts (fun _ => by decide)).1 0x1000 demoBranch
      { body := [demoBranch], terminators := [.condBr 0x1010 0x1002] }
      (.condBr 0x1010 0x1002) 0x1010 (by decide) (by decide) (by decide) (by decide)
      (by decide)⟩

/-! ## The control-flow graph is well formed -/

/-- C24. For every root pc, instruction map and outcome of `LiftIntoBlock`,
in the function built by `LiftIntoModule` before optimization: the entry holds
exactly one terminator, the branch to the root block, which exists; the block
map holds one block per pc; every block holds exactly one terminator, and every
branch target of it is a block of the function; the block of an instruction
whose body fails to lift is empty and ends in the `error` tail call, whatever
its category. -/
theorem lifted_function_well_formed (liftOk : Instruction → Bool) (func_name : String)
    (root : Nat) (insts : InstructionMap) :
    (buildLiftedFunction liftOk func_name root insts).entry = [.br root] ∧
    ((buildLiftedFunction liftOk func_name root insts).blockAt root).isSome ∧
    ((buildLiftedFunction liftOk func_name root insts).blocks.map Prod.fst).Nodup ∧
    (∀ e ∈ (buildLiftedFunction liftOk func_name root insts).blocks,
      ∃ t, e.2.terminators = [t] ∧
        ∀ target ∈ t.targets,
          ((buildLiftedFunction liftOk func_name root insts).blockAt target).isSome) ∧
    (∀ p inst, (p, inst) ∈ insts.entries → liftOk inst = false →
      (buildLiftedFunction liftOk func_name root insts).blockAt p =
        some { body := [], terminators := [.tailCall .error] }) := by
  refine ⟨rfl, ?_, keys_buildLiftedFunction liftOk func_name root insts, ?_, ?_⟩
  · rw [blockAt_buildLiftedFunction]
    cases insts.entries.lookup root <;> simp
  · intro e he
    obtain ⟨k, b⟩ := e
    have hlk := lookup_of_mem_of_nodup _
      (keys_buildLiftedFunction liftOk func_name root insts) k b he
    have hb : (buildLiftedFunction liftOk func_name root insts).blockAt k = some b := hlk
    rw [blockAt_buildLiftedFunction] at hb
    cases hent : insts.entries.lookup k with
    | some inst =>
      rw [hent] at hb
      simp only [Option.some.injEq] at hb
      subst hb
      refine ⟨emittedTerminator liftOk inst, rfl, fun target ht => ?_⟩
      exact blockAt_target_isSome liftOk func_name root insts k inst
        (mem_of_lookup_eq_some _ _ _ hent) target ht
    | none =>
      rw [hent] at hb
      by_cases hr : k = root
      · simp only [hr, if_true, Option.some.injEq] at hb
        subst hb
        exact ⟨.tailCall .error, rfl, by simp [Terminator.targets]⟩
      · by_cases href : referencedBy liftOk insts.entries k = true
        · simp only [hr, href, if_true, if_false, Option.some.injEq] at hb
          subst hb
          exact ⟨.tailCall .missing_block, rfl, by simp [Terminator.targets]⟩
        · simp [hr, href] at hb
  · intro p inst hmem hok
    rw [blockAt_decoded liftOk func_name root insts p inst hmem]
    simp [liftedBlock, emittedTerminator, hok]

/-- Witness for C24 on the trace whose only instruction, a jump at `0x2000` to
the root `0x1000`, fails to lift: its block ends in the `error` tail call, and
the function has the two blocks of `0x1000` and `0x2000`. -/
theorem lifted_function_well_formed_witness :
    (0x2000, demoJump) ∈ demoJumpInsts.entries ∧
    (buildLiftedFunction (fun _ => false) "f" 0x1000 demoJumpInsts).blockAt 0x2000 =
      some { body := [], terminators := [.tailCall .error] } ∧
    ((buildLiftedFunction (fun _ => false) "f" 0x1000 demoJumpInsts).blocks.map
      Prod.fst) = [0x1000, 0x2000] ∧
    ((buildLiftedFunction (fun _ => false) "f" 0x1000 demoJumpInsts).blocks.map
      Prod.fst).Nodup :=
  ⟨by decide,
    (lifted_function_well_formed (fun _ => false) "f" 0x1000 demoJumpInsts).2.2.2.2
      0x2000 demoJump (by decide) rfl,
    by decide,
    (lifted_function_well_formed (fun _ => false) "f" 0x1000 demoJumpInsts).2.2.1⟩

/-! ## Adding the initial task -/

/-- C25. `AddInitialTask` returns normally exactly when the memory registry
is empty and the module has `__vmill_task_0`; otherwise it aborts. When it
returns, the registry holds exactly one address space, the given one (as the
lifter left it), at index 0, and the task queue is the old queue followed by
exactly one task, the one converted from the continuation; every later
`AddInitialTask` on the resulting executor aborts. -/
theorem AddInitialTask_only_first {AS : Type} (C : Collaborators AS) (e : Executor AS)
    (state : List Nat) (pc : Nat) (memory : AS) :
    taskVarName 0 = "__vmill_task_0" ∧
    ((Executor.AddInitialTask C e state pc memory).isSome ↔
      (e.memories = [] ∧ (e.lifted_code.getGlobalVariable (taskVarName 0)).isSome)) ∧
    (¬ (e.memories = [] ∧ (e.lifted_code.getGlobalVariable (taskVarName 0)).isSome) →
      Executor.AddInitialTask C e state pc memory = none) ∧
    (∀ e1, Executor.AddInitialTask C e state pc memory = some e1 →
      e1.memories = [(C.GetLiftedFunction e.lifted_code memory pc).2.2] ∧
      e1.memories.get? 0 = some (C.GetLiftedFunction e.lifted_code memory pc).2.2 ∧
      e1.tasks = e.tasks ++ [C.ConvertContinuationToTask
        { continuation := (C.GetLiftedFunction e.lifted_code memory pc).1,
          state := state, pc := pc }] ∧
      ∀ (C2 : Collaborators AS) (state2 : List Nat) (pc2 : Nat) (memory2 : AS),
        Executor.AddInitialTask C2 e1 state2 pc2 memory2 = none) := by
  have hmain : ∀ e1, Executor.AddInitialTask C e state pc memory = some e1 →
      e.memories = [] ∧ (e.lifted_code.getGlobalVariable (taskVarName 0)).isSome ∧
      e1 = { lifted_code := (C.GetLiftedFunction e.lifted_code memory pc).2.1,
             memories := [(C.GetLiftedFunction e.lifted_code memory pc).2.2],
             tasks := e.tasks ++ [C.ConvertContinuationToTask
               { continuation := (C.GetLiftedFunction e.lifted_code memory pc).1,
                 state := state, pc := pc }],
             interpreter := true } := by
    intro e1 h1
    cases hm : e.memories with
    | cons a l => simp [Executor.AddInitialTask, hm] at h1
    | nil =>
      simp only [Executor.AddInitialTask, hm, List.isEmpty_nil, Bool.not_true,
        Bool.false_eq_true, if_false, List.length_nil, ensureTaskVar_zero] at h1
      cases hv : (e.lifted_code.getGlobalVariable (taskVarName 0)).isSome with
      | false => simp [hv] at h1
      | true =>
        simp only [hv, if_true, Option.some.injEq, List.nil_append] at h1
        exact ⟨rfl, rfl, h1.symm⟩
  have hconv : Executor.AddInitialTask C e state pc memory ≠ none →
      e.memories = [] ∧ (e.lifted_code.getGlobalVariable (taskVarName 0)).isSome := by
    intro hne
    cases h : Executor.AddInitialTask C e state pc memory with
    | none => exact absurd h hne
    | some e1 => exact ⟨(hmain e1 h).1, (hmain e1 h).2.1⟩
  refine ⟨by decide, ⟨?_, ?_⟩, ?_, ?_⟩
  · intro hsome
    apply hconv
    intro hnone
    rw [hnone] at hsome
    simp at hsome
  · rintro ⟨hm, hv⟩
    simp [Executor.AddInitialTask, hm, ensureTaskVar_zero, hv]
  · intro hnot
    cases h : Executor.AddInitialTask C e state pc memory with
    | none => rfl
    | some e1 => exact absurd (hconv (by simp [h])) hnot
  · intro e1 h1
    obtain ⟨-, -, he1⟩ := hmain e1 h1
    subst he1
    refine ⟨rfl, rfl, rfl, ?_⟩
    intro C2 state2 pc2 memory2
    simp [Executor.AddInitialTask]

/-- Witness for C25 on the demo executor: the first initial task is added, the
registry then holds the address space `0` and the queue the one task, and a
second `AddInitialTask` aborts. -/
theorem AddInitialTask_only_first_witness :
    Executor.AddInitialTask demoCollaborators demoExecutor [] 0x1000 0 =
      some demoExecutorOneTask ∧
    demoExecutorOneTask.memories = [0] ∧
    demoExecutorOneTask.tasks = demoExecutor.tasks ++ [0x1001] ∧
    Executor.AddInitialTask demoCollaborators demoExecutorOneTask [] 0x2000 1 = none :=
  ⟨by decide,
    ((AddInitialTask_only_first demoCollaborators demoExecutor [] 0x1000 0).2.2.2
      demoExecutorOneTask (by decide)).1,
    ((AddInitialTask_only_first demoCollaborators demoExecutor [] 0x1000 0).2.2.2
      demoExecutorOneTask (by decide)).2.2.1,
    ((AddInitialTask_only_first demoCollaborators demoExecutor [] 0x1000 0).2.2.2
      demoExecutorOneTask (by decide)).2.2.2 demoCollaborators [] 0x2000 1⟩

end vmill
